import Mathlib

/-!
# PCL block compression engine (pcl/Compression.cpp)

A shallow embedding of `PCL_CompressionEngine`, `PCL_DecompressionEngine` and
their worker threads, followed by theorems about them.

Conventions of the embedding:

* a byte buffer is a `List Nat`; a pointer plus a length is the list together
  with the length that the code reads;
* `size_type` and `int` values are unbounded `Nat` / `Int`, except for the
  unsigned subtraction in the performance record, which wraps modulo `2^64`;
* a thrown `pcl::Error` is `Outcome.thrown` with its message, and a call whose
  behaviour C++ leaves undefined (integer division by zero, indexing an empty
  thread array) is `Outcome.undefined`;
* the stores of the worker threads are applied to the buffers thread after
  thread; the shared error list of the decompression threads holds the
  messages in the order in which the threads append them under the mutex,
  which is a parameter (`External.arrival`);
* functions and constants that the file uses but does not define (`Hash64`,
  `Shuffle`, `InPlaceUnshuffle`, `Thread::NumberOfThreads`, the `sizeof` of the
  records, the codec behind the `API` pointer) are parameters.
-/

namespace pcl

/-! ## Data model -/

abbrev Byte := Nat

abbrev ByteArray := List Byte

/-- Compression::Subblock, one compressed or verbatim fragment. -/
structure Subblock where
  compressedData : ByteArray := []
  uncompressedSize : Nat := 0
  checksum : Nat := 0
deriving DecidableEq, Repr

abbrev subblock_list := List Subblock

/-- Compression::Performance without its wall-clock `throughput` field. The
`sizeReduction` field holds the exact quotient that the code rounds to a
`double`. -/
structure Performance where
  sizeReduction : ℚ
  numberOfThreads : Int
deriving DecidableEq

/-- The `Compression` object as the engines see it: the configuration
accessors and the virtual codec functions. `CompressBlock maxOutputSize input
level` is the sequence of bytes the codec stored at `outputData`; the
`size_type` it returns is the length of that sequence, zero meaning failure.
`UncompressBlock maxOutputSize input` is the returned size together with the
bytes the codec stored at `outputData`. -/
structure Compression where
  AlgorithmName : String
  CompressionLevel : Int
  SubblockSize : Nat
  ItemSize : Nat
  ByteShufflingEnabled : Bool
  ChecksumsEnabled : Bool
  IsParallelProcessingEnabled : Bool
  MaxProcessors : Int
  MaxCompressionLevel : Int
  DefaultCompressionLevel : Int
  MinBlockSize : Nat
  MaxBlockSize : Nat
  MaxCompressedBlockSize : Nat → Nat
  CompressBlock : Nat → ByteArray → Int → ByteArray
  UncompressBlock : Nat → ByteArray → Nat × ByteArray

/-- Library routines and layout constants that Compression.cpp uses and that
are declared elsewhere: `ByteArray::Hash64`, `Compression::Shuffle`,
`Compression::InPlaceUnshuffle`, `Thread::NumberOfThreads`,
`sizeof( Compression::Subblock )` and `sizeof( Compression::subblock_list )`;
and the scheduling of the worker threads, which the program does not
control: of two decompression threads that throw, the one whose index has the
smaller `arrival` value appends its message to `m_errors` first. -/
structure External where
  Hash64 : ByteArray → Nat
  Shuffle : ByteArray → Nat → ByteArray
  InPlaceUnshuffle : ByteArray → Nat → ByteArray
  NumberOfThreads : Nat → Nat → Int
  sizeofSubblock : Nat
  sizeofSubblockList : Nat
  arrival : Nat → Nat

/-- Result of a call: a normal return, a thrown `pcl::Error` with its message,
or no defined behaviour. -/
inductive Outcome (α : Type) where
  | returned : α → Outcome α
  | thrown : String → Outcome α
  | undefined : Outcome α
deriving DecidableEq

/-- What `Compression::Compress` leaves behind: its outcome and the
performance record of the caller. -/
structure CompressResult where
  outcome : Outcome subblock_list
  perf : Option Performance
deriving DecidableEq

/-- What `Compression::Uncompress` leaves behind: its outcome, the destination
buffer and the performance record of the caller. -/
structure UncompressResult where
  outcome : Outcome Nat
  data : ByteArray
  perf : Option Performance
deriving DecidableEq

/-! ## Helpers -/

/-- Modelled from the spec: the template `pcl::Min`, declared outside
Compression.cpp; the smaller of its two arguments. -/
def Min (a b : Int) : Int := if b < a then b else a

/-- Modelled from the spec: the template `pcl::Range`, declared outside
Compression.cpp; `x` clamped to `[a, b]`. -/
def Range (x a b : Int) : Int := if x < a then a else if b < x then b else x

/-- The printf conversion `%llu`. -/
def fmt_llu (n : Nat) : String := toString n

/-- The printf conversion `%llx`. -/
def fmt_llx (n : Nat) : String := String.mk (Nat.toDigits 16 n)

/-- Subtraction of two `size_type` values, modulo `2^64`. -/
def sub64 (a b : Nat) : Nat := (a % 2^64 + (2^64 - b % 2^64)) % 2^64

/-- Storing `bytes` at offset `off` of the buffer `buf`. -/
def writeAt (buf : ByteArray) (off : Nat) (bytes : ByteArray) : ByteArray :=
  buf.take off ++ bytes ++ buf.drop (off + bytes.length)

/-- Sum of the `uncompressedSize` fields of a list of subblocks. -/
def totalUncompressed (subblocks : subblock_list) : Nat :=
  (subblocks.map Subblock.uncompressedSize).sum

/-- Sum of the payload lengths, `compressedData.Length()`, of a list. -/
def totalCompressed (subblocks : subblock_list) : Nat :=
  (subblocks.map (fun s => s.compressedData.length)).sum

/-- The footprint computed at lines 145-148 and 337-340: payload lengths plus
`subblocks.Size()` plus `sizeof( Compression::subblock_list )`. -/
def footprint (ext : External) (subblocks : subblock_list) : Nat :=
  totalCompressed subblocks + (subblocks.length * ext.sizeofSubblock + ext.sizeofSubblockList)

/-- Compression::Throw, as the message of the `Error` it throws. -/
def Compression.Throw (c : Compression) (errorMessage : String) : String :=
  c.AlgorithmName ++ " compression: " ++ errorMessage

/-- The worker count of lines 108-109 and 289-290 for `count` work items. -/
def numberOfThreads (ext : External) (c : Compression) (count : Nat) : Int :=
  if c.IsParallelProcessingEnabled then Min c.MaxProcessors (ext.NumberOfThreads count 1) else 1

/-! ## Compression engine -/

/-- The member variables of `PCL_CompressionEngine`. -/
structure PCL_CompressionEngine where
  m_compression : Compression
  m_compressionLevel : Int
  m_numberOfSubblocks : Nat
  m_subblockSize : Nat
  m_remainingSize : Nat
  m_data : ByteArray

/-- The compression level chosen at lines 83-87. -/
def effectiveCompressionLevel (c : Compression) : Int :=
  if c.CompressionLevel ≤ 0 then c.DefaultCompressionLevel
  else Range c.CompressionLevel 1 c.MaxCompressionLevel

/-- The subblock size chosen at lines 89-91. -/
def effectiveSubblockSize (c : Compression) : Nat :=
  if c.SubblockSize < c.MinBlockSize ∨ c.SubblockSize > c.MaxBlockSize then c.MaxBlockSize
  else c.SubblockSize

/-- Lines 81-106 of `PCL_CompressionEngine::operator()`: the member variables
after the set-up, for a non-null `data` and a nonzero `size`. -/
def PCL_CompressionEngine.setup (ext : External) (c : Compression) (data : ByteArray)
    (size : Nat) : PCL_CompressionEngine :=
  { m_compression := c
    m_compressionLevel := effectiveCompressionLevel c
    m_subblockSize := effectiveSubblockSize c
    m_numberOfSubblocks := size / effectiveSubblockSize c
    m_remainingSize := size % effectiveSubblockSize c
    m_data := if c.ByteShufflingEnabled ∧ c.ItemSize > 1
              then ext.Shuffle (data.take size) c.ItemSize else data }

/-- The `uncompressedSize` given to item `i` at line 194. -/
def PCL_CompressionEngine.itemSize (E : PCL_CompressionEngine) (i : Nat) : Nat :=
  if i < E.m_numberOfSubblocks then E.m_subblockSize else E.m_remainingSize

/-- The source range `[uncompressedBegin, uncompressedBegin + uncompressedSize)`
of item `i`, line 197. -/
def PCL_CompressionEngine.itemSource (E : PCL_CompressionEngine) (i : Nat) : ByteArray :=
  (E.m_data.drop (i * E.m_subblockSize)).take (E.itemSize i)

/-- The codec output for item `i`, lines 200-202. -/
def PCL_CompressionEngine.itemCompressed (E : PCL_CompressionEngine) (i : Nat) : ByteArray :=
  E.m_compression.CompressBlock (E.m_compression.MaxCompressedBlockSize (E.itemSize i))
    (E.itemSource i) E.m_compressionLevel

/-- The test of lines 198 and 203 that selects the compressed payload. -/
def PCL_CompressionEngine.itemIsCompressed (E : PCL_CompressionEngine) (i : Nat) : Bool :=
  decide (E.itemSize i ≥ E.m_compression.MinBlockSize) &&
    (decide ((E.itemCompressed i).length > 0) &&
      decide ((E.itemCompressed i).length < E.itemSize i))

/-- The body of the loop of `CompressionThread::Run`, lines 193-220: the
subblock appended for item `i`, if any. -/
def CompressionThread.subblockAt (ext : External) (E : PCL_CompressionEngine) (i : Nat) :
    Option Subblock :=
  if E.itemSize i > 0 then
    let compressedData :=
      if E.itemIsCompressed i then E.itemCompressed i else E.itemSource i
    some { compressedData := compressedData
           uncompressedSize := E.itemSize i
           checksum := if E.m_compression.ChecksumsEnabled then ext.Hash64 compressedData else 0 }
  else none

/-- The loop of `CompressionThread::Run` over the items
`m_beginSubblock ≤ i < m_endSubblock`: the thread's `subblocks`. Nothing in
the body throws, so the thread adds nothing to `m_errors`. -/
def CompressionThread.Run (ext : External) (E : PCL_CompressionEngine)
    (m_beginSubblock m_endSubblock : Nat) : subblock_list :=
  (List.range' m_beginSubblock (m_endSubblock - m_beginSubblock)).filterMap
    (CompressionThread.subblockAt ext E)

/-- The pairs `(beginSubblock, endSubblock)` of the threads created at lines
110-116. -/
def PCL_CompressionEngine.threads (E : PCL_CompressionEngine) (numberOfThreads : Nat) :
    List (Nat × Nat) :=
  let subblocksPerThread := (E.m_numberOfSubblocks + 1) / numberOfThreads
  (List.range numberOfThreads).map fun i =>
    (i * subblocksPerThread,
     if i + 1 < numberOfThreads then (i + 1) * subblocksPerThread else E.m_numberOfSubblocks + 1)

/-- The list assembled at lines 139-141 from the threads' lists, in thread
order. -/
def PCL_CompressionEngine.assemble (ext : External) (E : PCL_CompressionEngine)
    (numberOfThreads : Nat) : subblock_list :=
  ((E.threads numberOfThreads).map fun t => CompressionThread.Run ext E t.1 t.2).flatten

/-- Lines 110-160 of `PCL_CompressionEngine::operator()` for a positive worker
count. -/
def PCL_CompressionEngine.run (ext : External) (E : PCL_CompressionEngine)
    (numberOfThreads : Nat) (size : Nat) (perf : Option Performance) : CompressResult :=
  let subblocks := E.assemble ext numberOfThreads
  let compressedSize := footprint ext subblocks
  { outcome := .returned (if compressedSize ≥ size then [] else subblocks)
    perf := perf.map fun _ =>
      { sizeReduction := (sub64 size compressedSize : ℚ) / (size : ℚ)
        numberOfThreads := numberOfThreads } }

/-- The function `PCL_CompressionEngine::operator()`. A null `data` is `none`. -/
def PCL_CompressionEngine.operator (ext : External) (c : Compression)
    (data : Option ByteArray) (size : Nat) (perf : Option Performance) : CompressResult :=
  match data with
  | none => { outcome := .returned [], perf := perf }
  | some d =>
    if size = 0 then { outcome := .returned [], perf := perf }
    else if effectiveSubblockSize c = 0 then { outcome := .undefined, perf := perf }
    else
      let E := PCL_CompressionEngine.setup ext c d size
      let n := numberOfThreads ext c (E.m_numberOfSubblocks + 1)
      if n ≤ 0 then { outcome := .undefined, perf := perf }
      else E.run ext n.toNat size perf

/-- Compression::Compress. -/
def Compression.Compress (ext : External) (c : Compression) (data : Option ByteArray)
    (size : Nat) (perf : Option Performance) : CompressResult :=
  PCL_CompressionEngine.operator ext c data size perf

/-! ## The compression engine with a record of its codec calls -/

/-- One call of `CompressBlock`: its arguments `maxOutputSize`, the input
block `[inputData, inputData + inputSize)` and `level`. -/
structure CodecCall where
  maxOutputSize : Nat
  input : ByteArray
  level : Int
deriving DecidableEq

/-- The body of the loop of `CompressionThread::Run`, lines 193-220, statement
by statement: the subblock appended for item `i`, if any, and the calls of
`CompressBlock` made, which is the one of lines 200-202 when the tests of
lines 195 and 198 pass. -/
def CompressionThread.subblockAtTraced (ext : External) (E : PCL_CompressionEngine) (i : Nat) :
    Option Subblock × List CodecCall :=
  if E.itemSize i > 0 then
    if E.itemSize i ≥ E.m_compression.MinBlockSize then
      let maxOutputSize := E.m_compression.MaxCompressedBlockSize (E.itemSize i)
      let out := E.m_compression.CompressBlock maxOutputSize (E.itemSource i) E.m_compressionLevel
      let compressedData :=
        if out.length > 0 ∧ out.length < E.itemSize i then out else E.itemSource i
      (some { compressedData := compressedData
              uncompressedSize := E.itemSize i
              checksum :=
                if E.m_compression.ChecksumsEnabled then ext.Hash64 compressedData else 0 },
       [{ maxOutputSize := maxOutputSize, input := E.itemSource i,
          level := E.m_compressionLevel }])
    else
      (some { compressedData := E.itemSource i
              uncompressedSize := E.itemSize i
              checksum :=
                if E.m_compression.ChecksumsEnabled then ext.Hash64 (E.itemSource i) else 0 },
       [])
  else (none, [])

/-- The loop of `CompressionThread::Run` over the items
`m_beginSubblock ≤ i < m_endSubblock`: the thread's `subblocks` and the calls
of `CompressBlock` it has made, in order. -/
def CompressionThread.RunTraced (ext : External) (E : PCL_CompressionEngine)
    (m_beginSubblock m_endSubblock : Nat) : subblock_list × List CodecCall :=
  ((List.range' m_beginSubblock (m_endSubblock - m_beginSubblock)).foldl
    (fun acc i =>
      let r := CompressionThread.subblockAtTraced ext E i
      (acc.1 ++ r.1.toList, acc.2 ++ r.2))
    ([], []))

/-- The function `PCL_CompressionEngine::operator()`, with the calls of
`CompressBlock` made while it runs, thread after thread. A null `data` is
`none`. -/
def PCL_CompressionEngine.operatorTraced (ext : External) (c : Compression)
    (data : Option ByteArray) (size : Nat) (perf : Option Performance) :
    CompressResult × List CodecCall :=
  match data with
  | none => ({ outcome := .returned [], perf := perf }, [])
  | some d =>
    if size = 0 then ({ outcome := .returned [], perf := perf }, [])
    else if effectiveSubblockSize c = 0 then ({ outcome := .undefined, perf := perf }, [])
    else
      let E := PCL_CompressionEngine.setup ext c d size
      let n := numberOfThreads ext c (E.m_numberOfSubblocks + 1)
      if n ≤ 0 then ({ outcome := .undefined, perf := perf }, [])
      else
        let rs := (E.threads n.toNat).map fun t => CompressionThread.RunTraced ext E t.1 t.2
        let subblocks := (rs.map Prod.fst).flatten
        let compressedSize := footprint ext subblocks
        ({ outcome := .returned (if compressedSize ≥ size then [] else subblocks)
           perf := perf.map fun _ =>
             { sizeReduction := (sub64 size compressedSize : ℚ) / (size : ℚ)
               numberOfThreads := n.toNat } },
         (rs.map Prod.snd).flatten)

/-! ## Decompression engine -/

/-- The message thrown at lines 387-388. -/
def checksumMismatchMessage (offset expected got : Nat) : String :=
  "Sub-block checksum mismatch (offset=" ++ fmt_llu offset ++ ", expected " ++ fmt_llx expected
    ++ ", got " ++ fmt_llx got ++ ")"

/-- The message thrown at lines 398-399. -/
def failedToUncompressMessage (offset usize csize : Nat) : String :=
  "Failed to uncompress subblock data (offset=" ++ fmt_llu offset ++ " usize=" ++ fmt_llu usize
    ++ " csize=" ++ fmt_llu csize ++ ")"

/-- The message thrown at lines 401-402. -/
def subblockSizeMismatchMessage (offset expected got : Nat) : String :=
  "Uncompressed subblock size mismatch (offset=" ++ fmt_llu offset ++ ", expected "
    ++ fmt_llu expected ++ ", got " ++ fmt_llu got ++ ")"

/-- The message thrown at lines 413-414. -/
def dataSizeMismatchMessage (offset expected got : Nat) : String :=
  "Uncompressed data size mismatch (offset=" ++ fmt_llu offset ++ ", expected "
    ++ fmt_llu expected ++ ", got " ++ fmt_llu got ++ ")"

/-- The message built at lines 284-285. -/
def insufficientBufferMessage (required available : Nat) : String :=
  "Insufficient uncompression buffer length (required " ++ fmt_llu required ++ ", available "
    ++ fmt_llu available ++ ")"

/-- A `DecompressionThread`: its destination offset and its subblocks
`[m_begin, m_end)`. -/
structure DecompressionThread where
  m_offset : Nat
  m_subblocks : subblock_list
deriving DecidableEq

/-- The second loop of `DecompressionThread::Run`, lines 381-411, from the
subblock at the head of the list on, with the current `totalSize` and the
current destination buffer. It yields the buffer and either the final
`totalSize` or the message thrown. -/
def DecompressionThread.loop (ext : External) (c : Compression)
    (m_offset uncompressedSize : Nat) :
    subblock_list → Nat → ByteArray → ByteArray × Except String Nat
  | [], totalSize, buf => (buf, .ok totalSize)
  | i :: rest, totalSize, buf =>
    if i.checksum ≠ 0 ∧ i.checksum ≠ ext.Hash64 i.compressedData then
      (buf, .error (checksumMismatchMessage (m_offset + totalSize) i.checksum
        (ext.Hash64 i.compressedData)))
    else if i.compressedData.length < i.uncompressedSize then
      let r := c.UncompressBlock (uncompressedSize - totalSize) i.compressedData
      let buf1 := writeAt buf (m_offset + totalSize) r.2
      if r.1 = 0 then
        (buf1, .error (failedToUncompressMessage (m_offset + totalSize) i.uncompressedSize
          i.compressedData.length))
      else if r.1 ≠ i.uncompressedSize then
        (buf1, .error (subblockSizeMismatchMessage (m_offset + totalSize) i.uncompressedSize r.1))
      else
        DecompressionThread.loop ext c m_offset uncompressedSize rest
          (totalSize + i.uncompressedSize) buf1
    else
      DecompressionThread.loop ext c m_offset uncompressedSize rest
        (totalSize + i.uncompressedSize)
        (writeAt buf (m_offset + totalSize) (i.compressedData.take i.uncompressedSize))

/-- The function `DecompressionThread::Run`: the destination buffer after the
thread and the message it appends to `m_errors`, if any. -/
def DecompressionThread.Run (ext : External) (c : Compression) (t : DecompressionThread)
    (buf : ByteArray) : ByteArray × Option String :=
  let uncompressedSize := totalUncompressed t.m_subblocks
  match DecompressionThread.loop ext c t.m_offset uncompressedSize t.m_subblocks 0 buf with
  | (buf1, .ok totalSize) =>
    if totalSize ≠ uncompressedSize then
      (buf1, some (dataSizeMismatchMessage t.m_offset uncompressedSize totalSize))
    else (buf1, none)
  | (buf1, .error s) => (buf1, some s)

/-- The validation loop of lines 276-282, from the subblock at the head of the
list on, with the current `uncompressedSize`. -/
def PCL_DecompressionEngine.validate (c : Compression) :
    subblock_list → Nat → Except String Nat
  | [], uncompressedSize => .ok uncompressedSize
  | i :: rest, uncompressedSize =>
    if i.compressedData.isEmpty ∨ i.uncompressedSize = 0 then
      .error (c.Throw "Invalid compressed subblock data.")
    else PCL_DecompressionEngine.validate c rest (uncompressedSize + i.uncompressedSize)

/-- The loop of lines 295-305 from thread `i` on, with `k` threads still to be
created and the current `offset`. -/
def PCL_DecompressionEngine.createThreads (subblocks : subblock_list)
    (numberOfThreads subblocksPerThread : Nat) : Nat → Nat → Nat → List DecompressionThread
  | 0, _, _ => []
  | k + 1, i, offset =>
    let j := i + 1
    let part :=
      if j < numberOfThreads then
        (subblocks.drop (i * subblocksPerThread)).take (j * subblocksPerThread - i * subblocksPerThread)
      else subblocks.drop (i * subblocksPerThread)
    { m_offset := offset, m_subblocks := part } ::
      PCL_DecompressionEngine.createThreads subblocks numberOfThreads subblocksPerThread k j
        (if j < numberOfThreads then offset + totalUncompressed part else offset)

/-- The threads created at lines 291-305. -/
def PCL_DecompressionEngine.threads (subblocks : subblock_list) (numberOfThreads : Nat) :
    List DecompressionThread :=
  PCL_DecompressionEngine.createThreads subblocks numberOfThreads
    (subblocks.length / numberOfThreads) numberOfThreads 0 0

/-- Lines 311-319: the threads from index `i` on run to completion. The
result is the destination buffer and, for every thread that threw, its index
and its message, listed by thread index. The stores of a thread are applied
to the buffer before those of the threads that follow it in the list. -/
def PCL_DecompressionEngine.runThreads (ext : External) (c : Compression) :
    List DecompressionThread → Nat → ByteArray → List (Nat × String) →
      ByteArray × List (Nat × String)
  | [], _, buf, raised => (buf, raised)
  | t :: rest, i, buf, raised =>
    let r := t.Run ext c buf
    PCL_DecompressionEngine.runThreads ext c rest (i + 1) r.1
      (raised ++ (r.2.map fun s => (i, s)).toList)

/-- The list `E.m_errors` once the threads have finished: every thread that
threw has appended its message under the mutex (lines 416-439), in the order
in which the threads got there, the thread with the smaller `arrival` value
first. -/
def PCL_DecompressionEngine.m_errors (ext : External) (raised : List (Nat × String)) :
    List String :=
  (raised.insertionSort fun a b => ext.arrival a.1 ≤ ext.arrival b.1).map Prod.snd

/-- Lines 287-347 of `PCL_DecompressionEngine::operator()` for a positive
worker count, after the validation has produced `uncompressedSize`. -/
def PCL_DecompressionEngine.run (ext : External) (c : Compression) (numberOfThreads : Nat)
    (data : ByteArray) (uncompressedSize : Nat) (subblocks : subblock_list)
    (perf : Option Performance) : UncompressResult :=
  let r := PCL_DecompressionEngine.runThreads ext c
    (PCL_DecompressionEngine.threads subblocks numberOfThreads) 0 data []
  if PCL_DecompressionEngine.m_errors ext r.2 ≠ [] then
    { outcome := .thrown (c.Throw (String.intercalate "\n" (PCL_DecompressionEngine.m_errors ext r.2)))
      data := r.1, perf := perf }
  else
    { outcome := .returned uncompressedSize
      data :=
        if c.ByteShufflingEnabled ∧ c.ItemSize > 1 then
          ext.InPlaceUnshuffle (r.1.take uncompressedSize) c.ItemSize ++ r.1.drop uncompressedSize
        else r.1
      perf := perf.map fun _ =>
        { sizeReduction :=
            (sub64 uncompressedSize (footprint ext subblocks) : ℚ) / (uncompressedSize : ℚ)
          numberOfThreads := numberOfThreads } }

/-- The function `PCL_DecompressionEngine::operator()`. -/
def PCL_DecompressionEngine.operator (ext : External) (c : Compression) (data : ByteArray)
    (maxSize : Nat) (subblocks : subblock_list) (perf : Option Performance) :
    UncompressResult :=
  if subblocks.isEmpty then { outcome := .returned 0, data := data, perf := perf }
  else
    match PCL_DecompressionEngine.validate c subblocks 0 with
    | .error message => { outcome := .thrown message, data := data, perf := perf }
    | .ok uncompressedSize =>
      if maxSize < uncompressedSize then
        { outcome := .thrown (c.Throw (insufficientBufferMessage uncompressedSize maxSize))
          data := data, perf := perf }
      else
        let n := numberOfThreads ext c subblocks.length
        if n ≤ 0 then { outcome := .undefined, data := data, perf := perf }
        else PCL_DecompressionEngine.run ext c n.toNat data uncompressedSize subblocks perf

/-- Compression::Uncompress. -/
def Compression.Uncompress (ext : External) (c : Compression) (data : ByteArray)
    (maxSize : Nat) (subblocks : subblock_list) (perf : Option Performance) :
    UncompressResult :=
  PCL_DecompressionEngine.operator ext c data maxSize subblocks perf

/-! ## Codec adapters -/

/-- The conversion of a `size_type` value to `uint32`. -/
def toUInt32 (n : Nat) : Nat := n % 2 ^ 32

/-- An uncompression entry of the `API->Compression` table, such as
`ZLibUncompressBlock`: called with the value of `outputSize`, the input bytes
and the input size, it yields whether it succeeded, the new value of
`outputSize` and the bytes it stored at `outputData`. -/
abbrev APIUncompressBlock := Nat → ByteArray → Nat → Bool × Nat × ByteArray

/-- The function `ZLibCompression::UncompressBlock`, lines 505-512. -/
def ZLibCompression.UncompressBlock (ZLibUncompressBlock : APIUncompressBlock)
    (maxOutputSize : Nat) (inputData : ByteArray) : Nat × ByteArray :=
  let outputSize := toUInt32 maxOutputSize
  let r := ZLibUncompressBlock outputSize inputData (toUInt32 inputData.length)
  if r.1 then (r.2.1, r.2.2) else (0, r.2.2)

/-- The function `LZ4Compression::UncompressBlock`, lines 550-557. -/
def LZ4Compression.UncompressBlock (LZ4UncompressBlock : APIUncompressBlock)
    (maxOutputSize : Nat) (inputData : ByteArray) : Nat × ByteArray :=
  let outputSize := toUInt32 maxOutputSize
  let r := LZ4UncompressBlock outputSize inputData (toUInt32 inputData.length)
  if r.1 then (r.2.1, r.2.2) else (0, r.2.2)

/-! ## Notions used to state the theorems -/

/-- The test of lines 383-386 under which a worker throws the checksum
mismatch for a subblock. -/
def Subblock.checksumFails (ext : External) (sb : Subblock) : Prop :=
  sb.checksum ≠ 0 ∧ sb.checksum ≠ ext.Hash64 sb.compressedData

instance (ext : External) (sb : Subblock) : Decidable (sb.checksumFails ext) :=
  inferInstanceAs (Decidable (_ ∧ _))

/-- The bytes a worker stores for a subblock when it is handed exactly the
room the subblock needs: the codec output for a compressed subblock, the
copied payload otherwise (lines 391-408). -/
def Subblock.decoded (c : Compression) (sb : Subblock) : ByteArray :=
  if sb.compressedData.length < sb.uncompressedSize then
    (c.UncompressBlock sb.uncompressedSize sb.compressedData).2
  else sb.compressedData.take sb.uncompressedSize

/-- The codec returns the recorded size and stores exactly that many bytes,
the same ones, whenever the room it is given is at least the recorded size and
at most `maxSize`. -/
def Subblock.SoundWithin (c : Compression) (maxSize : Nat) (sb : Subblock) : Prop :=
  sb.compressedData.length < sb.uncompressedSize →
    (sb.decoded c).length = sb.uncompressedSize ∧
    ∀ cap, sb.uncompressedSize ≤ cap → cap ≤ maxSize →
      c.UncompressBlock cap sb.compressedData = (sb.uncompressedSize, sb.decoded c)

/-- The checksum message of the first subblock of the list that fails its
checksum test, when the list starts at destination offset `offset`. -/
def firstChecksumError (ext : External) : Nat → subblock_list → Option String
  | _, [] => none
  | offset, sb :: rest =>
    if sb.checksumFails ext then
      some (checksumMismatchMessage offset sb.checksum (ext.Hash64 sb.compressedData))
    else firstChecksumError ext (offset + sb.uncompressedSize) rest

/-- The stores into the destination buffer that the loop of
`DecompressionThread::Run` (lines 381-411) makes from the subblock at the head
of the list on, in order, each with its destination offset: the bytes the
codec stored at `E.m_uncompressedData+m_offset+totalSize` (line 394) or the
bytes copied there (line 407). The list ends where the loop throws. -/
def DecompressionThread.writes (ext : External) (c : Compression)
    (m_offset uncompressedSize : Nat) : subblock_list → Nat → List (Nat × ByteArray)
  | [], _ => []
  | i :: rest, totalSize =>
    if i.checksum ≠ 0 ∧ i.checksum ≠ ext.Hash64 i.compressedData then []
    else if i.compressedData.length < i.uncompressedSize then
      let r := c.UncompressBlock (uncompressedSize - totalSize) i.compressedData
      (m_offset + totalSize, r.2) ::
        (if r.1 = 0 then []
         else if r.1 ≠ i.uncompressedSize then []
         else DecompressionThread.writes ext c m_offset uncompressedSize rest
           (totalSize + i.uncompressedSize))
    else
      (m_offset + totalSize, i.compressedData.take i.uncompressedSize) ::
        DecompressionThread.writes ext c m_offset uncompressedSize rest
          (totalSize + i.uncompressedSize)

/-- Every subblock of the list, handled by the loop of
`DecompressionThread::Run` from the given `totalSize` on, passes its checksum
test (a stored checksum of 0 is not tested) and, when its payload is shorter
than `uncompressedSize`, the call of `UncompressBlock` that the worker makes
for it returns `uncompressedSize`. -/
def DecompressionThread.passes (ext : External) (c : Compression) (uncompressedSize : Nat) :
    subblock_list → Nat → Prop
  | [], _ => True
  | i :: rest, totalSize =>
    ¬ i.checksumFails ext ∧
    (i.compressedData.length < i.uncompressedSize →
      (c.UncompressBlock (uncompressedSize - totalSize) i.compressedData).1
        = i.uncompressedSize) ∧
    DecompressionThread.passes ext c uncompressedSize rest (totalSize + i.uncompressedSize)

/-- Every call of `UncompressBlock` that the loop of
`DecompressionThread::Run` makes from the given `totalSize` on, before the
first subblock that fails its checksum test, returns the recorded
`uncompressedSize`. -/
def DecompressionThread.decodes (ext : External) (c : Compression) (uncompressedSize : Nat) :
    subblock_list → Nat → Prop
  | [], _ => True
  | i :: rest, totalSize =>
    i.checksumFails ext ∨
    ((i.compressedData.length < i.uncompressedSize →
      (c.UncompressBlock (uncompressedSize - totalSize) i.compressedData).1
        = i.uncompressedSize) ∧
    DecompressionThread.decodes ext c uncompressedSize rest (totalSize + i.uncompressedSize))

/-- Every call of `UncompressBlock` that the loop of
`DecompressionThread::Run` makes for the subblocks of the list, from the given
`totalSize` on, stores exactly `uncompressedSize` bytes of the subblock. -/
def DecompressionThread.storesRecorded (c : Compression) (uncompressedSize : Nat) :
    subblock_list → Nat → Prop
  | [], _ => True
  | i :: rest, totalSize =>
    (i.compressedData.length < i.uncompressedSize →
      (c.UncompressBlock (uncompressedSize - totalSize) i.compressedData).2.length
        = i.uncompressedSize) ∧
    DecompressionThread.storesRecorded c uncompressedSize rest (totalSize + i.uncompressedSize)

/-- The bytes that the loop of `DecompressionThread::Run` stores for the
subblocks of the list, from the given `totalSize` on, one subblock after the
other: what the codec stored at line 394 for a compressed subblock, the bytes
copied at line 407 otherwise. -/
def DecompressionThread.output (c : Compression) (uncompressedSize : Nat) :
    subblock_list → Nat → ByteArray
  | [], _ => []
  | i :: rest, totalSize =>
    (if i.compressedData.length < i.uncompressedSize then
      (c.UncompressBlock (uncompressedSize - totalSize) i.compressedData).2
     else i.compressedData.take i.uncompressedSize)
    ++ DecompressionThread.output c uncompressedSize rest (totalSize + i.uncompressedSize)

instance DecompressionThread.decodesDecidable (ext : External) (c : Compression)
    (uncompressedSize : Nat) :
    (l : subblock_list) → (totalSize : Nat) →
      Decidable (DecompressionThread.decodes ext c uncompressedSize l totalSize)
  | [], _ => isTrue trivial
  | i :: rest, totalSize =>
    have := DecompressionThread.decodesDecidable ext c uncompressedSize rest
      (totalSize + i.uncompressedSize)
    inferInstanceAs (Decidable (_ ∨ ((_ → _) ∧ _)))

instance DecompressionThread.storesRecordedDecidable (c : Compression)
    (uncompressedSize : Nat) :
    (l : subblock_list) → (totalSize : Nat) →
      Decidable (DecompressionThread.storesRecorded c uncompressedSize l totalSize)
  | [], _ => isTrue trivial
  | i :: rest, totalSize =>
    have := DecompressionThread.storesRecordedDecidable c uncompressedSize rest
      (totalSize + i.uncompressedSize)
    inferInstanceAs (Decidable ((_ → _) ∧ _))

instance DecompressionThread.passesDecidable (ext : External) (c : Compression)
    (uncompressedSize : Nat) :
    (l : subblock_list) → (totalSize : Nat) →
      Decidable (DecompressionThread.passes ext c uncompressedSize l totalSize)
  | [], _ => isTrue trivial
  | i :: rest, totalSize =>
    have := DecompressionThread.passesDecidable ext c uncompressedSize rest
      (totalSize + i.uncompressedSize)
    inferInstanceAs (Decidable (¬ _ ∧ (_ → _) ∧ _))

/-- Each thread of the list starts at the destination offset where the
thread before it ends, the first one at `off`. -/
def Tiled : List DecompressionThread → Nat → Prop
  | [], _ => True
  | t :: rest, off => t.m_offset = off ∧ Tiled rest (off + totalUncompressed t.m_subblocks)

/-- The list that `PCL_CompressionEngine::operator()` has assembled at line
143, before the footprint test, for a non-null `data`. -/
def PCL_CompressionEngine.assembled (ext : External) (c : Compression) (data : ByteArray)
    (size : Nat) : subblock_list :=
  (PCL_CompressionEngine.setup ext c data size).assemble ext
    (numberOfThreads ext c (size / effectiveSubblockSize c + 1)).toNat

/-- The checksum messages that the workers leave in `m_errors` when the
subblocks are split into the given partitions, one worker each, the first
partition starting at destination offset `offset`: for every partition, the
message of its first subblock that fails the checksum test, if there is one. -/
def partitionErrors (ext : External) : Nat → List subblock_list → List String
  | _, [] => []
  | offset, p :: ps =>
    (firstChecksumError ext offset p).toList
      ++ partitionErrors ext (offset + totalUncompressed p) ps

/-- The codec decodes what it encoded: for every block that `CompressBlock`
made strictly smaller, `UncompressBlock` returns the length of the block and
stores the block, whenever the room it is given is at least the length of the
block and at most `maxSize`. -/
def Compression.RoundTripsWithin (c : Compression) (maxSize : Nat) : Prop :=
  ∀ (src : ByteArray) (level : Int) (cap : Nat),
    0 < (c.CompressBlock (c.MaxCompressedBlockSize src.length) src level).length →
    (c.CompressBlock (c.MaxCompressedBlockSize src.length) src level).length < src.length →
    src.length ≤ cap → cap ≤ maxSize →
    c.UncompressBlock cap (c.CompressBlock (c.MaxCompressedBlockSize src.length) src level)
      = (src.length, src)

/-- The same `Compression` object with other parallel-processing settings. -/
def Compression.withWorkers (c : Compression) (enabled : Bool) (maxProcessors : Int) :
    Compression :=
  { c with IsParallelProcessingEnabled := enabled, MaxProcessors := maxProcessors }

/-! ## A small codec and configuration on which the theorems are exercised -/

/-- Modelled from the spec: `Compression::Shuffle`, declared in
pcl/Compression.h. Byte `i` of item `k` goes to position `i*m + k`, with `m`
the number of complete items; the trailing bytes are copied unchanged. -/
def Compression.Shuffle (data : ByteArray) (itemSize : Nat) : ByteArray :=
  let m := data.length / itemSize
  ((List.range itemSize).map fun i =>
      (List.range m).map fun k => data.getD (k * itemSize + i) 0).flatten
    ++ data.drop (m * itemSize)

/-- Modelled from the spec: `Compression::InPlaceUnshuffle`, declared in
pcl/Compression.h, the inverse of `Compression::Shuffle`. -/
def Compression.InPlaceUnshuffle (data : ByteArray) (itemSize : Nat) : ByteArray :=
  let m := data.length / itemSize
  ((List.range m).map fun k =>
      (List.range itemSize).map fun i => data.getD (i * m + k) 0).flatten
    ++ data.drop (m * itemSize)

/-- A run-length encoder for blocks of one repeated byte: such a block of
fewer than 256 bytes becomes the byte and the count, any other block fails. -/
def rleCompressBlock (maxOutputSize : Nat) (input : ByteArray) (_level : Int) : ByteArray :=
  match input with
  | [] => []
  | b :: rest =>
    if rest.all (fun a => a == b) ∧ 2 ≤ maxOutputSize ∧ input.length < 256 then
      [b, input.length]
    else []

/-- The decoder of `rleCompressBlock`; it fails when the room is too small. -/
def rleUncompressBlock (maxOutputSize : Nat) (input : ByteArray) : Nat × ByteArray :=
  match input with
  | [b, n] => if n ≤ maxOutputSize then (n, List.replicate n b) else (0, [])
  | _ => (0, [])

/-- A 64-bit FNV-1a hash. -/
def fnv1a64 (data : ByteArray) : Nat :=
  data.foldl (fun h b => ((h ^^^ b) * 1099511628211) % 2 ^ 64) 14695981039346656037

/-- Library parameters of the examples: FNV-1a as `Hash64`, the shuffle of the
spec, at most four threads, a 24-byte subblock record and an 8-byte list
object; the threads that throw reach `m_errors` in the reverse order of their
indices. -/
def sampleExternal : External :=
  { Hash64 := fnv1a64
    Shuffle := Compression.Shuffle
    InPlaceUnshuffle := Compression.InPlaceUnshuffle
    NumberOfThreads := fun count _ => max 1 (min 4 (count : Int))
    sizeofSubblock := 24
    sizeofSubblockList := 8
    arrival := fun i => 3 - i }

/-- Rotation of a 64-bit word to the left. -/
def rotl64 (x r : Nat) : Nat := ((x <<< r) ||| (x >>> (64 - r))) % 2 ^ 64

/-- The little-endian word held by the first bytes of a block. -/
def readLE (data : ByteArray) : Nat := data.foldr (fun b acc => b + 256 * acc) 0

/-- The round of xxHash64 that folds one 64-bit word into an accumulator. -/
def xxRound (acc input : Nat) : Nat :=
  (rotl64 ((acc + input * 14029467366897019727) % 2 ^ 64) 31 * 11400714785074694791) % 2 ^ 64

/-- The step of xxHash64 that merges an accumulator into the hash. -/
def xxMerge (h v : Nat) : Nat :=
  ((h ^^^ xxRound 0 v) * 11400714785074694791 + 9650029242287828579) % 2 ^ 64

/-- The hash xxHash64 of Y. Collet, which `pcl::Hash64` of pcl/Math.h
implements: 32-byte stripes into four accumulators, then the remaining words
of 8 bytes, of 4 bytes and of 1 byte, then the final mixing. -/
def xxHash64 (data : ByteArray) (seed : Nat) : Nat :=
  let n := data.length
  let stripes := n / 32
  let v := (List.range stripes).foldl
    (fun (v : Nat × Nat × Nat × Nat) k =>
      let blk := data.drop (32 * k)
      (xxRound v.1 (readLE (blk.take 8)),
       xxRound v.2.1 (readLE ((blk.drop 8).take 8)),
       xxRound v.2.2.1 (readLE ((blk.drop 16).take 8)),
       xxRound v.2.2.2 (readLE ((blk.drop 24).take 8))))
    ((seed + 11400714785074694791 + 14029467366897019727) % 2 ^ 64,
     (seed + 14029467366897019727) % 2 ^ 64,
     seed % 2 ^ 64,
     (seed + 2 ^ 64 - 11400714785074694791) % 2 ^ 64)
  let h0 :=
    if n ≥ 32 then
      xxMerge (xxMerge (xxMerge (xxMerge
        ((rotl64 v.1 1 + rotl64 v.2.1 7 + rotl64 v.2.2.1 12 + rotl64 v.2.2.2 18) % 2 ^ 64)
        v.1) v.2.1) v.2.2.1) v.2.2.2
    else (seed + 2870177450012600261) % 2 ^ 64
  let rest8 := data.drop (32 * stripes)
  let h1 := (List.range (rest8.length / 8)).foldl
    (fun h k =>
      (rotl64 (h ^^^ xxRound 0 (readLE ((rest8.drop (8 * k)).take 8))) 27
        * 11400714785074694791 + 9650029242287828579) % 2 ^ 64)
    ((h0 + n) % 2 ^ 64)
  let rest4 := rest8.drop (8 * (rest8.length / 8))
  let h2 :=
    if rest4.length ≥ 4 then
      (rotl64 (h1 ^^^ (readLE (rest4.take 4) * 11400714785074694791) % 2 ^ 64) 23
        * 14029467366897019727 + 1609587929392839161) % 2 ^ 64
    else h1
  let rest1 := if rest4.length ≥ 4 then rest4.drop 4 else rest4
  let h3 := rest1.foldl
    (fun h b => (rotl64 (h ^^^ (b * 2870177450012600261) % 2 ^ 64) 11
      * 11400714785074694791) % 2 ^ 64) h2
  let h4 := ((h3 ^^^ (h3 >>> 33)) * 14029467366897019727) % 2 ^ 64
  let h5 := ((h4 ^^^ (h4 >>> 29)) * 1609587929392839161) % 2 ^ 64
  h5 ^^^ (h5 >>> 32)

/-- The hash `ByteArray::Hash64()` as pcl/Math.h computes it: xxHash64 with
the default seed 0, for which the length of the block is taken as the seed. -/
def pclHash64 (data : ByteArray) : Nat := xxHash64 data data.length

/-- The library parameters of `sampleExternal` with `pclHash64` as `Hash64`. -/
def pclExternal : External := { sampleExternal with Hash64 := pclHash64 }

/-- Eight bytes whose `pclHash64` is 0. -/
def zeroHashBlock : ByteArray := [137, 180, 66, 122, 46, 151, 125, 73]

/-- A configuration of the run-length codec: 64-byte subblocks, 4-byte items,
byte shuffling and checksums enabled, up to three worker threads. -/
def sampleCompression : Compression :=
  { AlgorithmName := "RLE"
    CompressionLevel := 0
    SubblockSize := 64
    ItemSize := 4
    ByteShufflingEnabled := true
    ChecksumsEnabled := true
    IsParallelProcessingEnabled := true
    MaxProcessors := 3
    MaxCompressionLevel := 9
    DefaultCompressionLevel := 6
    MinBlockSize := 8
    MaxBlockSize := 128
    MaxCompressedBlockSize := fun n => n + 2
    CompressBlock := rleCompressBlock
    UncompressBlock := rleUncompressBlock }

/-- The configuration `sampleCompression` with the compression level 12,
above the `MaxCompressionLevel` of 9. -/
def highLevelCompression : Compression := { sampleCompression with CompressionLevel := 12 }

/-- An input of 250 bytes: 62 four-byte items `1 0 0 0` and two more bytes. -/
def sampleInput : ByteArray := (List.replicate 62 [1, 0, 0, 0]).flatten ++ [9, 9]

/-- The list that `Compress` returns for `sampleInput`. -/
def sampleSubblocks : subblock_list :=
  [ { compressedData := List.replicate 62 1 ++ [0, 0], uncompressedSize := 64,
      checksum := fnv1a64 (List.replicate 62 1 ++ [0, 0]) },
    { compressedData := [0, 64], uncompressedSize := 64, checksum := fnv1a64 [0, 64] },
    { compressedData := [0, 64], uncompressedSize := 64, checksum := fnv1a64 [0, 64] },
    { compressedData := List.replicate 56 0 ++ [9, 9], uncompressedSize := 58,
      checksum := fnv1a64 (List.replicate 56 0 ++ [9, 9]) } ]

/-- The list `sampleSubblocks` with the stored checksums of its last two
subblocks replaced by 5. -/
def corruptedSubblocks : subblock_list :=
  [ { compressedData := List.replicate 62 1 ++ [0, 0], uncompressedSize := 64,
      checksum := fnv1a64 (List.replicate 62 1 ++ [0, 0]) },
    { compressedData := [0, 64], uncompressedSize := 64, checksum := fnv1a64 [0, 64] },
    { compressedData := [0, 64], uncompressedSize := 64, checksum := 5 },
    { compressedData := List.replicate 56 0 ++ [9, 9], uncompressedSize := 58, checksum := 5 } ]

/-- An uncompression entry of the API table for the run-length codec: it
succeeds when the count fits the `outputSize` it is given. -/
def rleAPIUncompressBlock : APIUncompressBlock := fun outputSize inputData inputSize =>
  match inputData.take inputSize with
  | [b, n] => if n ≤ outputSize then (true, n, List.replicate n b) else (false, outputSize, [])
  | _ => (false, outputSize, [])

/-- The configuration `sampleCompression` with one worker, blocks of up to
`2^32 - 1` bytes and `ZLibCompression::UncompressBlock` over
`rleAPIUncompressBlock` as its `UncompressBlock`. -/
def adapterCompression : Compression :=
  { sampleCompression with
    IsParallelProcessingEnabled := false
    MaxBlockSize := 2 ^ 32 - 1
    UncompressBlock := ZLibCompression.UncompressBlock rleAPIUncompressBlock }

/-- The configuration `sampleCompression` with
`ZLibCompression::UncompressBlock` over `rleAPIUncompressBlock` as its
`UncompressBlock`. -/
def sampleAdapter : Compression :=
  { sampleCompression with
    UncompressBlock := ZLibCompression.UncompressBlock rleAPIUncompressBlock }

/-- The configuration `sampleAdapter` without byte shuffling. -/
def plainAdapter : Compression := { sampleAdapter with ByteShufflingEnabled := false }

/-- An input of 72 bytes: 64 zero bytes followed by `zeroHashBlock`. -/
def zeroHashInput : ByteArray := List.replicate 64 0 ++ zeroHashBlock

/-- A codec that decodes like `rleUncompressBlock` and fills all the room it
is given with the byte, while it returns the count. -/
def fillUncompressBlock (maxOutputSize : Nat) (input : ByteArray) : Nat × ByteArray :=
  match input with
  | [b, n] => if n ≤ maxOutputSize then (n, List.replicate maxOutputSize b) else (0, [])
  | _ => (0, [])

/-- A configuration with one worker, without byte shuffling, whose
`UncompressBlock` is `fillUncompressBlock`. -/
def fillCompression : Compression :=
  { sampleCompression with
    ByteShufflingEnabled := false
    IsParallelProcessingEnabled := false
    UncompressBlock := fillUncompressBlock }

/-- Two compressed subblocks of 16 bytes each. -/
def fillSubblocks : subblock_list :=
  [ { compressedData := [7, 16], uncompressedSize := 16, checksum := 0 },
    { compressedData := [8, 16], uncompressedSize := 16, checksum := 0 } ]

/-- Two compressed subblocks of 16 and `2^32 - 16` bytes, `2^32` bytes in all. -/
def largeSubblocks : subblock_list :=
  [ { compressedData := [7, 16], uncompressedSize := 16, checksum := 0 },
    { compressedData := [7, 2 ^ 32 - 16], uncompressedSize := 2 ^ 32 - 16, checksum := 0 } ]

/-! ## The compression partition and the assembled list -/

theorem Run_append (ext : External) (E : PCL_CompressionEngine) (a b c : Nat) (hab : a ≤ b)
    (hbc : b ≤ c) :
    CompressionThread.Run ext E a b ++ CompressionThread.Run ext E b c
      = CompressionThread.Run ext E a c := by
  unfold CompressionThread.Run
  rw [← List.filterMap_append]
  congr 1
  have := List.range'_append a (b - a) (c - b) 1
  have h1 : a + 1 * (b - a) = b := by omega
  have h2 : c - b + (b - a) = c - a := by omega
  rw [h1, h2] at this
  exact this

theorem Run_chunks (ext : External) (E : PCL_CompressionEngine) (spt : Nat) (M : Nat) :
    ((List.range M).map fun i =>
        CompressionThread.Run ext E (i * spt) ((i + 1) * spt)).flatten
      = CompressionThread.Run ext E 0 (M * spt) := by
  induction M with
  | zero => simp [CompressionThread.Run]
  | succ M ih =>
    rw [List.range_succ, List.map_append, List.flatten_append, ih]
    simp only [List.map_cons, List.map_nil, List.flatten_cons, List.flatten_nil, List.append_nil]
    apply Run_append
    · exact Nat.zero_le _
    · exact Nat.mul_le_mul_right _ (Nat.le_succ _)

theorem assemble_eq_Run (ext : External) (E : PCL_CompressionEngine) (N : Nat) (hN : 1 ≤ N) :
    E.assemble ext N = CompressionThread.Run ext E 0 (E.m_numberOfSubblocks + 1) := by
  obtain ⟨M, rfl⟩ : ∃ M, N = M + 1 := ⟨N - 1, by omega⟩
  unfold PCL_CompressionEngine.assemble PCL_CompressionEngine.threads
  simp only [List.map_map, Function.comp_def]
  rw [List.range_succ, List.map_append, List.flatten_append]
  simp only [List.map_cons, List.map_nil, List.flatten_cons, List.flatten_nil, List.append_nil,
    Nat.lt_irrefl, if_false]
  have hmap : (List.range M).map (fun i =>
      CompressionThread.Run ext E (i * ((E.m_numberOfSubblocks + 1) / (M + 1)))
        (if i + 1 < M + 1 then (i + 1) * ((E.m_numberOfSubblocks + 1) / (M + 1))
          else E.m_numberOfSubblocks + 1))
      = (List.range M).map (fun i =>
      CompressionThread.Run ext E (i * ((E.m_numberOfSubblocks + 1) / (M + 1)))
        ((i + 1) * ((E.m_numberOfSubblocks + 1) / (M + 1)))) := by
    apply List.map_congr_left
    intro i hi
    have : i < M := List.mem_range.mp hi
    have h2 : i + 1 < M + 1 := Nat.succ_lt_succ this
    simp only [h2, if_true]
  rw [hmap, Run_chunks]
  apply Run_append
  · exact Nat.zero_le _
  · calc M * ((E.m_numberOfSubblocks + 1) / (M + 1))
        ≤ (M + 1) * ((E.m_numberOfSubblocks + 1) / (M + 1)) :=
          Nat.mul_le_mul_right _ (Nat.le_succ _)
      _ ≤ E.m_numberOfSubblocks + 1 := Nat.mul_div_le _ _


theorem subblockAt_eq_some (ext : External) (E : PCL_CompressionEngine) (i : Nat)
    (h : 0 < E.itemSize i) :
    CompressionThread.subblockAt ext E i = some
      { compressedData := if E.itemIsCompressed i then E.itemCompressed i else E.itemSource i
        uncompressedSize := E.itemSize i
        checksum := if E.m_compression.ChecksumsEnabled then
          ext.Hash64 (if E.itemIsCompressed i then E.itemCompressed i else E.itemSource i) else 0 } := by
  unfold CompressionThread.subblockAt
  rw [if_pos h]

theorem subblockAt_eq_none (ext : External) (E : PCL_CompressionEngine) (i : Nat)
    (h : E.itemSize i = 0) : CompressionThread.subblockAt ext E i = none := by
  unfold CompressionThread.subblockAt
  rw [if_neg (by omega)]

theorem subblockAt_some_iff (ext : External) (E : PCL_CompressionEngine) (i : Nat) (sb : Subblock) :
    CompressionThread.subblockAt ext E i = some sb ↔
      0 < E.itemSize i ∧ sb =
        { compressedData := if E.itemIsCompressed i then E.itemCompressed i else E.itemSource i
          uncompressedSize := E.itemSize i
          checksum := if E.m_compression.ChecksumsEnabled then
            ext.Hash64 (if E.itemIsCompressed i then E.itemCompressed i else E.itemSource i)
            else 0 } := by
  by_cases h : 0 < E.itemSize i
  · rw [subblockAt_eq_some ext E i h]
    constructor
    · intro e
      exact ⟨h, (Option.some.inj e).symm⟩
    · rintro ⟨_, e⟩
      rw [e]
  · rw [subblockAt_eq_none ext E i (by omega)]
    constructor
    · intro e
      cases e
    · rintro ⟨h2, _⟩
      exact absurd h2 h

theorem mem_Run_iff (ext : External) (E : PCL_CompressionEngine) (a b : Nat) (sb : Subblock) :
    sb ∈ CompressionThread.Run ext E a b ↔
      ∃ i, a ≤ i ∧ i < b ∧ CompressionThread.subblockAt ext E i = some sb := by
  unfold CompressionThread.Run
  rw [List.mem_filterMap]
  constructor
  · rintro ⟨i, hi, e⟩
    rw [List.mem_range'_1] at hi
    exact ⟨i, hi.1, by omega, e⟩
  · rintro ⟨i, h1, h2, e⟩
    exact ⟨i, by rw [List.mem_range'_1]; omega, e⟩

theorem totalUncompressed_filterMap (ext : External) (E : PCL_CompressionEngine) (l : List Nat) :
    totalUncompressed (l.filterMap (CompressionThread.subblockAt ext E))
      = (l.map E.itemSize).sum := by
  induction l with
  | nil => rfl
  | cons i l ih =>
    by_cases h : 0 < E.itemSize i
    · rw [List.filterMap_cons_some (subblockAt_eq_some ext E i h)]
      simp only [totalUncompressed, List.map_cons, List.sum_cons] at ih ⊢
      rw [ih]
    · have h0 : E.itemSize i = 0 := by omega
      rw [List.filterMap_cons_none (subblockAt_eq_none ext E i h0)]
      simp only [List.map_cons, List.sum_cons, h0, Nat.zero_add]
      exact ih

theorem sum_itemSize_full (E : PCL_CompressionEngine) (k : Nat) (hk : k ≤ E.m_numberOfSubblocks) :
    ((List.range k).map E.itemSize).sum = k * E.m_subblockSize := by
  induction k with
  | zero => simp
  | succ k ih =>
    rw [List.range_succ, List.map_append, List.sum_append, ih (by omega)]
    simp only [List.map_cons, List.map_nil, List.sum_cons, List.sum_nil, Nat.add_zero,
      PCL_CompressionEngine.itemSize]
    rw [if_pos (show k < E.m_numberOfSubblocks by omega), Nat.succ_mul]

theorem sum_itemSize (E : PCL_CompressionEngine) :
    ((List.range (E.m_numberOfSubblocks + 1)).map E.itemSize).sum
      = E.m_numberOfSubblocks * E.m_subblockSize + E.m_remainingSize := by
  rw [List.range_succ, List.map_append, List.sum_append, sum_itemSize_full E _ (Nat.le_refl _)]
  simp [PCL_CompressionEngine.itemSize]

theorem totalUncompressed_Run (ext : External) (E : PCL_CompressionEngine) :
    totalUncompressed (CompressionThread.Run ext E 0 (E.m_numberOfSubblocks + 1))
      = E.m_numberOfSubblocks * E.m_subblockSize + E.m_remainingSize := by
  unfold CompressionThread.Run
  rw [totalUncompressed_filterMap, Nat.sub_zero, ← List.range_eq_range', sum_itemSize]

theorem flatten_itemSource_full (E : PCL_CompressionEngine) (k : Nat)
    (hk : k ≤ E.m_numberOfSubblocks) :
    ((List.range k).map E.itemSource).flatten = E.m_data.take (k * E.m_subblockSize) := by
  induction k with
  | zero => simp
  | succ k ih =>
    rw [List.range_succ, List.map_append, List.flatten_append, ih (by omega)]
    simp only [List.map_cons, List.map_nil, List.flatten_cons, List.flatten_nil, List.append_nil,
      PCL_CompressionEngine.itemSource, PCL_CompressionEngine.itemSize]
    rw [if_pos (show k < E.m_numberOfSubblocks by omega), Nat.succ_mul, List.take_add]

theorem flatten_itemSource (E : PCL_CompressionEngine) :
    ((List.range (E.m_numberOfSubblocks + 1)).map E.itemSource).flatten
      = E.m_data.take (E.m_numberOfSubblocks * E.m_subblockSize + E.m_remainingSize) := by
  rw [List.range_succ, List.map_append, List.flatten_append,
    flatten_itemSource_full E _ (Nat.le_refl _)]
  simp only [List.map_cons, List.map_nil, List.flatten_cons, List.flatten_nil, List.append_nil,
    PCL_CompressionEngine.itemSource, PCL_CompressionEngine.itemSize, Nat.lt_irrefl, if_false]
  rw [List.take_add]

theorem setup_size (ext : External) (c : Compression) (d : ByteArray) (size : Nat) :
    (PCL_CompressionEngine.setup ext c d size).m_numberOfSubblocks
        * (PCL_CompressionEngine.setup ext c d size).m_subblockSize
      + (PCL_CompressionEngine.setup ext c d size).m_remainingSize = size := by
  simp only [PCL_CompressionEngine.setup]
  rw [Nat.mul_comm]
  exact Nat.div_add_mod _ _

/-! ## The decompression worker loop -/

theorem writeAt_nil (buf : ByteArray) (off : Nat) : writeAt buf off [] = buf := by
  simp [writeAt]

theorem length_writeAt (buf : ByteArray) (off : Nat) (a : ByteArray) (h : off ≤ buf.length) :
    off + a.length ≤ (writeAt buf off a).length := by
  simp only [writeAt, List.length_append, List.length_take, List.length_drop]
  omega

theorem writeAt_writeAt (buf : ByteArray) (off : Nat) (a b : ByteArray) (h : off ≤ buf.length) :
    writeAt (writeAt buf off a) (off + a.length) b = writeAt buf off (a ++ b) := by
  have hT : (buf.take off).length = off := by simp [h]
  have e1 : (writeAt buf off a).take (off + a.length) = buf.take off ++ a := by
    unfold writeAt
    rw [List.take_append_eq_append_take]
    simp [hT]
  have e2 : (writeAt buf off a).drop (off + a.length + b.length)
      = buf.drop (off + (a ++ b).length) := by
    unfold writeAt
    rw [List.drop_append_eq_append_drop]
    simp only [List.length_append, hT]
    have : (buf.take off ++ a).drop (off + a.length + b.length) = [] := by
      apply List.drop_eq_nil_of_le
      simp [hT]
    rw [this, List.nil_append, List.drop_drop]
    congr 1
    omega
  show (writeAt buf off a).take (off + a.length) ++ b
      ++ (writeAt buf off a).drop (off + a.length + b.length) = _
  rw [e1, e2]
  simp [writeAt]

theorem writeAt_zero_full (buf : ByteArray) (a : ByteArray) (h : buf.length ≤ a.length) :
    writeAt buf 0 a = a := by
  simp [writeAt, List.drop_eq_nil_of_le h]

theorem totalUncompressed_cons (sb : Subblock) (l : subblock_list) :
    totalUncompressed (sb :: l) = sb.uncompressedSize + totalUncompressed l := by
  simp [totalUncompressed]

theorem totalUncompressed_append (l1 l2 : subblock_list) :
    totalUncompressed (l1 ++ l2) = totalUncompressed l1 + totalUncompressed l2 := by
  simp [totalUncompressed]

theorem loop_result (ext : External) (c : Compression) (off U : Nat) (part : subblock_list) :
    ∀ (totalSize : Nat) (buf : ByteArray),
      DecompressionThread.decodes ext c U part totalSize →
      (DecompressionThread.loop ext c off U part totalSize buf).2 =
        match firstChecksumError ext (off + totalSize) part with
        | some m => .error m
        | none => .ok (totalSize + totalUncompressed part) := by
  induction part with
  | nil =>
    intro totalSize buf _
    simp [DecompressionThread.loop, firstChecksumError, totalUncompressed]
  | cons sb rest ih =>
    intro totalSize buf hdec
    by_cases hc : sb.checksumFails ext
    · have hc2 := hc
      unfold Subblock.checksumFails at hc2
      simp only [DecompressionThread.loop, firstChecksumError, if_pos hc, if_pos hc2]
    · have hc2 := hc
      unfold Subblock.checksumFails at hc2
      simp only [DecompressionThread.decodes] at hdec
      rcases hdec with hdec | ⟨hd, hrest⟩
      · exact absurd hdec hc
      have hnext := ih (totalSize + sb.uncompressedSize)
      simp only [DecompressionThread.loop, firstChecksumError, if_neg hc, if_neg hc2]
      rw [totalUncompressed_cons]
      by_cases hlen : sb.compressedData.length < sb.uncompressedSize
      · have hd := hd hlen
        simp only [if_pos hlen, hd]
        rw [if_neg (by omega), if_neg (by simp)]
        rw [hnext _ hrest]
        simp only [Nat.add_assoc]
      · simp only [if_neg hlen]
        rw [hnext _ hrest]
        simp only [Nat.add_assoc]

theorem firstChecksumError_none (ext : External) (part : subblock_list) :
    ∀ off, (∀ sb ∈ part, ¬ sb.checksumFails ext) → firstChecksumError ext off part = none := by
  induction part with
  | nil => intro off _; rfl
  | cons sb rest ih =>
    intro off h
    simp only [firstChecksumError, if_neg (h sb (List.mem_cons_self _ _))]
    exact ih _ (fun s hs => h s (List.mem_cons_of_mem _ hs))

theorem firstChecksumError_append (ext : External) (pre : subblock_list) (bad : Subblock)
    (post : subblock_list) :
    ∀ off, (∀ sb ∈ pre, ¬ sb.checksumFails ext) → bad.checksumFails ext →
      firstChecksumError ext off (pre ++ bad :: post)
        = some (checksumMismatchMessage (off + totalUncompressed pre) bad.checksum
            (ext.Hash64 bad.compressedData)) := by
  induction pre with
  | nil =>
    intro off _ hb
    simp [firstChecksumError, hb, totalUncompressed]
  | cons sb rest ih =>
    intro off h hb
    rw [List.cons_append]
    simp only [firstChecksumError, if_neg (h sb (List.mem_cons_self _ _))]
    rw [ih _ (fun s hs => h s (List.mem_cons_of_mem _ hs)) hb, totalUncompressed_cons,
      Nat.add_assoc]

theorem Run_error (ext : External) (c : Compression) (t : DecompressionThread) (buf : ByteArray)
    (hdec : DecompressionThread.decodes ext c (totalUncompressed t.m_subblocks)
      t.m_subblocks 0) :
    (t.Run ext c buf).2 = firstChecksumError ext t.m_offset t.m_subblocks := by
  have h := loop_result ext c t.m_offset (totalUncompressed t.m_subblocks) t.m_subblocks 0 buf
    hdec
  unfold DecompressionThread.Run
  simp only [Nat.add_zero, Nat.zero_add] at h ⊢
  generalize DecompressionThread.loop ext c t.m_offset (totalUncompressed t.m_subblocks)
    t.m_subblocks 0 buf = r at h ⊢
  obtain ⟨b, e⟩ := r
  simp only at h
  cases hf : firstChecksumError ext t.m_offset t.m_subblocks with
  | none =>
    rw [hf] at h
    subst h
    simp
  | some m =>
    rw [hf] at h
    subst h
    simp

theorem runThreads_errors (ext : External) (c : Compression) (ts : List DecompressionThread) :
    ∀ (i : Nat) (buf : ByteArray) (errs : List (Nat × String)),
      (∀ t ∈ ts, DecompressionThread.decodes ext c (totalUncompressed t.m_subblocks)
        t.m_subblocks 0) →
      ((PCL_DecompressionEngine.runThreads ext c ts i buf errs).2).map Prod.snd =
        errs.map Prod.snd
          ++ ts.filterMap (fun t => firstChecksumError ext t.m_offset t.m_subblocks) := by
  induction ts with
  | nil => intro i buf errs _; simp [PCL_DecompressionEngine.runThreads]
  | cons t rest ih =>
    intro i buf errs h
    simp only [PCL_DecompressionEngine.runThreads]
    rw [ih _ _ _ (fun t2 ht2 => h t2 (List.mem_cons_of_mem _ ht2)),
      Run_error ext c t buf (h t (List.mem_cons_self _ _))]
    cases hf : firstChecksumError ext t.m_offset t.m_subblocks with
    | none => simp [List.filterMap_cons, hf]
    | some m => simp [List.filterMap_cons, hf]

theorem m_errors_perm (ext : External) (raised : List (Nat × String)) :
    (PCL_DecompressionEngine.m_errors ext raised).Perm (raised.map Prod.snd) := by
  unfold PCL_DecompressionEngine.m_errors
  exact (List.perm_insertionSort _ raised).map Prod.snd

theorem m_errors_eq_nil (ext : External) (raised : List (Nat × String)) :
    PCL_DecompressionEngine.m_errors ext raised = [] ↔ raised = [] := by
  constructor
  · intro h
    have hp := m_errors_perm ext raised
    rw [h] at hp
    have := hp.symm.eq_nil
    simpa using this
  · intro h
    subst h
    rfl

theorem m_errors_singleton (ext : External) (a : Nat × String) :
    PCL_DecompressionEngine.m_errors ext [a] = [a.2] := by
  rfl

/-! ## The destination buffer and the decompression threads -/

theorem length_decoded (c : Compression) (M : Nat) (sb : Subblock) (h : sb.SoundWithin c M) :
    (sb.decoded c).length = sb.uncompressedSize := by
  by_cases hlen : sb.compressedData.length < sb.uncompressedSize
  · exact (h hlen).1
  · simp only [Subblock.decoded, if_neg hlen, List.length_take]
    omega

theorem loop_buffer (ext : External) (c : Compression) (off U M : Nat) (hM : U ≤ M)
    (part : subblock_list) :
    ∀ (totalSize : Nat) (buf : ByteArray),
      (∀ sb ∈ part, ¬ sb.checksumFails ext ∧ sb.SoundWithin c M) →
      totalSize + totalUncompressed part ≤ U →
      off + totalSize ≤ buf.length →
      DecompressionThread.loop ext c off U part totalSize buf =
        (writeAt buf (off + totalSize) (part.map (Subblock.decoded c)).flatten,
          .ok (totalSize + totalUncompressed part)) := by
  induction part with
  | nil =>
    intro totalSize buf _ _ _
    simp [DecompressionThread.loop, totalUncompressed, writeAt_nil]
  | cons sb rest ih =>
    intro totalSize buf hgood hU hbuf
    rw [totalUncompressed_cons] at hU
    obtain ⟨hc, hs⟩ := hgood sb (List.mem_cons_self _ _)
    have hc2 := hc
    unfold Subblock.checksumFails at hc2
    have hrest : ∀ s ∈ rest, ¬ s.checksumFails ext ∧ s.SoundWithin c M :=
      fun s hs => hgood s (List.mem_cons_of_mem _ hs)
    have hl : (sb.decoded c).length = sb.uncompressedSize :=
      length_decoded c M sb hs
    have hw : off + totalSize + sb.uncompressedSize
        ≤ (writeAt buf (off + totalSize) (sb.decoded c)).length := by
      have := length_writeAt buf (off + totalSize) (sb.decoded c) hbuf
      omega
    have hnext := ih (totalSize + sb.uncompressedSize)
      (writeAt buf (off + totalSize) (sb.decoded c)) hrest (by omega) (by omega)
    have hcomb : writeAt (writeAt buf (off + totalSize) (sb.decoded c))
        (off + (totalSize + sb.uncompressedSize)) (rest.map (Subblock.decoded c)).flatten
        = writeAt buf (off + totalSize) ((sb :: rest).map (Subblock.decoded c)).flatten := by
      have := writeAt_writeAt buf (off + totalSize) (sb.decoded c)
        (rest.map (Subblock.decoded c)).flatten hbuf
      rw [hl] at this
      rw [← Nat.add_assoc, this]
      simp
    simp only [DecompressionThread.loop, if_neg hc2]
    rw [totalUncompressed_cons]
    by_cases hlen : sb.compressedData.length < sb.uncompressedSize
    · have hd := (hs hlen).2 (U - totalSize) (by omega) (by omega)
      simp only [if_pos hlen, hd]
      rw [if_neg (by omega), if_neg (by simp)]
      rw [hnext, hcomb, Nat.add_assoc]
    · have hdv : sb.decoded c = sb.compressedData.take sb.uncompressedSize := by
        simp [Subblock.decoded, if_neg hlen]
      simp only [if_neg hlen]
      rw [← hdv, hnext, hcomb, Nat.add_assoc]

theorem Run_ok (ext : External) (c : Compression) (M : Nat) (t : DecompressionThread)
    (buf : ByteArray) (hM : totalUncompressed t.m_subblocks ≤ M)
    (hgood : ∀ sb ∈ t.m_subblocks, ¬ sb.checksumFails ext ∧ sb.SoundWithin c M)
    (hbuf : t.m_offset ≤ buf.length) :
    t.Run ext c buf
      = (writeAt buf t.m_offset (t.m_subblocks.map (Subblock.decoded c)).flatten, none) := by
  have h := loop_buffer ext c t.m_offset (totalUncompressed t.m_subblocks) M hM t.m_subblocks
    0 buf hgood (by omega) (by omega)
  unfold DecompressionThread.Run
  simp only [Nat.add_zero, Nat.zero_add] at h ⊢
  rw [h]
  simp

theorem length_flatten_decoded (c : Compression) (l : subblock_list)
    (h : ∀ sb ∈ l, (sb.decoded c).length = sb.uncompressedSize) :
    (l.map (Subblock.decoded c)).flatten.length = totalUncompressed l := by
  induction l with
  | nil => rfl
  | cons sb rest ih =>
    simp only [List.map_cons, List.flatten_cons, List.length_append, totalUncompressed_cons]
    rw [h sb (List.mem_cons_self _ _), ih (fun s hs => h s (List.mem_cons_of_mem _ hs))]

theorem runThreads_ok (ext : External) (c : Compression) (M : Nat)
    (ts : List DecompressionThread) :
    ∀ (i off : Nat) (buf : ByteArray) (errs : List (Nat × String)),
      Tiled ts off →
      (∀ t ∈ ts, totalUncompressed t.m_subblocks ≤ M) →
      (∀ t ∈ ts, ∀ sb ∈ t.m_subblocks, ¬ sb.checksumFails ext ∧ sb.SoundWithin c M) →
      (∀ t ∈ ts, ∀ sb ∈ t.m_subblocks, (sb.decoded c).length = sb.uncompressedSize) →
      off ≤ buf.length →
      PCL_DecompressionEngine.runThreads ext c ts i buf errs =
        (writeAt buf off
          ((ts.map DecompressionThread.m_subblocks).flatten.map (Subblock.decoded c)).flatten,
          errs) := by
  induction ts with
  | nil =>
    intro i off buf errs _ _ _ _ _
    simp [PCL_DecompressionEngine.runThreads, writeAt_nil]
  | cons t rest ih =>
    intro i off buf errs htile hM hgood hlen hbuf
    obtain ⟨ho, hrest⟩ := htile
    have hl := length_flatten_decoded c t.m_subblocks (hlen t (List.mem_cons_self _ _))
    have hb2 : off + totalUncompressed t.m_subblocks ≤
        (writeAt buf off (t.m_subblocks.map (Subblock.decoded c)).flatten).length := by
      have := length_writeAt buf off (t.m_subblocks.map (Subblock.decoded c)).flatten hbuf
      omega
    simp only [PCL_DecompressionEngine.runThreads]
    rw [Run_ok ext c M t buf (hM t (List.mem_cons_self _ _))
      (hgood t (List.mem_cons_self _ _)) (by omega), ho]
    simp only [Option.map, Option.toList, List.append_nil]
    rw [ih _ _ _ _ hrest (fun t2 ht2 => hM t2 (List.mem_cons_of_mem _ ht2))
      (fun t2 ht2 => hgood t2 (List.mem_cons_of_mem _ ht2))
      (fun t2 ht2 => hlen t2 (List.mem_cons_of_mem _ ht2)) hb2]
    have := writeAt_writeAt buf off (t.m_subblocks.map (Subblock.decoded c)).flatten
      ((rest.map DecompressionThread.m_subblocks).flatten.map (Subblock.decoded c)).flatten hbuf
    rw [hl] at this
    rw [this]
    simp

theorem createThreads_spec (subblocks : subblock_list) (N spt : Nat) :
    ∀ (k i off : Nat), i + k = N →
      Tiled (PCL_DecompressionEngine.createThreads subblocks N spt k i off) off ∧
      ((PCL_DecompressionEngine.createThreads subblocks N spt k i off).map
          DecompressionThread.m_subblocks).flatten
        = if k = 0 then [] else subblocks.drop (i * spt) := by
  intro k
  induction k with
  | zero => intro i off _; simp [PCL_DecompressionEngine.createThreads, Tiled]
  | succ k ih =>
    intro i off hik
    simp only [PCL_DecompressionEngine.createThreads]
    by_cases hj : i + 1 < N
    · simp only [if_pos hj]
      obtain ⟨h1, h2⟩ := ih (i + 1)
        (off + totalUncompressed
          ((subblocks.drop (i * spt)).take ((i + 1) * spt - i * spt))) (by omega)
      refine ⟨⟨rfl, h1⟩, ?_⟩
      simp only [List.map_cons, List.flatten_cons, Nat.succ_ne_zero, if_false]
      rw [h2, if_neg (by omega)]
      have e : (i + 1) * spt = i * spt + spt := Nat.succ_mul i spt
      rw [e, Nat.add_sub_cancel_left, ← List.drop_drop]
      exact List.take_append_drop _ _
    · simp only [if_neg hj]
      have hk : k = 0 := by omega
      subst hk
      simp [PCL_DecompressionEngine.createThreads, Tiled]

theorem threads_spec (subblocks : subblock_list) (N : Nat) (hN : 1 ≤ N) :
    Tiled (PCL_DecompressionEngine.threads subblocks N) 0 ∧
    ((PCL_DecompressionEngine.threads subblocks N).map DecompressionThread.m_subblocks).flatten
      = subblocks := by
  have h := createThreads_spec subblocks N (subblocks.length / N) N 0 0 (by omega)
  unfold PCL_DecompressionEngine.threads
  refine ⟨h.1, ?_⟩
  rw [h.2, if_neg (by omega)]
  simp

theorem mem_threads (subblocks : subblock_list) (N : Nat) (hN : 1 ≤ N)
    (t : DecompressionThread) (ht : t ∈ PCL_DecompressionEngine.threads subblocks N)
    (sb : Subblock) (hsb : sb ∈ t.m_subblocks) : sb ∈ subblocks := by
  have h := (threads_spec subblocks N hN).2
  rw [← h, List.mem_flatten]
  exact ⟨t.m_subblocks, List.mem_map_of_mem _ ht, hsb⟩

/-! ## The engines as a whole -/

theorem operator_eq_run (ext : External) (c : Compression) (d : ByteArray) (size : Nat)
    (perf : Option Performance) (hsize : size ≠ 0) (hS : effectiveSubblockSize c ≠ 0)
    (hN : 0 < numberOfThreads ext c (size / effectiveSubblockSize c + 1)) :
    Compression.Compress ext c (some d) size perf =
      (PCL_CompressionEngine.setup ext c d size).run ext
        (numberOfThreads ext c (size / effectiveSubblockSize c + 1)).toNat size perf := by
  simp only [Compression.Compress, PCL_CompressionEngine.operator, if_neg hsize, if_neg hS]
  rw [if_neg]
  · rfl
  · simp only [PCL_CompressionEngine.setup]
    omega

theorem run_outcome (ext : External) (E : PCL_CompressionEngine) (N size : Nat)
    (perf : Option Performance) (hN : 1 ≤ N) :
    (E.run ext N size perf).outcome = .returned
      (if size ≤ footprint ext (CompressionThread.Run ext E 0 (E.m_numberOfSubblocks + 1)) then []
        else CompressionThread.Run ext E 0 (E.m_numberOfSubblocks + 1)) := by
  simp only [PCL_CompressionEngine.run, assemble_eq_Run ext E N hN, ge_iff_le]

theorem Compress_returned_inv (ext : External) (c : Compression) (d : ByteArray) (size : Nat)
    (perf : Option Performance) (L : subblock_list)
    (h : (Compression.Compress ext c (some d) size perf).outcome = .returned L) (hne : L ≠ []) :
    size ≠ 0 ∧ effectiveSubblockSize c ≠ 0 ∧
      0 < numberOfThreads ext c (size / effectiveSubblockSize c + 1) ∧
      L = CompressionThread.Run ext (PCL_CompressionEngine.setup ext c d size) 0
        (size / effectiveSubblockSize c + 1) ∧
      footprint ext L < size := by
  by_cases hsize : size = 0
  · simp [Compression.Compress, PCL_CompressionEngine.operator, hsize] at h
    exact absurd h hne
  by_cases hS : effectiveSubblockSize c = 0
  · simp [Compression.Compress, PCL_CompressionEngine.operator, hsize, hS] at h
  by_cases hN : 0 < numberOfThreads ext c (size / effectiveSubblockSize c + 1)
  · rw [operator_eq_run ext c d size perf hsize hS hN, run_outcome _ _ _ _ _ (by omega)] at h
    have h2 := Outcome.returned.inj h
    by_cases hf : size ≤ footprint ext (CompressionThread.Run ext
        (PCL_CompressionEngine.setup ext c d size) 0
        ((PCL_CompressionEngine.setup ext c d size).m_numberOfSubblocks + 1))
    · rw [if_pos hf] at h2
      exact absurd h2.symm hne
    · rw [if_neg hf] at h2
      refine ⟨hsize, hS, hN, h2.symm, ?_⟩
      rw [← h2]
      omega
  · have : numberOfThreads ext c
        ((PCL_CompressionEngine.setup ext c d size).m_numberOfSubblocks + 1) ≤ 0 := by
      simp only [PCL_CompressionEngine.setup]
      omega
    simp [Compression.Compress, PCL_CompressionEngine.operator, hsize, hS, this] at h

theorem setup_data_length (ext : External) (c : Compression) (x : ByteArray)
    (hlen : c.ByteShufflingEnabled = true → c.ItemSize > 1 →
      (ext.Shuffle x c.ItemSize).length = x.length) :
    (PCL_CompressionEngine.setup ext c x x.length).m_data.length = x.length := by
  simp only [PCL_CompressionEngine.setup, List.take_length]
  split
  · rename_i h
    exact hlen h.1 h.2
  · rfl

theorem itemSource_length (E : PCL_CompressionEngine) (i : Nat) (hi : i ≤ E.m_numberOfSubblocks)
    (hd : E.m_numberOfSubblocks * E.m_subblockSize + E.m_remainingSize ≤ E.m_data.length) :
    (E.itemSource i).length = E.itemSize i := by
  simp only [PCL_CompressionEngine.itemSource, List.length_take, List.length_drop]
  have hle : i * E.m_subblockSize + E.itemSize i ≤ E.m_data.length := by
    unfold PCL_CompressionEngine.itemSize
    by_cases h : i < E.m_numberOfSubblocks
    · rw [if_pos h]
      have : (i + 1) * E.m_subblockSize ≤ E.m_numberOfSubblocks * E.m_subblockSize :=
        Nat.mul_le_mul_right _ h
      rw [Nat.succ_mul] at this
      omega
    · rw [if_neg h]
      have : i = E.m_numberOfSubblocks := by omega
      subst this
      omega
  omega

theorem itemSource_nil (E : PCL_CompressionEngine) (i : Nat) (h : E.itemSize i = 0) :
    E.itemSource i = [] := by
  simp [PCL_CompressionEngine.itemSource, h]

theorem itemIsCompressed_iff (E : PCL_CompressionEngine) (i : Nat) :
    E.itemIsCompressed i = true ↔
      E.m_compression.MinBlockSize ≤ E.itemSize i ∧ 0 < (E.itemCompressed i).length ∧
        (E.itemCompressed i).length < E.itemSize i := by
  simp [PCL_CompressionEngine.itemIsCompressed]

theorem flatten_decoded_filterMap (ext : External) (E : PCL_CompressionEngine) (c : Compression)
    (l : List Nat)
    (h : ∀ i ∈ l, ∀ sb, CompressionThread.subblockAt ext E i = some sb →
      sb.decoded c = E.itemSource i) :
    ((l.filterMap (CompressionThread.subblockAt ext E)).map (Subblock.decoded c)).flatten
      = (l.map E.itemSource).flatten := by
  induction l with
  | nil => rfl
  | cons i l ih =>
    have ih2 := ih (fun j hj => h j (List.mem_cons_of_mem _ hj))
    by_cases hz : 0 < E.itemSize i
    · have hs := subblockAt_eq_some ext E i hz
      rw [List.filterMap_cons_some hs]
      simp only [List.map_cons, List.flatten_cons]
      rw [ih2, h i (List.mem_cons_self _ _) _ hs]
    · have h0 : E.itemSize i = 0 := by omega
      rw [List.filterMap_cons_none (subblockAt_eq_none ext E i h0)]
      simp only [List.map_cons, List.flatten_cons]
      rw [ih2, itemSource_nil E i h0, List.nil_append]

theorem validate_ok (c : Compression) (l : subblock_list) :
    ∀ acc, (∀ sb ∈ l, sb.compressedData ≠ [] ∧ sb.uncompressedSize ≠ 0) →
      PCL_DecompressionEngine.validate c l acc = .ok (acc + totalUncompressed l) := by
  induction l with
  | nil => intro acc _; simp [PCL_DecompressionEngine.validate, totalUncompressed]
  | cons sb rest ih =>
    intro acc h
    obtain ⟨h1, h2⟩ := h sb (List.mem_cons_self _ _)
    simp only [PCL_DecompressionEngine.validate, List.isEmpty_iff, h1, h2, or_self, if_false]
    rw [ih _ (fun s hs => h s (List.mem_cons_of_mem _ hs)), totalUncompressed_cons, Nat.add_assoc]

theorem subblockAt_facts (ext : External) (E : PCL_CompressionEngine) (i : Nat) (sb : Subblock)
    (hi : i ≤ E.m_numberOfSubblocks)
    (hd : E.m_numberOfSubblocks * E.m_subblockSize + E.m_remainingSize ≤ E.m_data.length)
    (hs : CompressionThread.subblockAt ext E i = some sb) :
    0 < sb.uncompressedSize ∧ sb.uncompressedSize = E.itemSize i ∧
    0 < sb.compressedData.length ∧ sb.compressedData.length ≤ sb.uncompressedSize ∧
    sb.checksum = (if E.m_compression.ChecksumsEnabled then ext.Hash64 sb.compressedData else 0) ∧
    (E.itemIsCompressed i = true →
      sb.compressedData = E.itemCompressed i ∧ sb.compressedData.length < sb.uncompressedSize) ∧
    (E.itemIsCompressed i = false →
      sb.compressedData = E.itemSource i ∧ sb.compressedData.length = sb.uncompressedSize) := by
  obtain ⟨hz, rfl⟩ := (subblockAt_some_iff ext E i sb).mp hs
  have hl := itemSource_length E i hi hd
  cases hcmp : E.itemIsCompressed i with
  | true =>
    obtain ⟨_, h1, h2⟩ := (itemIsCompressed_iff E i).mp hcmp
    refine ⟨hz, rfl, ?_, ?_, rfl, fun _ => ⟨?_, ?_⟩, fun h => by cases h⟩
    · simpa using h1
    · simp only [if_true]; omega
    · simp
    · simpa using h2
  | false =>
    refine ⟨hz, rfl, ?_, ?_, rfl, ?_, ?_⟩
    · simp only [Bool.false_eq_true, if_false]; omega
    · simp only [Bool.false_eq_true, if_false]; omega
    · intro h; cases h
    · intro _
      exact ⟨by simp, by simpa using hl⟩

theorem subblockAt_sound (ext : External) (E : PCL_CompressionEngine) (i : Nat) (sb : Subblock)
    (hi : i ≤ E.m_numberOfSubblocks)
    (hd : E.m_numberOfSubblocks * E.m_subblockSize + E.m_remainingSize ≤ E.m_data.length)
    (hs : CompressionThread.subblockAt ext E i = some sb)
    (M : Nat) (hM : E.itemSize i ≤ M)
    (hrt : E.m_compression.RoundTripsWithin M) (c : Compression)
    (hc : c.UncompressBlock = E.m_compression.UncompressBlock) :
    sb.SoundWithin c M ∧ sb.decoded c = E.itemSource i := by
  obtain ⟨hz, hu, hp, hple, _, hT, hF⟩ := subblockAt_facts ext E i sb hi hd hs
  have hl := itemSource_length E i hi hd
  cases hcmp : E.itemIsCompressed i with
  | true =>
    obtain ⟨e1, e2⟩ := hT hcmp
    obtain ⟨_, h1, h2⟩ := (itemIsCompressed_iff E i).mp hcmp
    have key : ∀ cap, sb.uncompressedSize ≤ cap → cap ≤ M →
        c.UncompressBlock cap sb.compressedData = (sb.uncompressedSize, E.itemSource i) := by
      intro cap hcap hcapM
      have := hrt (E.itemSource i) E.m_compressionLevel cap
      rw [hl] at this
      rw [hc, e1, hu]
      exact this h1 h2 (by omega) hcapM
    have hdec : sb.decoded c = E.itemSource i := by
      simp only [Subblock.decoded, if_pos e2]
      rw [key _ (Nat.le_refl _) (by omega)]
    refine ⟨fun _ => ⟨?_, ?_⟩, hdec⟩
    · rw [hdec, hl, hu]
    · intro cap hcap hcapM
      rw [hdec]
      exact key cap hcap hcapM
  | false =>
    obtain ⟨e1, e2⟩ := hF hcmp
    have hdec : sb.decoded c = E.itemSource i := by
      simp only [Subblock.decoded, if_neg (show ¬ sb.compressedData.length < sb.uncompressedSize by omega)]
      rw [e1, hu, ← hl, List.take_length]
    exact ⟨fun h => by omega, hdec⟩

theorem subblockAt_checksum_ok (ext : External) (E : PCL_CompressionEngine) (i : Nat)
    (sb : Subblock) (hs : CompressionThread.subblockAt ext E i = some sb) :
    ¬ sb.checksumFails ext := by
  obtain ⟨_, rfl⟩ := (subblockAt_some_iff ext E i sb).mp hs
  unfold Subblock.checksumFails
  by_cases h : E.m_compression.ChecksumsEnabled = true
  · simp [h]
  · simp [h]

theorem mem_compressed_list (ext : External) (E : PCL_CompressionEngine) (sb : Subblock)
    (h : sb ∈ CompressionThread.Run ext E 0 (E.m_numberOfSubblocks + 1)) :
    ∃ i, i ≤ E.m_numberOfSubblocks ∧ CompressionThread.subblockAt ext E i = some sb := by
  obtain ⟨i, _, h2, h3⟩ := (mem_Run_iff ext E 0 _ sb).mp h
  exact ⟨i, by omega, h3⟩

theorem flatten_decoded_Run (ext : External) (E : PCL_CompressionEngine) (c : Compression)
    (hd : E.m_numberOfSubblocks * E.m_subblockSize + E.m_remainingSize ≤ E.m_data.length)
    (M : Nat)
    (hM : ∀ i sb, i ≤ E.m_numberOfSubblocks →
      CompressionThread.subblockAt ext E i = some sb → E.itemSize i ≤ M)
    (hrt : E.m_compression.RoundTripsWithin M)
    (hc : c.UncompressBlock = E.m_compression.UncompressBlock) :
    ((CompressionThread.Run ext E 0 (E.m_numberOfSubblocks + 1)).map (Subblock.decoded c)).flatten
      = E.m_data.take (E.m_numberOfSubblocks * E.m_subblockSize + E.m_remainingSize) := by
  unfold CompressionThread.Run
  rw [flatten_decoded_filterMap, Nat.sub_zero, ← List.range_eq_range', flatten_itemSource]
  intro i hi sb hs
  rw [Nat.sub_zero, List.mem_range'_1] at hi
  exact (subblockAt_sound ext E i sb (by omega) hd hs M (hM i sb (by omega) hs) hrt c hc).2

theorem uncompressedSize_le_total (l : subblock_list) (sb : Subblock) (h : sb ∈ l) :
    sb.uncompressedSize ≤ totalUncompressed l := by
  induction l with
  | nil => simp at h
  | cons a rest ih =>
    rw [totalUncompressed_cons]
    rcases List.mem_cons.mp h with rfl | h2
    · omega
    · have := ih h2
      omega

theorem uncompress_of_good (ext : External) (c : Compression) (data : ByteArray) (maxSize : Nat)
    (L : subblock_list) (perf : Option Performance) (hne : L ≠ [])
    (hvalid : ∀ sb ∈ L, sb.compressedData ≠ [] ∧ sb.uncompressedSize ≠ 0)
    (M : Nat)
    (hM : ∀ t ∈ PCL_DecompressionEngine.threads L (numberOfThreads ext c L.length).toNat,
      totalUncompressed t.m_subblocks ≤ M)
    (hgood : ∀ sb ∈ L, ¬ sb.checksumFails ext ∧ sb.SoundWithin c M)
    (hcap : totalUncompressed L ≤ maxSize)
    (hN : 1 ≤ numberOfThreads ext c L.length) :
    (Compression.Uncompress ext c data maxSize L perf).outcome = .returned (totalUncompressed L) ∧
    (Compression.Uncompress ext c data maxSize L perf).data =
      if c.ByteShufflingEnabled ∧ c.ItemSize > 1 then
        ext.InPlaceUnshuffle
            ((writeAt data 0 (L.map (Subblock.decoded c)).flatten).take (totalUncompressed L))
            c.ItemSize
          ++ (writeAt data 0 (L.map (Subblock.decoded c)).flatten).drop (totalUncompressed L)
      else writeAt data 0 (L.map (Subblock.decoded c)).flatten := by
  have hempty : L.isEmpty = false := by
    cases L with
    | nil => exact absurd rfl hne
    | cons _ _ => rfl
  have hval := validate_ok c L 0 hvalid
  rw [Nat.zero_add] at hval
  have hN2 : 1 ≤ (numberOfThreads ext c L.length).toNat := by omega
  obtain ⟨htile, hflat⟩ := threads_spec L _ hN2
  have hlen : ∀ sb ∈ L, (sb.decoded c).length = sb.uncompressedSize :=
    fun sb hsb => length_decoded c M sb (hgood sb hsb).2
  have hrun := runThreads_ok ext c M (PCL_DecompressionEngine.threads L
      (numberOfThreads ext c L.length).toNat) 0 0 data [] htile
    hM
    (fun t ht sb hsb => hgood sb (mem_threads L _ hN2 t ht sb hsb))
    (fun t ht sb hsb => hlen sb (mem_threads L _ hN2 t ht sb hsb))
    (Nat.zero_le _)
  rw [hflat] at hrun
  simp only [Compression.Uncompress, PCL_DecompressionEngine.operator, hempty, hval,
    if_neg (show ¬ maxSize < totalUncompressed L by omega),
    if_neg (show ¬ numberOfThreads ext c L.length ≤ 0 by omega),
    PCL_DecompressionEngine.run, hrun, PCL_DecompressionEngine.m_errors, List.insertionSort,
    List.map_nil]
  simp

theorem rle_roundTrips (M : Nat) (hM : M < 2 ^ 32) : sampleAdapter.RoundTripsWithin M := by
  intro src level cap h1 h2 h3 h4
  cases src with
  | nil => simp [sampleAdapter, sampleCompression, rleCompressBlock] at h1
  | cons b rest =>
    simp only [sampleAdapter, sampleCompression, rleCompressBlock] at h1 h2 ⊢
    split at h1
    · rename_i hc
      rw [if_pos hc]
      have hcap : cap % 2 ^ 32 = cap := Nat.mod_eq_of_lt (by omega)
      have h3b : rest.length + 1 ≤ cap := by simpa using h3
      simp only [ZLibCompression.UncompressBlock, toUInt32, hcap, rleAPIUncompressBlock,
        List.length_cons, List.length_nil, List.take, if_pos h3b, if_true]
      have hall : ∀ a ∈ rest, a = b := by
        have := hc.1
        simpa [List.all_eq_true] using this
      congr 1
      rw [List.replicate_succ]
      congr 1
      exact (List.eq_replicate_of_mem hall).symm
    · simp at h1

theorem Run_withWorkers (ext : External) (c : Compression) (d : ByteArray) (size a b : Nat)
    (e1 e2 : Bool) (m1 m2 : Int) :
    CompressionThread.Run ext (PCL_CompressionEngine.setup ext (c.withWorkers e1 m1) d size) a b
      = CompressionThread.Run ext (PCL_CompressionEngine.setup ext (c.withWorkers e2 m2) d size)
          a b := rfl

theorem assembled_eq_Run (ext : External) (c : Compression) (d : ByteArray) (size : Nat)
    (hN : 1 ≤ numberOfThreads ext c (size / effectiveSubblockSize c + 1)) :
    PCL_CompressionEngine.assembled ext c d size =
      CompressionThread.Run ext (PCL_CompressionEngine.setup ext c d size) 0
        (size / effectiveSubblockSize c + 1) := by
  unfold PCL_CompressionEngine.assembled
  rw [assemble_eq_Run ext _ _ (by omega)]
  rfl

theorem totalUncompressed_assembled (ext : External) (c : Compression) (d : ByteArray)
    (size : Nat) (hN : 1 ≤ numberOfThreads ext c (size / effectiveSubblockSize c + 1)) :
    totalUncompressed (PCL_CompressionEngine.assembled ext c d size) = size := by
  rw [assembled_eq_Run ext c d size hN]
  have h := totalUncompressed_Run ext (PCL_CompressionEngine.setup ext c d size)
  rw [setup_size] at h
  exact h

theorem Compress_outcome (ext : External) (c : Compression) (d : ByteArray) (size : Nat)
    (perf : Option Performance) (hsize : size ≠ 0) (hS : effectiveSubblockSize c ≠ 0)
    (hN : 1 ≤ numberOfThreads ext c (size / effectiveSubblockSize c + 1)) :
    (Compression.Compress ext c (some d) size perf).outcome = .returned
      (if size ≤ footprint ext (PCL_CompressionEngine.assembled ext c d size) then []
        else PCL_CompressionEngine.assembled ext c d size) := by
  rw [operator_eq_run ext c d size perf hsize hS (by omega)]
  rfl

theorem itemSize_le (ext : External) (c : Compression) (d : ByteArray) (size i : Nat)
    (hS : effectiveSubblockSize c ≠ 0) :
    (PCL_CompressionEngine.setup ext c d size).itemSize i ≤ effectiveSubblockSize c := by
  simp only [PCL_CompressionEngine.itemSize, PCL_CompressionEngine.setup]
  split
  · exact Nat.le_refl _
  · exact Nat.le_of_lt (Nat.mod_lt _ (Nat.pos_of_ne_zero hS))

theorem validate_total (c : Compression) (l : subblock_list) :
    ∀ acc n, PCL_DecompressionEngine.validate c l acc = .ok n → n = acc + totalUncompressed l := by
  induction l with
  | nil =>
    intro acc n h
    simp only [PCL_DecompressionEngine.validate] at h
    simpa [totalUncompressed] using (Except.ok.inj h).symm
  | cons sb rest ih =>
    intro acc n h
    simp only [PCL_DecompressionEngine.validate] at h
    split at h
    · cases h
    · rw [ih _ _ h, totalUncompressed_cons, Nat.add_assoc]

theorem filterMap_eq_partitionErrors (ext : External) (ts : List DecompressionThread) :
    ∀ off, Tiled ts off →
      ts.filterMap (fun t => firstChecksumError ext t.m_offset t.m_subblocks)
        = partitionErrors ext off (ts.map DecompressionThread.m_subblocks) := by
  induction ts with
  | nil => intro off _; rfl
  | cons t rest ih =>
    intro off h
    obtain ⟨ho, hrest⟩ := h
    simp only [List.map_cons, partitionErrors]
    rw [← ih _ hrest, ← ho]
    cases hf : firstChecksumError ext t.m_offset t.m_subblocks with
    | none => simp [List.filterMap_cons, hf]
    | some m => simp [List.filterMap_cons, hf]

theorem partitionErrors_good (ext : External) (parts : List subblock_list) :
    ∀ off, (∀ s ∈ parts.flatten, ¬ s.checksumFails ext) → partitionErrors ext off parts = [] := by
  induction parts with
  | nil => intro off _; rfl
  | cons p ps ih =>
    intro off h
    simp only [partitionErrors]
    rw [firstChecksumError_none ext p off (fun s hs => h s (by simp [hs])),
      ih _ (fun s hs => h s (by
        rw [List.flatten_cons]
        exact List.mem_append_right _ hs))]
    rfl

theorem partitionErrors_single (ext : External) (parts : List subblock_list) :
    ∀ (off : Nat) (pre : subblock_list) (bad : Subblock) (post : subblock_list),
      parts.flatten = pre ++ bad :: post →
      (∀ s ∈ pre, ¬ s.checksumFails ext) → (∀ s ∈ post, ¬ s.checksumFails ext) →
      bad.checksumFails ext →
      partitionErrors ext off parts
        = [checksumMismatchMessage (off + totalUncompressed pre) bad.checksum
            (ext.Hash64 bad.compressedData)] := by
  induction parts with
  | nil =>
    intro off pre bad post h _ _ _
    simp at h
  | cons p ps ih =>
    intro off pre bad post h hpre hpost hbad
    rw [List.flatten_cons, List.append_eq_append_iff] at h
    simp only [partitionErrors]
    rcases h with ⟨a, ha1, ha2⟩ | ⟨cs, hc1, hc2⟩
    · have hp : ∀ s ∈ p, ¬ s.checksumFails ext :=
        fun s hs => hpre s (by rw [ha1]; exact List.mem_append_left _ hs)
      rw [firstChecksumError_none ext p off hp,
        ih _ a bad post ha2 (fun s hs => hpre s (by rw [ha1]; exact List.mem_append_right _ hs))
          hpost hbad,
        ha1, totalUncompressed_append, Nat.add_assoc]
      rfl
    · cases cs with
      | nil =>
        rw [List.append_nil] at hc1
        rw [List.nil_append] at hc2
        rw [hc1, firstChecksumError_none ext pre off hpre,
          ih _ [] bad post (by rw [← hc2]; rfl) (fun s hs => absurd hs (List.not_mem_nil s))
            hpost hbad]
        simp [totalUncompressed]
      | cons b0 cs2 =>
        rw [List.cons_append] at hc2
        obtain ⟨hb, hp2⟩ := List.cons.inj hc2
        subst hb
        rw [hc1, firstChecksumError_append ext pre bad cs2 off hpre hbad,
          partitionErrors_good ext ps _ (fun s hs => hpost s (by
            rw [hp2]
            exact List.mem_append_right _ hs))]
        rfl

theorem partitionErrors_ne_nil (ext : External) (parts : List subblock_list) :
    ∀ off, (∃ s ∈ parts.flatten, s.checksumFails ext) → partitionErrors ext off parts ≠ [] := by
  intro off h hnil
  induction parts generalizing off with
  | nil =>
    obtain ⟨s, hs, _⟩ := h
    simp at hs
  | cons p ps ih =>
    simp only [partitionErrors, List.append_eq_nil] at hnil
    obtain ⟨h1, h2⟩ := hnil
    obtain ⟨s, hs, hf⟩ := h
    rw [List.flatten_cons, List.mem_append] at hs
    rcases hs with hs | hs
    · have : firstChecksumError ext off p ≠ none := by
        clear h1 h2 ih
        induction p generalizing off with
        | nil => simp at hs
        | cons q qs ihq =>
          simp only [firstChecksumError]
          by_cases hq : q.checksumFails ext
          · simp [hq]
          · rw [if_neg hq]
            rcases List.mem_cons.mp hs with rfl | hs2
            · exact absurd hf hq
            · exact ihq _ hs2
      cases hfe : firstChecksumError ext off p with
      | none => exact this hfe
      | some m => rw [hfe] at h1; simp at h1
    · exact ih _ ⟨s, hs, hf⟩ h2

theorem partitionErrors_length_le (ext : External) (parts : List subblock_list) :
    ∀ off, (partitionErrors ext off parts).length ≤ parts.length := by
  induction parts with
  | nil => intro off; simp [partitionErrors]
  | cons p ps ih =>
    intro off
    simp only [partitionErrors, List.length_append, List.length_cons]
    have := ih (off + totalUncompressed p)
    cases firstChecksumError ext off p with
    | none => simp; omega
    | some m => simp; omega

theorem uncompress_errors (ext : External) (c : Compression) (data : ByteArray) (maxSize : Nat)
    (L : subblock_list) (perf : Option Performance) (hne : L ≠ [])
    (hvalid : ∀ sb ∈ L, sb.compressedData ≠ [] ∧ sb.uncompressedSize ≠ 0)
    (hcap : totalUncompressed L ≤ maxSize)
    (hN : 1 ≤ numberOfThreads ext c L.length)
    (hdec : ∀ t ∈ PCL_DecompressionEngine.threads L (numberOfThreads ext c L.length).toNat,
      DecompressionThread.decodes ext c (totalUncompressed t.m_subblocks) t.m_subblocks 0)
    (hbad : ∃ sb ∈ L, sb.checksumFails ext) :
    ((PCL_DecompressionEngine.threads L (numberOfThreads ext c L.length).toNat).map
        DecompressionThread.m_subblocks).flatten = L ∧
    partitionErrors ext 0
        ((PCL_DecompressionEngine.threads L (numberOfThreads ext c L.length).toNat).map
          DecompressionThread.m_subblocks) ≠ [] ∧
    ∃ errors : List String,
      errors.Perm (partitionErrors ext 0
        ((PCL_DecompressionEngine.threads L (numberOfThreads ext c L.length).toNat).map
          DecompressionThread.m_subblocks)) ∧
      (Compression.Uncompress ext c data maxSize L perf).outcome =
        .thrown (c.Throw (String.intercalate "\n" errors)) := by
  have hempty : L.isEmpty = false := by
    cases L with
    | nil => exact absurd rfl hne
    | cons _ _ => rfl
  have hval := validate_ok c L 0 hvalid
  rw [Nat.zero_add] at hval
  have hN2 : 1 ≤ (numberOfThreads ext c L.length).toNat := by omega
  obtain ⟨htile, hflat⟩ := threads_spec L _ hN2
  have herr := runThreads_errors ext c (PCL_DecompressionEngine.threads L
      (numberOfThreads ext c L.length).toNat) 0 data [] hdec
  rw [List.map_nil, List.nil_append, filterMap_eq_partitionErrors ext _ 0 htile] at herr
  have hnn := partitionErrors_ne_nil ext
    ((PCL_DecompressionEngine.threads L (numberOfThreads ext c L.length).toNat).map
      DecompressionThread.m_subblocks) 0 (by rw [hflat]; exact hbad)
  have hperm := m_errors_perm ext (PCL_DecompressionEngine.runThreads ext c
    (PCL_DecompressionEngine.threads L (numberOfThreads ext c L.length).toNat) 0 data []).2
  rw [herr] at hperm
  have hne2 : PCL_DecompressionEngine.m_errors ext (PCL_DecompressionEngine.runThreads ext c
      (PCL_DecompressionEngine.threads L (numberOfThreads ext c L.length).toNat) 0 data []).2
      ≠ [] := by
    intro h0
    rw [h0] at hperm
    exact hnn hperm.symm.eq_nil
  refine ⟨hflat, hnn, _, hperm, ?_⟩
  simp only [Compression.Uncompress, PCL_DecompressionEngine.operator, hempty, hval,
    if_neg (show ¬ maxSize < totalUncompressed L by omega),
    if_neg (show ¬ numberOfThreads ext c L.length ≤ 0 by omega),
    PCL_DecompressionEngine.run, Bool.false_eq_true, if_false]
  rw [if_pos hne2]

theorem intercalate_singleton (s m : String) : String.intercalate s [m] = m := by
  simp [String.intercalate, String.intercalate.go]

theorem length_createThreads (subblocks : subblock_list) (N spt : Nat) :
    ∀ k i off, (PCL_DecompressionEngine.createThreads subblocks N spt k i off).length = k := by
  intro k
  induction k with
  | zero => intro i off; rfl
  | succ k ih =>
    intro i off
    simp only [PCL_DecompressionEngine.createThreads, List.length_cons, ih]

theorem length_threads (subblocks : subblock_list) (N : Nat) :
    (PCL_DecompressionEngine.threads subblocks N).length = N :=
  length_createThreads subblocks N _ N 0 0

theorem threads_one (subblocks : subblock_list) :
    PCL_DecompressionEngine.threads subblocks 1 = [{ m_offset := 0, m_subblocks := subblocks }] := by
  simp [PCL_DecompressionEngine.threads, PCL_DecompressionEngine.createThreads]

theorem checksum_of_returned (ext : External) (c : Compression) (data : Option ByteArray)
    (size : Nat) (perf : Option Performance) (L : subblock_list)
    (henabled : c.ChecksumsEnabled = true)
    (hL : (Compression.Compress ext c data size perf).outcome = .returned L) :
    ∀ sb ∈ L, sb.checksum = ext.Hash64 sb.compressedData := by
  intro sb hsb
  have hne : L ≠ [] := List.ne_nil_of_mem hsb
  obtain _ | d := data
  · exact absurd (Outcome.returned.inj hL).symm hne
  obtain ⟨_, _, _, hLeq, _⟩ := Compress_returned_inv ext c d size perf L hL hne
  rw [hLeq] at hsb
  obtain ⟨i, _, _, hs⟩ := (mem_Run_iff ext _ 0 _ sb).mp hsb
  obtain ⟨_, rfl⟩ := (subblockAt_some_iff ext _ i sb).mp hs
  have hen : (PCL_CompressionEngine.setup ext c d size).m_compression.ChecksumsEnabled = true :=
    henabled
  simp only [hen, if_true]

theorem validate_error (c : Compression) (l : subblock_list) :
    ∀ acc, (∃ sb ∈ l, sb.compressedData = [] ∨ sb.uncompressedSize = 0) →
      PCL_DecompressionEngine.validate c l acc
        = .error (c.Throw "Invalid compressed subblock data.") := by
  induction l with
  | nil =>
    intro acc h
    obtain ⟨sb, hsb, _⟩ := h
    exact absurd hsb (List.not_mem_nil sb)
  | cons s rest ih =>
    intro acc h
    simp only [PCL_DecompressionEngine.validate]
    by_cases hs : s.compressedData.isEmpty = true ∨ s.uncompressedSize = 0
    · rw [if_pos hs]
    · rw [if_neg hs]
      apply ih
      obtain ⟨sb, hsb, hbad⟩ := h
      rcases List.mem_cons.mp hsb with rfl | hmem
      · exfalso
        apply hs
        rcases hbad with h1 | h2
        · exact Or.inl (by rw [h1]; rfl)
        · exact Or.inr h2
      · exact ⟨sb, hmem, hbad⟩

theorem totalCompressed_cons (sb : Subblock) (l : subblock_list) :
    totalCompressed (sb :: l) = sb.compressedData.length + totalCompressed l := by
  simp [totalCompressed]

theorem totalCompressed_eq_of_verbatim (l : subblock_list)
    (h : ∀ sb ∈ l, sb.compressedData.length = sb.uncompressedSize) :
    totalCompressed l = totalUncompressed l := by
  induction l with
  | nil => rfl
  | cons sb rest ih =>
    rw [totalCompressed_cons, totalUncompressed_cons, h sb (List.mem_cons_self _ _),
      ih (fun s hs => h s (List.mem_cons_of_mem _ hs))]

theorem run_perf (ext : External) (E : PCL_CompressionEngine) (N size : Nat) (p : Performance) :
    (E.run ext N size (some p)).perf = some
      { sizeReduction := (sub64 size (footprint ext (E.assemble ext N)) : ℚ) / (size : ℚ)
        numberOfThreads := N } := rfl

theorem length_grid {α : Type} (f : Nat → Nat → α) (m w : Nat) :
    ((List.range w).map fun i => (List.range m).map (f i)).flatten.length = w * m := by
  induction w with
  | zero => simp
  | succ w ih =>
    rw [List.range_succ, List.map_append, List.flatten_append, List.length_append, ih]
    simp [Nat.succ_mul]

theorem getElem?_grid {α : Type} (f : Nat → Nat → α) (m w : Nat) :
    ∀ i k, i < w → k < m →
      ((List.range w).map fun i => (List.range m).map (f i)).flatten[i * m + k]?
        = some (f i k) := by
  induction w with
  | zero => intro i k hi; omega
  | succ w ih =>
    intro i k hi hk
    rw [List.range_succ, List.map_append, List.flatten_append]
    by_cases hlt : i < w
    · have hidx : i * m + k < w * m := by
        have : (i + 1) * m ≤ w * m := Nat.mul_le_mul_right _ hlt
        rw [Nat.succ_mul] at this
        omega
      rw [List.getElem?_append_left (by rw [length_grid]; exact hidx)]
      exact ih i k hlt hk
    · have hiw : i = w := by omega
      subst hiw
      rw [List.getElem?_append_right (by rw [length_grid]; omega), length_grid]
      simp only [List.map_cons, List.map_nil, List.flatten_cons, List.flatten_nil,
        List.append_nil]
      rw [show i * m + k - i * m = k by omega, List.getElem?_map, List.getElem?_range hk]
      rfl

theorem map_getD_range (l : ByteArray) (w : Nat) :
    ∀ a, a + w ≤ l.length →
      (List.range w).map (fun i => l.getD (a + i) 0) = (l.drop a).take w := by
  induction w with
  | zero => intro a _; simp
  | succ w ih =>
    intro a h
    rw [List.range_succ_eq_map, List.map_cons, List.map_map]
    have hlt : a < l.length := by omega
    rw [List.drop_eq_getElem_cons hlt, List.take_succ_cons, ← ih (a + 1) (by omega)]
    congr 1
    · simp [List.getD_eq_getElem?_getD, List.getElem?_eq_getElem hlt]
    · apply List.map_congr_left
      intro i _
      simp only [Function.comp, Nat.succ_eq_add_one]
      congr 1
      omega

theorem flatten_items (x : ByteArray) (w : Nat) :
    ∀ m, m * w ≤ x.length →
      ((List.range m).map fun k => (List.range w).map fun i => x.getD (k * w + i) 0).flatten
        = x.take (m * w) := by
  intro m
  induction m with
  | zero => intro _; simp
  | succ m ih =>
    intro h
    rw [Nat.succ_mul] at h
    rw [List.range_succ, List.map_append, List.flatten_append, ih (by omega)]
    simp only [List.map_cons, List.map_nil, List.flatten_cons, List.flatten_nil, List.append_nil]
    rw [map_getD_range x w (m * w) h, Nat.succ_mul, List.take_add]

theorem Shuffle_length (x : ByteArray) (w : Nat) :
    (Compression.Shuffle x w).length = x.length := by
  unfold Compression.Shuffle
  simp only [List.length_append, List.length_drop]
  rw [length_grid (fun i k => x.getD (k * w + i) 0)]
  have h : x.length / w * w ≤ x.length := Nat.div_mul_le_self _ _
  have e : w * (x.length / w) = x.length / w * w := Nat.mul_comm _ _
  omega

theorem Shuffle_getElem? (x : ByteArray) (w i k : Nat) (hi : i < w) (hk : k < x.length / w) :
    (Compression.Shuffle x w)[i * (x.length / w) + k]? = x[k * w + i]? := by
  have hidx : k * w + i < x.length := by
    have h1 : (k + 1) * w ≤ x.length / w * w := Nat.mul_le_mul_right _ hk
    have h2 : x.length / w * w ≤ x.length := Nat.div_mul_le_self _ _
    rw [Nat.succ_mul] at h1
    omega
  have hpos : i * (x.length / w) + k < w * (x.length / w) := by
    have : (i + 1) * (x.length / w) ≤ w * (x.length / w) := Nat.mul_le_mul_right _ hi
    rw [Nat.succ_mul] at this
    omega
  unfold Compression.Shuffle
  simp only
  rw [List.getElem?_append_left
      (by rw [length_grid (fun i k => x.getD (k * w + i) 0)]; exact hpos),
    getElem?_grid (fun i k => x.getD (k * w + i) 0) _ _ i k hi hk]
  simp [List.getD_eq_getElem?_getD, List.getElem?_eq_getElem hidx]

theorem Shuffle_drop (x : ByteArray) (w : Nat) :
    (Compression.Shuffle x w).drop (x.length / w * w) = x.drop (x.length / w * w) := by
  unfold Compression.Shuffle
  simp only
  rw [List.drop_append_eq_append_drop, length_grid (fun i k => x.getD (k * w + i) 0)]
  have e : x.length / w * w - w * (x.length / w) = 0 := by
    rw [Nat.mul_comm]
    omega
  rw [e, List.drop_zero, List.drop_eq_nil_of_le, List.nil_append]
  rw [length_grid (fun i k => x.getD (k * w + i) 0), Nat.mul_comm]

theorem map_size_filterMap (ext : External) (E : PCL_CompressionEngine) (l : List Nat) :
    (l.filterMap (CompressionThread.subblockAt ext E)).map Subblock.uncompressedSize
      = (l.map E.itemSize).filter (fun s => decide (0 < s)) := by
  induction l with
  | nil => rfl
  | cons i l ih =>
    by_cases h : 0 < E.itemSize i
    · rw [List.filterMap_cons_some (subblockAt_eq_some ext E i h)]
      simp only [List.map_cons, List.filter_cons, h, decide_True, if_true]
      rw [ih]
    · have h0 : E.itemSize i = 0 := by omega
      rw [List.filterMap_cons_none (subblockAt_eq_none ext E i h0)]
      simp only [List.map_cons, List.filter_cons, h, decide_False]
      rw [ih]
      simp

theorem map_itemSize_full (E : PCL_CompressionEngine) (k : Nat) (hk : k ≤ E.m_numberOfSubblocks) :
    (List.range k).map E.itemSize = List.replicate k E.m_subblockSize := by
  induction k with
  | zero => rfl
  | succ k ih =>
    rw [List.range_succ, List.map_append, ih (by omega), List.replicate_succ']
    simp only [List.map_cons, List.map_nil, PCL_CompressionEngine.itemSize]
    rw [if_pos (show k < E.m_numberOfSubblocks by omega)]

theorem map_itemSize (E : PCL_CompressionEngine) :
    (List.range (E.m_numberOfSubblocks + 1)).map E.itemSize
      = List.replicate E.m_numberOfSubblocks E.m_subblockSize ++ [E.m_remainingSize] := by
  rw [List.range_succ, List.map_append, map_itemSize_full E _ (Nat.le_refl _)]
  simp [PCL_CompressionEngine.itemSize]

theorem ceil_div (n S r : Nat) (hS : 0 < S) (hr : r < S) :
    (n * S + r + S - 1) / S = n + (if r ≠ 0 then 1 else 0) := by
  by_cases h : r = 0
  · subst h
    simp only [Nat.add_zero, ne_eq, not_true_eq_false, if_false]
    apply Nat.div_eq_of_lt_le
    · have := Nat.mul_comm n S
      omega
    · rw [Nat.succ_mul]
      omega
  · simp only [ne_eq, h, not_false_eq_true, if_true]
    apply Nat.div_eq_of_lt_le
    · rw [Nat.succ_mul]
      omega
    · rw [Nat.succ_mul, Nat.succ_mul]
      omega

theorem range_append_range (a b c : Nat) (hab : a ≤ b) (hbc : b ≤ c) :
    List.range' a (b - a) ++ List.range' b (c - b) = List.range' a (c - a) := by
  have := List.range'_append a (b - a) (c - b) 1
  have h1 : a + 1 * (b - a) = b := by omega
  have h2 : c - b + (b - a) = c - a := by omega
  rw [h1, h2] at this
  exact this

theorem range_chunks (q M : Nat) :
    ((List.range M).map fun i => List.range' (i * q) ((i + 1) * q - i * q)).flatten
      = List.range' 0 (M * q - 0) := by
  induction M with
  | zero => simp
  | succ M ih =>
    rw [List.range_succ, List.map_append, List.flatten_append, ih]
    simp only [List.map_cons, List.map_nil, List.flatten_cons, List.flatten_nil, List.append_nil]
    exact range_append_range 0 (M * q) ((M + 1) * q) (Nat.zero_le _)
      (Nat.mul_le_mul_right _ (Nat.le_succ _))

theorem compression_threads_cover (E : PCL_CompressionEngine) (T : Nat) (hT : 1 ≤ T) :
    ((E.threads T).map fun t => List.range' t.1 (t.2 - t.1)).flatten
      = List.range (E.m_numberOfSubblocks + 1) := by
  obtain ⟨M, rfl⟩ : ∃ M, T = M + 1 := ⟨T - 1, by omega⟩
  unfold PCL_CompressionEngine.threads
  simp only [List.map_map, Function.comp_def]
  rw [List.range_succ, List.map_append, List.flatten_append]
  simp only [List.map_cons, List.map_nil, List.flatten_cons, List.flatten_nil, List.append_nil,
    Nat.lt_irrefl, if_false]
  have hmap : (List.range M).map (fun i =>
      List.range' (i * ((E.m_numberOfSubblocks + 1) / (M + 1)))
        ((if i + 1 < M + 1 then (i + 1) * ((E.m_numberOfSubblocks + 1) / (M + 1))
          else E.m_numberOfSubblocks + 1) - i * ((E.m_numberOfSubblocks + 1) / (M + 1))))
      = (List.range M).map (fun i =>
      List.range' (i * ((E.m_numberOfSubblocks + 1) / (M + 1)))
        ((i + 1) * ((E.m_numberOfSubblocks + 1) / (M + 1))
          - i * ((E.m_numberOfSubblocks + 1) / (M + 1)))) := by
    apply List.map_congr_left
    intro i hi
    have hlt : i < M := List.mem_range.mp hi
    have h2 : i + 1 < M + 1 := Nat.succ_lt_succ hlt
    simp only [h2, if_true]
  rw [hmap, range_chunks, List.range_eq_range']
  have hle : M * ((E.m_numberOfSubblocks + 1) / (M + 1)) ≤ E.m_numberOfSubblocks + 1 :=
    calc M * ((E.m_numberOfSubblocks + 1) / (M + 1))
        ≤ (M + 1) * ((E.m_numberOfSubblocks + 1) / (M + 1)) :=
          Nat.mul_le_mul_right _ (Nat.le_succ _)
      _ ≤ E.m_numberOfSubblocks + 1 := Nat.mul_div_le _ _
  have := range_append_range 0 (M * ((E.m_numberOfSubblocks + 1) / (M + 1)))
    (E.m_numberOfSubblocks + 1) (Nat.zero_le _) hle
  simpa using this

theorem compression_threads_ordered (E : PCL_CompressionEngine) (T : Nat) :
    ∀ t ∈ E.threads T, t.1 ≤ t.2 := by
  intro t ht
  unfold PCL_CompressionEngine.threads at ht
  obtain ⟨i, hi, rfl⟩ := List.mem_map.mp ht
  have hlt : i < T := List.mem_range.mp hi
  simp only
  split
  · exact Nat.mul_le_mul_right _ (Nat.le_succ _)
  · calc i * ((E.m_numberOfSubblocks + 1) / T)
        ≤ T * ((E.m_numberOfSubblocks + 1) / T) := Nat.mul_le_mul_right _ (Nat.le_of_lt hlt)
      _ ≤ E.m_numberOfSubblocks + 1 := Nat.mul_div_le _ _

theorem createThreads_parts (subblocks : subblock_list) (T q : Nat) :
    ∀ k i off,
      (PCL_DecompressionEngine.createThreads subblocks T q k i off).map
          DecompressionThread.m_subblocks
        = (List.range' i k).map (fun i =>
            if i + 1 < T then (subblocks.drop (i * q)).take q else subblocks.drop (i * q)) := by
  intro k
  induction k with
  | zero => intro i off; rfl
  | succ k ih =>
    intro i off
    simp only [PCL_DecompressionEngine.createThreads, List.map_cons, List.range'_succ, ih]
    congr 1
    have e : (i + 1) * q - i * q = q := by
      rw [Nat.succ_mul]
      omega
    rw [e]

theorem decompression_threads_parts (subblocks : subblock_list) (T : Nat) :
    (PCL_DecompressionEngine.threads subblocks T).map DecompressionThread.m_subblocks
      = (List.range T).map (fun i =>
          if i + 1 < T then
            (subblocks.drop (i * (subblocks.length / T))).take (subblocks.length / T)
          else subblocks.drop (i * (subblocks.length / T))) := by
  unfold PCL_DecompressionEngine.threads
  rw [createThreads_parts, List.range_eq_range']

theorem loop_total (ext : External) (c : Compression) (off U : Nat) (part : subblock_list) :
    ∀ (totalSize : Nat) (buf b : ByteArray) (n : Nat),
      DecompressionThread.loop ext c off U part totalSize buf = (b, .ok n) →
      n = totalSize + totalUncompressed part := by
  induction part with
  | nil =>
    intro totalSize buf b n h
    simp only [DecompressionThread.loop, Prod.mk.injEq, Except.ok.injEq] at h
    simp [totalUncompressed, ← h.2]
  | cons sb rest ih =>
    intro totalSize buf b n h
    rw [totalUncompressed_cons, ← Nat.add_assoc]
    simp only [DecompressionThread.loop] at h
    split at h
    · simp at h
    · split at h
      · split at h
        · simp at h
        · split at h
          · simp at h
          · exact ih _ _ _ _ h
      · exact ih _ _ _ _ h

theorem loop_ok_iff (ext : External) (c : Compression) (off U : Nat) (part : subblock_list) :
    ∀ (totalSize : Nat) (buf : ByteArray),
      (∃ n, (DecompressionThread.loop ext c off U part totalSize buf).2 = .ok n) ↔
        DecompressionThread.passes ext c U part totalSize := by
  induction part with
  | nil =>
    intro totalSize buf
    simp [DecompressionThread.loop, DecompressionThread.passes]
  | cons sb rest ih =>
    intro totalSize buf
    simp only [DecompressionThread.loop, DecompressionThread.passes]
    by_cases hc : sb.checksumFails ext
    · have hc2 := hc
      unfold Subblock.checksumFails at hc2
      simp [hc, hc2]
    · have hc2 := hc
      unfold Subblock.checksumFails at hc2
      simp only [if_neg hc2, hc, not_false_eq_true, true_and]
      by_cases hlen : sb.compressedData.length < sb.uncompressedSize
      · simp only [if_pos hlen, hlen, true_implies]
        by_cases h0 : (c.UncompressBlock (U - totalSize) sb.compressedData).1 = 0
        · simp only [if_pos h0]
          constructor
          · rintro ⟨n, hn⟩
            cases hn
          · rintro ⟨h1, _⟩
            omega
        · simp only [if_neg h0]
          by_cases h1 : (c.UncompressBlock (U - totalSize) sb.compressedData).1
              = sb.uncompressedSize
          · simp only [h1, ne_eq, not_true_eq_false, if_false, true_and]
            exact ih _ _
          · simp only [ne_eq, h1, not_false_eq_true, if_true, false_and]
            constructor
            · rintro ⟨n, hn⟩
              cases hn
            · exact False.elim
      · simp only [if_neg hlen, hlen, false_implies, true_and]
        exact ih _ _

theorem Run_none_iff (ext : External) (c : Compression) (t : DecompressionThread)
    (buf : ByteArray) :
    (t.Run ext c buf).2 = none ↔
      DecompressionThread.passes ext c (totalUncompressed t.m_subblocks) t.m_subblocks 0 := by
  rw [← loop_ok_iff ext c t.m_offset (totalUncompressed t.m_subblocks) t.m_subblocks 0 buf]
  unfold DecompressionThread.Run
  dsimp only
  have htot := loop_total ext c t.m_offset (totalUncompressed t.m_subblocks) t.m_subblocks 0 buf
  generalize DecompressionThread.loop ext c t.m_offset (totalUncompressed t.m_subblocks)
    t.m_subblocks 0 buf = r at htot ⊢
  obtain ⟨b, e⟩ := r
  cases e with
  | error s => simp
  | ok n =>
    have := htot b n rfl
    rw [Nat.zero_add] at this
    simp [this]

theorem runThreads_no_error_iff (ext : External) (c : Compression)
    (ts : List DecompressionThread) :
    ∀ (i : Nat) (buf : ByteArray) (errs : List (Nat × String)),
      (PCL_DecompressionEngine.runThreads ext c ts i buf errs).2 = [] ↔
        errs = [] ∧ ∀ t ∈ ts,
          DecompressionThread.passes ext c (totalUncompressed t.m_subblocks) t.m_subblocks 0 := by
  induction ts with
  | nil =>
    intro i buf errs
    simp [PCL_DecompressionEngine.runThreads]
  | cons t rest ih =>
    intro i buf errs
    simp only [PCL_DecompressionEngine.runThreads]
    rw [ih, List.append_eq_nil, List.forall_mem_cons, ← Run_none_iff ext c t buf]
    cases h : (t.Run ext c buf).2 with
    | none => simp
    | some s => simp

theorem validate_ok_inv (c : Compression) (l : subblock_list) :
    ∀ acc n, PCL_DecompressionEngine.validate c l acc = .ok n →
      ∀ sb ∈ l, sb.compressedData ≠ [] ∧ sb.uncompressedSize ≠ 0 := by
  induction l with
  | nil => intro acc n _ sb hsb; exact absurd hsb (List.not_mem_nil sb)
  | cons s rest ih =>
    intro acc n h sb hsb
    simp only [PCL_DecompressionEngine.validate] at h
    split at h
    · cases h
    · rename_i hs
      rcases List.mem_cons.mp hsb with rfl | hmem
      · constructor
        · intro he
          exact hs (Or.inl (by rw [he]; rfl))
        · intro he
          exact hs (Or.inr he)
      · exact ih _ _ h sb hmem

theorem loop_buffer_eq_writes (ext : External) (c : Compression) (off U : Nat)
    (part : subblock_list) :
    ∀ (totalSize : Nat) (buf : ByteArray),
      (DecompressionThread.loop ext c off U part totalSize buf).1 =
        (DecompressionThread.writes ext c off U part totalSize).foldl
          (fun b w => writeAt b w.1 w.2) buf := by
  induction part with
  | nil => intro totalSize buf; rfl
  | cons sb rest ih =>
    intro totalSize buf
    simp only [DecompressionThread.loop, DecompressionThread.writes]
    split
    · rfl
    · split
      · split
        · rfl
        · split
          · rfl
          · rw [ih]
            rfl
      · rw [ih]
        rfl

theorem Run_buffer_eq_writes (ext : External) (c : Compression) (t : DecompressionThread)
    (buf : ByteArray) :
    (t.Run ext c buf).1 =
      (DecompressionThread.writes ext c t.m_offset (totalUncompressed t.m_subblocks)
        t.m_subblocks 0).foldl (fun b w => writeAt b w.1 w.2) buf := by
  rw [← loop_buffer_eq_writes]
  unfold DecompressionThread.Run
  dsimp only
  generalize DecompressionThread.loop ext c t.m_offset (totalUncompressed t.m_subblocks)
    t.m_subblocks 0 buf = r
  obtain ⟨b, e⟩ := r
  cases e with
  | error s => rfl
  | ok n =>
    dsimp only
    split <;> rfl

theorem totalUncompressed_take_succ (l : subblock_list) (k : Nat) :
    totalUncompressed (l.take (k + 1))
      = totalUncompressed (l.take k) + totalUncompressed ((l.drop k).take 1) := by
  rw [List.take_add, totalUncompressed_append]

theorem writes_offset (ext : External) (c : Compression) (off U : Nat) (part : subblock_list) :
    ∀ (totalSize j : Nat) (w : Nat × ByteArray),
      (DecompressionThread.writes ext c off U part totalSize)[j]? = some w →
      w.1 = off + totalSize + totalUncompressed (part.take j) := by
  induction part with
  | nil =>
    intro totalSize j w h
    simp [DecompressionThread.writes] at h
  | cons sb rest ih =>
    intro totalSize j w h
    simp only [DecompressionThread.writes] at h
    have key : ∀ (x : ByteArray) (tail : List (Nat × ByteArray)),
        (tail = [] ∨ tail = DecompressionThread.writes ext c off U rest
          (totalSize + sb.uncompressedSize)) →
        ((off + totalSize, x) :: tail)[j]? = some w →
        w.1 = off + totalSize + totalUncompressed ((sb :: rest).take j) := by
      intro x tail htail hj
      cases j with
      | zero =>
        simp only [List.getElem?_cons_zero, Option.some.injEq] at hj
        rw [← hj]
        simp [totalUncompressed]
      | succ j =>
        rw [List.getElem?_cons_succ] at hj
        rcases htail with rfl | rfl
        · simp at hj
        · rw [ih _ _ _ hj, List.take_succ_cons, totalUncompressed_cons]
          omega
    split at h
    · simp at h
    · split at h
      · refine key _ _ ?_ h
        split
        · exact Or.inl rfl
        · split
          · exact Or.inl rfl
          · exact Or.inr rfl
      · exact key _ _ (Or.inr rfl) h

theorem createThreads_closed (subblocks : subblock_list) (T q : Nat) :
    ∀ k i off, i + k = T → off = totalUncompressed (subblocks.take (i * q)) →
      PCL_DecompressionEngine.createThreads subblocks T q k i off
        = (List.range' i k).map (fun i =>
            { m_offset := totalUncompressed (subblocks.take (i * q))
              m_subblocks := if i + 1 < T then (subblocks.drop (i * q)).take q
                             else subblocks.drop (i * q) }) := by
  intro k
  induction k with
  | zero => intro i off _ _; rfl
  | succ k ih =>
    intro i off hik hoff
    have e : (i + 1) * q - i * q = q := by
      rw [Nat.succ_mul]
      omega
    simp only [PCL_DecompressionEngine.createThreads, List.range'_succ, List.map_cons, e]
    by_cases hj : i + 1 < T
    · simp only [if_pos hj]
      rw [ih (i + 1) _ (by omega) (by
        rw [hoff, Nat.succ_mul, List.take_add, totalUncompressed_append])]
      rw [hoff]
    · have hk : k = 0 := by omega
      subst hk
      simp only [if_neg hj, hoff]
      rfl

theorem threads_closed (subblocks : subblock_list) (T : Nat) :
    PCL_DecompressionEngine.threads subblocks T
      = (List.range T).map (fun i =>
          { m_offset := totalUncompressed (subblocks.take (i * (subblocks.length / T)))
            m_subblocks :=
              if i + 1 < T then
                (subblocks.drop (i * (subblocks.length / T))).take (subblocks.length / T)
              else subblocks.drop (i * (subblocks.length / T)) }) := by
  unfold PCL_DecompressionEngine.threads
  rw [createThreads_closed subblocks T _ T 0 0 (by omega) (by simp [totalUncompressed]),
    List.range_eq_range']

theorem totalUncompressed_take_le (l : subblock_list) (k k2 : Nat) (h : k ≤ k2) :
    totalUncompressed (l.take k) ≤ totalUncompressed (l.take k2) := by
  obtain ⟨d, rfl⟩ : ∃ d, k2 = k + d := ⟨k2 - k, by omega⟩
  rw [List.take_add, totalUncompressed_append]
  omega

theorem length_output (c : Compression) (U : Nat) (pre : subblock_list) :
    ∀ totalSize, DecompressionThread.storesRecorded c U pre totalSize →
      (DecompressionThread.output c U pre totalSize).length = totalUncompressed pre := by
  induction pre with
  | nil => intro _ _; rfl
  | cons sb tail ih =>
    intro totalSize h
    obtain ⟨h1, h2⟩ := h
    simp only [DecompressionThread.output, List.length_append, totalUncompressed_cons]
    rw [ih _ h2]
    by_cases hlen : sb.compressedData.length < sb.uncompressedSize
    · rw [if_pos hlen, h1 hlen]
    · rw [if_neg hlen, List.length_take]
      omega

theorem loop_exact_prefix (ext : External) (c : Compression) (off U : Nat)
    (pre rest : subblock_list) :
    ∀ (totalSize : Nat) (buf : ByteArray),
      DecompressionThread.passes ext c U pre totalSize →
      DecompressionThread.storesRecorded c U pre totalSize →
      off + totalSize ≤ buf.length →
      DecompressionThread.loop ext c off U (pre ++ rest) totalSize buf =
        DecompressionThread.loop ext c off U rest (totalSize + totalUncompressed pre)
          (writeAt buf (off + totalSize) (DecompressionThread.output c U pre totalSize)) := by
  induction pre with
  | nil =>
    intro totalSize buf _ _ _
    simp [totalUncompressed, writeAt_nil, DecompressionThread.output]
  | cons sb tail ih =>
    intro totalSize buf hpass hst hbuf
    obtain ⟨hc, hp1, hp2⟩ := hpass
    obtain ⟨hs1, hs2⟩ := hst
    have hc2 := hc
    unfold Subblock.checksumFails at hc2
    rw [List.cons_append]
    simp only [DecompressionThread.loop, if_neg hc2, DecompressionThread.output]
    rw [totalUncompressed_cons]
    by_cases hlen : sb.compressedData.length < sb.uncompressedSize
    · have hr := hp1 hlen
      have hl := hs1 hlen
      simp only [if_pos hlen, hr]
      rw [if_neg (by omega), if_neg (by simp)]
      have hw := length_writeAt buf (off + totalSize)
        (c.UncompressBlock (U - totalSize) sb.compressedData).2 hbuf
      rw [ih _ _ hp2 hs2 (by omega)]
      have := writeAt_writeAt buf (off + totalSize)
        (c.UncompressBlock (U - totalSize) sb.compressedData).2
        (DecompressionThread.output c U tail (totalSize + sb.uncompressedSize)) hbuf
      rw [hl] at this
      rw [← Nat.add_assoc off, this, Nat.add_assoc]
    · have hl : (sb.compressedData.take sb.uncompressedSize).length = sb.uncompressedSize := by
        rw [List.length_take]
        omega
      simp only [if_neg hlen]
      have hw := length_writeAt buf (off + totalSize)
        (sb.compressedData.take sb.uncompressedSize) hbuf
      rw [ih _ _ hp2 hs2 (by omega)]
      have := writeAt_writeAt buf (off + totalSize)
        (sb.compressedData.take sb.uncompressedSize)
        (DecompressionThread.output c U tail (totalSize + sb.uncompressedSize)) hbuf
      rw [hl] at this
      rw [← Nat.add_assoc off, this, Nat.add_assoc]

theorem writeAt_zero (buf a : ByteArray) : writeAt buf 0 a = a ++ buf.drop a.length := by
  simp [writeAt]

theorem writes_length (ext : External) (c : Compression) (off U : Nat) (part : subblock_list) :
    ∀ (totalSize j : Nat) (w : Nat × ByteArray) (s : Subblock),
      DecompressionThread.storesRecorded c U part totalSize →
      (DecompressionThread.writes ext c off U part totalSize)[j]? = some w →
      part[j]? = some s →
      w.2.length = s.uncompressedSize := by
  induction part with
  | nil =>
    intro totalSize j w s _ h
    simp [DecompressionThread.writes] at h
  | cons sb rest ih =>
    intro totalSize j w s hst h hs
    obtain ⟨hs1, hs2⟩ := hst
    simp only [DecompressionThread.writes] at h
    have key : ∀ (x : ByteArray) (tail : List (Nat × ByteArray)),
        x.length = sb.uncompressedSize →
        (tail = [] ∨ tail = DecompressionThread.writes ext c off U rest
          (totalSize + sb.uncompressedSize)) →
        ((off + totalSize, x) :: tail)[j]? = some w →
        w.2.length = s.uncompressedSize := by
      intro x tail hx htail hj
      cases j with
      | zero =>
        simp only [List.getElem?_cons_zero, Option.some.injEq] at hj hs
        rw [← hj, ← hs]
        exact hx
      | succ j =>
        rw [List.getElem?_cons_succ] at hj hs
        rcases htail with rfl | rfl
        · simp at hj
        · exact ih _ _ _ _ hs2 hj hs
    split at h
    · simp at h
    · split at h
      · rename_i hlen
        refine key _ _ (hs1 hlen) ?_ h
        split
        · exact Or.inl rfl
        · split
          · exact Or.inl rfl
          · exact Or.inr rfl
      · rename_i hlen
        refine key _ _ ?_ (Or.inr rfl) h
        rw [List.length_take]
        omega

theorem Run_exact (ext : External) (c : Compression) (t : DecompressionThread)
    (buf : ByteArray)
    (hpass : DecompressionThread.passes ext c (totalUncompressed t.m_subblocks) t.m_subblocks 0)
    (hst : DecompressionThread.storesRecorded c (totalUncompressed t.m_subblocks)
      t.m_subblocks 0)
    (hbuf : t.m_offset ≤ buf.length) :
    t.Run ext c buf =
      (buf.take t.m_offset
        ++ DecompressionThread.output c (totalUncompressed t.m_subblocks) t.m_subblocks 0
        ++ buf.drop (t.m_offset + totalUncompressed t.m_subblocks), none) := by
  have h := loop_exact_prefix ext c t.m_offset (totalUncompressed t.m_subblocks) t.m_subblocks
    [] 0 buf hpass hst (by omega)
  have hl := length_output c (totalUncompressed t.m_subblocks) t.m_subblocks 0 hst
  unfold DecompressionThread.Run
  simp only [List.append_nil, Nat.add_zero, Nat.zero_add, DecompressionThread.loop] at h ⊢
  rw [h]
  simp only [ne_eq, not_true_eq_false, if_false, writeAt, hl]

/-! ## The engine with its record of codec calls -/

theorem subblockAtTraced_fst (ext : External) (E : PCL_CompressionEngine) (i : Nat) :
    (CompressionThread.subblockAtTraced ext E i).1 = CompressionThread.subblockAt ext E i := by
  unfold CompressionThread.subblockAtTraced CompressionThread.subblockAt
  by_cases h0 : E.itemSize i > 0
  · by_cases hmin : E.itemSize i ≥ E.m_compression.MinBlockSize
    · rw [if_pos h0, if_pos hmin, if_pos h0]
      simp [PCL_CompressionEngine.itemIsCompressed, PCL_CompressionEngine.itemCompressed, hmin]
    · rw [if_pos h0, if_neg hmin, if_pos h0]
      simp [PCL_CompressionEngine.itemIsCompressed, hmin]
  · rw [if_neg h0, if_neg h0]

theorem foldl_traced (ext : External) (E : PCL_CompressionEngine) (l : List Nat) :
    ∀ acc : subblock_list × List CodecCall,
      l.foldl (fun acc i =>
          (acc.1 ++ (CompressionThread.subblockAtTraced ext E i).1.toList,
           acc.2 ++ (CompressionThread.subblockAtTraced ext E i).2)) acc
        = (acc.1 ++ l.filterMap (CompressionThread.subblockAt ext E),
           acc.2 ++ (l.map fun i => (CompressionThread.subblockAtTraced ext E i).2).flatten) := by
  induction l with
  | nil => intro acc; simp
  | cons a rest ih =>
    intro acc
    rw [List.foldl_cons, ih]
    simp only [subblockAtTraced_fst, List.map_cons, List.flatten_cons, List.append_assoc]
    cases h : CompressionThread.subblockAt ext E a with
    | none => simp [List.filterMap_cons, h]
    | some sb => simp [List.filterMap_cons, h]

theorem RunTraced_eq (ext : External) (E : PCL_CompressionEngine) (b e : Nat) :
    CompressionThread.RunTraced ext E b e
      = (CompressionThread.Run ext E b e,
         ((List.range' b (e - b)).map fun i =>
           (CompressionThread.subblockAtTraced ext E i).2).flatten) := by
  unfold CompressionThread.RunTraced CompressionThread.Run
  rw [foldl_traced]
  simp

theorem operatorTraced_fst (ext : External) (c : Compression) (data : Option ByteArray)
    (size : Nat) (perf : Option Performance) :
    (PCL_CompressionEngine.operatorTraced ext c data size perf).1
      = PCL_CompressionEngine.operator ext c data size perf := by
  unfold PCL_CompressionEngine.operatorTraced PCL_CompressionEngine.operator
  cases data with
  | none => rfl
  | some d =>
    dsimp only
    split
    · rfl
    · split
      · rfl
      · split
        · rfl
        · simp only [PCL_CompressionEngine.run, PCL_CompressionEngine.assemble, RunTraced_eq,
            List.map_map]
          rfl

/-! ## The claims -/

/-- C1 (round trip). Let `Compress` return a non-empty list `L` for the input
`x` (which is then non-empty), with a codec that decodes what it encoded
whenever it is given room for the block and for no more than `M` bytes, where
no partition of a decompression worker holds more than `M` bytes (a worker
passes the number of bytes that remain in its partition; `len(x)` is such an
`M`) and, when byte shuffling applies, a shuffle that returns as many bytes as it is given
and an unshuffle that undoes it on `x`. Then `Uncompress` of `L` into a
buffer of capacity `len(x)`, with the same configuration under any
parallel-processing settings that give at least one worker, returns `len(x)`
without an error and leaves the buffer equal to `x`. -/
theorem compress_uncompress_round_trip (ext : External) (c : Compression) (x buffer : ByteArray)
    (L : subblock_list) (perf perf2 : Option Performance) (enabled : Bool) (maxProcessors : Int)
    (M : Nat)
    (hM : ∀ t ∈ PCL_DecompressionEngine.threads L
        (numberOfThreads ext (c.withWorkers enabled maxProcessors) L.length).toNat,
      totalUncompressed t.m_subblocks ≤ M)
    (hcodec : c.RoundTripsWithin M)
    (hunshuffle : c.ByteShufflingEnabled = true → c.ItemSize > 1 →
      ext.InPlaceUnshuffle (ext.Shuffle x c.ItemSize) c.ItemSize = x)
    (hshuffle : c.ByteShufflingEnabled = true → c.ItemSize > 1 →
      (ext.Shuffle x c.ItemSize).length = x.length)
    (hbuffer : buffer.length = x.length)
    (hworkers : 1 ≤ numberOfThreads ext (c.withWorkers enabled maxProcessors) L.length)
    (hL : (Compression.Compress ext c (some x) x.length perf).outcome = .returned L)
    (hne : L ≠ []) :
    (Compression.Uncompress ext (c.withWorkers enabled maxProcessors) buffer x.length L
        perf2).outcome = .returned x.length ∧
    (Compression.Uncompress ext (c.withWorkers enabled maxProcessors) buffer x.length L
        perf2).data = x := by
  obtain ⟨_, _, _, hLeq, _⟩ := Compress_returned_inv ext c x x.length perf L hL hne
  have hsz := setup_size ext c x x.length
  have hdl := setup_data_length ext c x hshuffle
  have hn : (PCL_CompressionEngine.setup ext c x x.length).m_numberOfSubblocks
      = x.length / effectiveSubblockSize c := rfl
  rw [← hn] at hLeq
  have hd : (PCL_CompressionEngine.setup ext c x x.length).m_numberOfSubblocks
        * (PCL_CompressionEngine.setup ext c x x.length).m_subblockSize
      + (PCL_CompressionEngine.setup ext c x x.length).m_remainingSize
      ≤ (PCL_CompressionEngine.setup ext c x x.length).m_data.length := by omega
  have htot : totalUncompressed L = x.length := by
    rw [hLeq, totalUncompressed_Run, hsz]
  have hN2 : 1 ≤ (numberOfThreads ext (c.withWorkers enabled maxProcessors) L.length).toNat := by
    omega
  have hbound : ∀ sb ∈ L, sb.uncompressedSize ≤ M := by
    intro sb hsb
    rw [← (threads_spec L _ hN2).2, List.mem_flatten] at hsb
    obtain ⟨l, hl, hsbl⟩ := hsb
    obtain ⟨t, ht, rfl⟩ := List.mem_map.mp hl
    have := uncompressedSize_le_total _ sb hsbl
    have := hM t ht
    omega
  have hitem : ∀ i sb, i ≤ (PCL_CompressionEngine.setup ext c x x.length).m_numberOfSubblocks →
      CompressionThread.subblockAt ext (PCL_CompressionEngine.setup ext c x x.length) i
        = some sb →
      (PCL_CompressionEngine.setup ext c x x.length).itemSize i ≤ M := by
    intro i sb hi hs
    have hmem : sb ∈ L := by
      rw [hLeq]
      exact (mem_Run_iff ext _ 0 _ sb).mpr ⟨i, Nat.zero_le _, by omega, hs⟩
    have := (subblockAt_facts ext _ i sb hi hd hs).2.1
    have := hbound sb hmem
    omega
  have hfacts : ∀ sb ∈ L, (sb.compressedData ≠ [] ∧ sb.uncompressedSize ≠ 0) ∧
      (¬ sb.checksumFails ext ∧
        sb.SoundWithin (c.withWorkers enabled maxProcessors) M) := by
    intro sb hsb
    rw [hLeq] at hsb
    obtain ⟨i, hi, hs⟩ := mem_compressed_list ext _ sb hsb
    obtain ⟨h1, _, h3, _⟩ := subblockAt_facts ext _ i sb hi hd hs
    refine ⟨⟨?_, by omega⟩, subblockAt_checksum_ok ext _ i sb hs,
      (subblockAt_sound ext _ i sb hi hd hs M (hitem i sb hi hs) hcodec _ rfl).1⟩
    intro h
    rw [h] at h3
    exact absurd h3 (by simp)
  have hcontent : (L.map (Subblock.decoded (c.withWorkers enabled maxProcessors))).flatten
      = (PCL_CompressionEngine.setup ext c x x.length).m_data := by
    rw [hLeq, flatten_decoded_Run ext _ (c.withWorkers enabled maxProcessors) hd M hitem
      hcodec rfl, hsz]
    exact List.take_of_length_le (by omega)
  obtain ⟨hout, hdata⟩ := uncompress_of_good ext (c.withWorkers enabled maxProcessors) buffer
    x.length L perf2 hne (fun sb hsb => (hfacts sb hsb).1) M hM
    (fun sb hsb => (hfacts sb hsb).2) (by omega) hworkers
  rw [htot] at hout hdata
  refine ⟨hout, ?_⟩
  rw [hdata, hcontent, writeAt_zero_full _ _ (by omega)]
  simp only [Compression.withWorkers, PCL_CompressionEngine.setup, List.take_length]
  split
  · rename_i hs
    have hl2 : (ext.Shuffle x c.ItemSize).length ≤ x.length :=
      Nat.le_of_eq (hshuffle hs.1 hs.2)
    rw [List.take_of_length_le hl2, List.drop_eq_nil_of_le hl2, List.append_nil,
      hunshuffle hs.1 hs.2]
  · rfl

set_option maxRecDepth 100000 in
theorem compress_uncompress_round_trip_witness :
    (Compression.Uncompress sampleExternal (sampleAdapter.withWorkers true 2)
        (List.replicate 250 0) sampleInput.length sampleSubblocks none).outcome
      = .returned sampleInput.length ∧
    (Compression.Uncompress sampleExternal (sampleAdapter.withWorkers true 2)
        (List.replicate 250 0) sampleInput.length sampleSubblocks none).data = sampleInput :=
  compress_uncompress_round_trip sampleExternal sampleAdapter sampleInput
    (List.replicate 250 0) sampleSubblocks none none true 2 128 (by decide)
    (rle_roundTrips _ (by decide)) (fun _ _ => by decide)
    (fun _ _ => by decide) (by decide) (by decide) (by decide) (by decide)

/-- C2 (order independence of the worker count). The list that `Compress`
returns with any parallel-processing settings that give at least one worker is
equal, element by element and in the same order, to the list it returns with
parallel processing disabled, that is with one worker. -/
theorem compress_worker_count_independent (ext : External) (c : Compression)
    (data : Option ByteArray) (size : Nat) (perf : Option Performance) (enabled : Bool)
    (maxProcessors : Int)
    (hworkers : 1 ≤ numberOfThreads ext (c.withWorkers enabled maxProcessors)
      (size / effectiveSubblockSize c + 1)) :
    (Compression.Compress ext (c.withWorkers enabled maxProcessors) data size perf).outcome
      = (Compression.Compress ext (c.withWorkers false maxProcessors) data size perf).outcome := by
  cases data with
  | none => rfl
  | some d =>
    by_cases hsize : size = 0
    · simp [Compression.Compress, PCL_CompressionEngine.operator, hsize]
    by_cases hS : effectiveSubblockSize c = 0
    · have h1 : effectiveSubblockSize (c.withWorkers enabled maxProcessors) = 0 := hS
      have h2 : effectiveSubblockSize (c.withWorkers false maxProcessors) = 0 := hS
      simp [Compression.Compress, PCL_CompressionEngine.operator, hsize, h1, h2]
    · have h1 : effectiveSubblockSize (c.withWorkers enabled maxProcessors)
          = effectiveSubblockSize c := rfl
      have h2 : effectiveSubblockSize (c.withWorkers false maxProcessors)
          = effectiveSubblockSize c := rfl
      have hone : numberOfThreads ext (c.withWorkers false maxProcessors)
          (size / effectiveSubblockSize c + 1) = 1 := rfl
      rw [operator_eq_run ext _ d size perf hsize (by rw [h1]; exact hS)
          (by rw [h1]; omega),
        operator_eq_run ext _ d size perf hsize (by rw [h2]; exact hS)
          (by rw [h2, hone]; omega),
        run_outcome _ _ _ _ _ (by rw [h1]; omega),
        run_outcome _ _ _ _ _ (by rw [h2, hone]; decide)]
      rfl

set_option maxRecDepth 100000 in
theorem compress_worker_count_independent_witness :
    (Compression.Compress sampleExternal (sampleCompression.withWorkers true 3)
        (some sampleInput) 250 none).outcome
      = (Compression.Compress sampleExternal (sampleCompression.withWorkers false 3)
        (some sampleInput) 250 none).outcome :=
  compress_worker_count_independent sampleExternal sampleCompression (some sampleInput) 250 none
    true 3 (by decide)

/-- C3 (give-up rule and size monotonicity). For a non-empty input, a nonzero
effective subblock size and at least one worker, `Compress` returns the
assembled list unchanged exactly when its footprint, which is the sum of the
payload lengths plus the byte size of the subblock array (the number of
subblocks times `sizeof( Subblock )`) plus the size of the list object, is
below `size`, and the empty list exactly when the footprint is at least
`size`; so every non-empty list it returns has a footprint below `size`. -/
theorem compress_give_up_rule (ext : External) (c : Compression) (d : ByteArray) (size : Nat)
    (perf : Option Performance) (hsize : size ≠ 0) (hS : effectiveSubblockSize c ≠ 0)
    (hN : 1 ≤ numberOfThreads ext c (size / effectiveSubblockSize c + 1)) :
    ((Compression.Compress ext c (some d) size perf).outcome
        = .returned (PCL_CompressionEngine.assembled ext c d size)
      ↔ ((PCL_CompressionEngine.assembled ext c d size).map
            fun s => s.compressedData.length).sum
          + (PCL_CompressionEngine.assembled ext c d size).length * ext.sizeofSubblock
          + ext.sizeofSubblockList < size) ∧
    ((Compression.Compress ext c (some d) size perf).outcome = .returned []
      ↔ size ≤ ((PCL_CompressionEngine.assembled ext c d size).map
            fun s => s.compressedData.length).sum
          + (PCL_CompressionEngine.assembled ext c d size).length * ext.sizeofSubblock
          + ext.sizeofSubblockList) ∧
    (∀ L, (Compression.Compress ext c (some d) size perf).outcome = .returned L → L ≠ [] →
      (L.map fun s => s.compressedData.length).sum + L.length * ext.sizeofSubblock
        + ext.sizeofSubblockList < size) := by
  have hfp : ∀ L : subblock_list, footprint ext L
      = (L.map fun s => s.compressedData.length).sum + L.length * ext.sizeofSubblock
        + ext.sizeofSubblockList := by
    intro L
    simp only [footprint, totalCompressed]
    omega
  simp only [← hfp]
  have hout := Compress_outcome ext c d size perf hsize hS hN
  have hne : PCL_CompressionEngine.assembled ext c d size ≠ [] := by
    intro h
    have ht := totalUncompressed_assembled ext c d size hN
    rw [h] at ht
    exact hsize ht.symm
  by_cases hf : size ≤ footprint ext (PCL_CompressionEngine.assembled ext c d size)
  · rw [if_pos hf] at hout
    rw [hout]
    refine ⟨⟨fun h => ?_, fun h => by omega⟩, ⟨fun _ => hf, fun _ => rfl⟩, fun L h hL => ?_⟩
    · exact absurd (Outcome.returned.inj h).symm hne
    · exact absurd (Outcome.returned.inj h).symm hL
  · rw [if_neg hf] at hout
    rw [hout]
    refine ⟨⟨fun _ => by omega, fun _ => rfl⟩, ⟨fun h => ?_, fun h => absurd h hf⟩, fun L h _ => ?_⟩
    · exact absurd (Outcome.returned.inj h) hne
    · rw [← Outcome.returned.inj h]
      omega

set_option maxRecDepth 100000 in
theorem compress_give_up_rule_witness :
    (Compression.Compress sampleExternal sampleCompression (some sampleInput) 250 none).outcome
        = .returned (PCL_CompressionEngine.assembled sampleExternal sampleCompression
            sampleInput 250) ∧
      ((PCL_CompressionEngine.assembled sampleExternal sampleCompression sampleInput 250).map
          fun s => s.compressedData.length).sum
        + (PCL_CompressionEngine.assembled sampleExternal sampleCompression sampleInput
            250).length * 24 + 8 = 230 :=
  ⟨(compress_give_up_rule sampleExternal sampleCompression sampleInput 250 none (by decide)
    (by decide) (by decide)).1.mpr (by decide), by decide⟩

/-- C4. If the list that `Compress` returns is non-empty, the sum of
`uncompressedSize` over its subblocks equals `size`. -/
theorem compress_total_uncompressed (ext : External) (c : Compression)
    (data : Option ByteArray) (size : Nat) (perf : Option Performance) (L : subblock_list)
    (hL : (Compression.Compress ext c data size perf).outcome = .returned L)
    (hne : L ≠ []) :
    totalUncompressed L = size := by
  obtain _ | d := data
  · exact absurd (Outcome.returned.inj hL).symm hne
  obtain ⟨_, _, _, hLeq, _⟩ := Compress_returned_inv ext c d size perf L hL hne
  have h := totalUncompressed_Run ext (PCL_CompressionEngine.setup ext c d size)
  rw [setup_size] at h
  rw [hLeq]
  exact h

set_option maxRecDepth 100000 in
theorem compress_total_uncompressed_witness : totalUncompressed sampleSubblocks = 250 :=
  compress_total_uncompressed sampleExternal sampleCompression (some sampleInput) 250 none
    sampleSubblocks (by decide) (by decide)

/-- C5 (subblock invariant of the output of `Compress`). Every subblock of a
list that `Compress` returns for an input `x` has
`0 < uncompressedSize ≤` the effective subblock size and
`0 < payload length ≤ uncompressedSize`; it is the subblock of some item `i`,
its payload is shorter than `uncompressedSize` exactly when the worker took
the codec output for that item, and as long as `uncompressedSize` exactly when
the worker copied the source range. Hence a non-empty such list passes the
validation loop of `Uncompress`. The shuffle, when it is applied, is assumed
to return as many bytes as it is given. -/
theorem compress_subblock_invariant (ext : External) (c : Compression) (x : ByteArray)
    (perf : Option Performance) (L : subblock_list)
    (hshuffle : c.ByteShufflingEnabled = true → c.ItemSize > 1 →
      (ext.Shuffle x c.ItemSize).length = x.length)
    (hL : (Compression.Compress ext c (some x) x.length perf).outcome = .returned L) :
    (∀ sb ∈ L,
      0 < sb.uncompressedSize ∧ sb.uncompressedSize ≤ effectiveSubblockSize c ∧
      0 < sb.compressedData.length ∧ sb.compressedData.length ≤ sb.uncompressedSize ∧
      ∃ i, sb.uncompressedSize = (PCL_CompressionEngine.setup ext c x x.length).itemSize i ∧
        (sb.compressedData.length < sb.uncompressedSize ↔
          (PCL_CompressionEngine.setup ext c x x.length).itemIsCompressed i = true) ∧
        (sb.compressedData.length = sb.uncompressedSize ↔
          (PCL_CompressionEngine.setup ext c x x.length).itemIsCompressed i = false) ∧
        ((PCL_CompressionEngine.setup ext c x x.length).itemIsCompressed i = true →
          sb.compressedData = (PCL_CompressionEngine.setup ext c x x.length).itemCompressed i) ∧
        ((PCL_CompressionEngine.setup ext c x x.length).itemIsCompressed i = false →
          sb.compressedData = (PCL_CompressionEngine.setup ext c x x.length).itemSource i)) ∧
    (L ≠ [] → PCL_DecompressionEngine.validate c L 0 = .ok (totalUncompressed L)) := by
  by_cases hne : L = []
  · subst hne
    exact ⟨fun sb h => absurd h (List.not_mem_nil sb), fun h => absurd rfl h⟩
  obtain ⟨_, hS, _, hLeq, _⟩ := Compress_returned_inv ext c x x.length perf L hL hne
  have hsz := setup_size ext c x x.length
  have hdl := setup_data_length ext c x hshuffle
  have hn : (PCL_CompressionEngine.setup ext c x x.length).m_numberOfSubblocks
      = x.length / effectiveSubblockSize c := rfl
  rw [← hn] at hLeq
  have hd : (PCL_CompressionEngine.setup ext c x x.length).m_numberOfSubblocks
        * (PCL_CompressionEngine.setup ext c x x.length).m_subblockSize
      + (PCL_CompressionEngine.setup ext c x x.length).m_remainingSize
      ≤ (PCL_CompressionEngine.setup ext c x x.length).m_data.length := by omega
  have hall : ∀ sb ∈ L,
      0 < sb.uncompressedSize ∧ sb.uncompressedSize ≤ effectiveSubblockSize c ∧
      0 < sb.compressedData.length ∧ sb.compressedData.length ≤ sb.uncompressedSize ∧
      ∃ i, sb.uncompressedSize = (PCL_CompressionEngine.setup ext c x x.length).itemSize i ∧
        (sb.compressedData.length < sb.uncompressedSize ↔
          (PCL_CompressionEngine.setup ext c x x.length).itemIsCompressed i = true) ∧
        (sb.compressedData.length = sb.uncompressedSize ↔
          (PCL_CompressionEngine.setup ext c x x.length).itemIsCompressed i = false) ∧
        ((PCL_CompressionEngine.setup ext c x x.length).itemIsCompressed i = true →
          sb.compressedData = (PCL_CompressionEngine.setup ext c x x.length).itemCompressed i) ∧
        ((PCL_CompressionEngine.setup ext c x x.length).itemIsCompressed i = false →
          sb.compressedData = (PCL_CompressionEngine.setup ext c x x.length).itemSource i) := by
    intro sb hsb
    rw [hLeq] at hsb
    obtain ⟨i, hi, hs⟩ := mem_compressed_list ext _ sb hsb
    obtain ⟨h1, h2, h3, h4, _, hT, hF⟩ := subblockAt_facts ext _ i sb hi hd hs
    refine ⟨h1, ?_, h3, h4, i, h2, ⟨fun hlt => ?_, fun ht => (hT ht).2⟩,
      ⟨fun heq => ?_, fun hf => (hF hf).2⟩, fun ht => (hT ht).1, fun hf => (hF hf).1⟩
    · rw [h2]
      exact itemSize_le ext c x x.length i hS
    · cases hcmp : (PCL_CompressionEngine.setup ext c x x.length).itemIsCompressed i with
      | true => rfl
      | false =>
        have := (hF hcmp).2
        omega
    · cases hcmp : (PCL_CompressionEngine.setup ext c x x.length).itemIsCompressed i with
      | false => rfl
      | true =>
        have := (hT hcmp).2
        omega
  refine ⟨hall, fun _ => ?_⟩
  have := validate_ok c L 0 (fun sb hsb => by
    obtain ⟨h1, _, h3, _⟩ := hall sb hsb
    refine ⟨fun h => ?_, by omega⟩
    rw [h] at h3
    exact absurd h3 (by simp))
  rw [Nat.zero_add] at this
  exact this

set_option maxRecDepth 100000 in
theorem compress_subblock_invariant_witness :
    (∀ sb ∈ sampleSubblocks,
      0 < sb.uncompressedSize ∧ sb.uncompressedSize ≤ effectiveSubblockSize sampleCompression ∧
      0 < sb.compressedData.length ∧ sb.compressedData.length ≤ sb.uncompressedSize ∧
      ∃ i, sb.uncompressedSize = (PCL_CompressionEngine.setup sampleExternal sampleCompression
          sampleInput sampleInput.length).itemSize i ∧
        (sb.compressedData.length < sb.uncompressedSize ↔
          (PCL_CompressionEngine.setup sampleExternal sampleCompression sampleInput
            sampleInput.length).itemIsCompressed i = true) ∧
        (sb.compressedData.length = sb.uncompressedSize ↔
          (PCL_CompressionEngine.setup sampleExternal sampleCompression sampleInput
            sampleInput.length).itemIsCompressed i = false) ∧
        ((PCL_CompressionEngine.setup sampleExternal sampleCompression sampleInput
            sampleInput.length).itemIsCompressed i = true →
          sb.compressedData = (PCL_CompressionEngine.setup sampleExternal sampleCompression
            sampleInput sampleInput.length).itemCompressed i) ∧
        ((PCL_CompressionEngine.setup sampleExternal sampleCompression sampleInput
            sampleInput.length).itemIsCompressed i = false →
          sb.compressedData = (PCL_CompressionEngine.setup sampleExternal sampleCompression
            sampleInput sampleInput.length).itemSource i)) ∧
    (sampleSubblocks ≠ [] → PCL_DecompressionEngine.validate sampleCompression sampleSubblocks 0
      = .ok (totalUncompressed sampleSubblocks)) :=
  compress_subblock_invariant sampleExternal sampleCompression sampleInput none sampleSubblocks
    (fun _ _ => by decide) (by decide)

/-- C6 (per-subblock fallback). For an item `i` with `usz > 0` source bytes,
the compression worker appends exactly one subblock, of `uncompressedSize`
`usz`. Its payload is the first `csz` bytes of the codec output if
`usz ≥ MinBlockSize` and `CompressBlock` returned `csz` with `0 < csz < usz`;
otherwise, so when `usz < MinBlockSize`, `csz = 0` or `csz ≥ usz`, it is the
`usz` source bytes at offset `i * m_subblockSize` of `m_data`. -/
theorem worker_payload_fallback (ext : External) (E : PCL_CompressionEngine) (i : Nat)
    (husz : 0 < E.itemSize i) :
    ∃ sb, CompressionThread.Run ext E i (i + 1) = [sb] ∧
      sb.uncompressedSize = E.itemSize i ∧
      sb.compressedData =
        (if E.m_compression.MinBlockSize ≤ E.itemSize i ∧
            0 < (E.m_compression.CompressBlock
                  (E.m_compression.MaxCompressedBlockSize (E.itemSize i))
                  ((E.m_data.drop (i * E.m_subblockSize)).take (E.itemSize i))
                  E.m_compressionLevel).length ∧
            (E.m_compression.CompressBlock
                  (E.m_compression.MaxCompressedBlockSize (E.itemSize i))
                  ((E.m_data.drop (i * E.m_subblockSize)).take (E.itemSize i))
                  E.m_compressionLevel).length < E.itemSize i
          then
            (E.m_compression.CompressBlock
                (E.m_compression.MaxCompressedBlockSize (E.itemSize i))
                ((E.m_data.drop (i * E.m_subblockSize)).take (E.itemSize i))
                E.m_compressionLevel).take
              (E.m_compression.CompressBlock
                (E.m_compression.MaxCompressedBlockSize (E.itemSize i))
                ((E.m_data.drop (i * E.m_subblockSize)).take (E.itemSize i))
                E.m_compressionLevel).length
          else (E.m_data.drop (i * E.m_subblockSize)).take (E.itemSize i)) := by
  refine ⟨Subblock.mk (if E.itemIsCompressed i then E.itemCompressed i else E.itemSource i)
    (E.itemSize i)
    (if E.m_compression.ChecksumsEnabled then
      ext.Hash64 (if E.itemIsCompressed i then E.itemCompressed i else E.itemSource i)
      else 0), ?_, rfl, ?_⟩
  · unfold CompressionThread.Run
    rw [Nat.add_sub_cancel_left]
    show List.filterMap _ [i] = _
    rw [List.filterMap_cons_some (subblockAt_eq_some ext E i husz)]
    rfl
  · show (if E.itemIsCompressed i then E.itemCompressed i else E.itemSource i) = _
    rw [List.take_length]
    by_cases hc : E.itemIsCompressed i = true
    · rw [if_pos hc]
      exact (if_pos ((itemIsCompressed_iff E i).mp hc)).symm
    · rw [if_neg hc]
      exact (if_neg (fun h => hc ((itemIsCompressed_iff E i).mpr h))).symm

set_option maxRecDepth 100000 in
theorem worker_payload_fallback_witness :
    ∃ sb, CompressionThread.Run sampleExternal
        (PCL_CompressionEngine.setup sampleExternal sampleCompression sampleInput 250) 1 2
          = [sb] ∧
      sb.uncompressedSize = 64 ∧ sb.compressedData = [0, 64] := by
  obtain ⟨sb, h1, h2, h3⟩ := worker_payload_fallback sampleExternal
    (PCL_CompressionEngine.setup sampleExternal sampleCompression sampleInput 250) 1 (by decide)
  refine ⟨sb, h1, ?_, ?_⟩
  · rw [h2]
    decide
  · rw [h3]
    decide

set_option maxRecDepth 100000 in
/-- C8 at a failing input. Checksums are enabled and `Hash64` is `pclHash64`.
`Compress` of the 72 bytes `zeroHashInput` returns two subblocks. The second
one holds the 8 bytes `zeroHashBlock` verbatim, and line 217 stores their
hash as its checksum without a test: the hash is 0, the value that line 383
reads as "not checked". -/
theorem compress_checksum_zero :
    plainAdapter.ChecksumsEnabled = true ∧
    pclHash64 zeroHashBlock = 0 ∧
    (Compression.Compress pclExternal plainAdapter (some zeroHashInput) 72 none).outcome
      = .returned
          [ { compressedData := [0, 64], uncompressedSize := 64, checksum := pclHash64 [0, 64] },
            { compressedData := zeroHashBlock, uncompressedSize := 8, checksum := 0 } ] := by
  decide

/-- C10 (insufficient buffer). For a non-empty list whose subblocks all have
a non-empty payload and a nonzero `uncompressedSize`, with `total` the sum of
`uncompressedSize`: if `maxSize < total` then `Uncompress` throws the error
whose message quotes `total` as required and `maxSize` as available, and the
destination buffer and the performance record are left as they were. -/
theorem uncompress_insufficient_buffer (ext : External) (c : Compression) (data : ByteArray)
    (maxSize : Nat) (L : subblock_list) (perf : Option Performance) (hne : L ≠ [])
    (hvalid : ∀ sb ∈ L, sb.compressedData ≠ [] ∧ sb.uncompressedSize ≠ 0)
    (hcap : maxSize < totalUncompressed L) :
    Compression.Uncompress ext c data maxSize L perf =
      { outcome := .thrown (c.AlgorithmName ++ " compression: "
          ++ ("Insufficient uncompression buffer length (required "
            ++ fmt_llu (totalUncompressed L) ++ ", available " ++ fmt_llu maxSize ++ ")"))
        data := data
        perf := perf } := by
  have hempty : L.isEmpty = false := by
    cases L with
    | nil => exact absurd rfl hne
    | cons _ _ => rfl
  have hval := validate_ok c L 0 hvalid
  rw [Nat.zero_add] at hval
  simp only [Compression.Uncompress, PCL_DecompressionEngine.operator, hempty, hval, if_pos hcap]
  rfl

set_option maxRecDepth 100000 in
theorem uncompress_insufficient_buffer_witness :
    Compression.Uncompress sampleExternal sampleCompression (List.replicate 249 0) 249
        sampleSubblocks none =
      { outcome := .thrown
          "RLE compression: Insufficient uncompression buffer length (required 250, available 249)"
        data := List.replicate 249 0
        perf := none } :=
  uncompress_insufficient_buffer sampleExternal sampleCompression (List.replicate 249 0) 249
    sampleSubblocks none (by decide) (by decide) (by decide)

/-- C9, as amended. Let `Uncompress` be given a valid list with sufficient
capacity in which at least one subblock fails its checksum test (a nonzero
stored checksum that differs from the `Hash64` of the payload), every call of
the codec that a worker makes before its first failing subblock returning the
recorded size. Then it throws the newline-joined list that holds one
checksum-mismatch message for each worker whose partition contains a failing
subblock: the message of the first failing subblock of that partition, with
that subblock's offset. The messages stand in the order in which the workers
appended them, which the program does not control. The list is not empty and
has at most one message per worker; with a single worker the error is the one
message of the first failing subblock of the list. -/
theorem uncompress_checksum_errors (ext : External) (c : Compression) (data : ByteArray)
    (maxSize : Nat) (L : subblock_list) (perf : Option Performance) (hne : L ≠ [])
    (hvalid : ∀ sb ∈ L, sb.compressedData ≠ [] ∧ sb.uncompressedSize ≠ 0)
    (hcap : totalUncompressed L ≤ maxSize)
    (hworkers : 1 ≤ numberOfThreads ext c L.length)
    (hdec : ∀ t ∈ PCL_DecompressionEngine.threads L (numberOfThreads ext c L.length).toNat,
      DecompressionThread.decodes ext c (totalUncompressed t.m_subblocks) t.m_subblocks 0)
    (hbad : ∃ sb ∈ L, sb.checksumFails ext) :
    ((PCL_DecompressionEngine.threads L (numberOfThreads ext c L.length).toNat).map
        DecompressionThread.m_subblocks).flatten = L ∧
    (∃ errors : List String,
      errors.Perm (partitionErrors ext 0
        ((PCL_DecompressionEngine.threads L (numberOfThreads ext c L.length).toNat).map
          DecompressionThread.m_subblocks)) ∧
      (Compression.Uncompress ext c data maxSize L perf).outcome =
        .thrown (c.Throw (String.intercalate "\n" errors))) ∧
    partitionErrors ext 0
        ((PCL_DecompressionEngine.threads L (numberOfThreads ext c L.length).toNat).map
          DecompressionThread.m_subblocks) ≠ [] ∧
    ((partitionErrors ext 0
        ((PCL_DecompressionEngine.threads L (numberOfThreads ext c L.length).toNat).map
          DecompressionThread.m_subblocks)).length : Int) ≤ numberOfThreads ext c L.length ∧
    (∀ pre bad post, numberOfThreads ext c L.length = 1 → L = pre ++ bad :: post →
      (∀ sb ∈ pre, ¬ sb.checksumFails ext) → bad.checksumFails ext →
      (Compression.Uncompress ext c data maxSize L perf).outcome =
        .thrown (c.Throw (checksumMismatchMessage (totalUncompressed pre) bad.checksum
          (ext.Hash64 bad.compressedData)))) := by
  obtain ⟨h1, h2, errors, hperm, h3⟩ := uncompress_errors ext c data maxSize L perf hne hvalid
    hcap hworkers hdec hbad
  refine ⟨h1, ⟨errors, hperm, h3⟩, h2, ?_, ?_⟩
  · have := partitionErrors_length_le ext
      ((PCL_DecompressionEngine.threads L (numberOfThreads ext c L.length).toNat).map
        DecompressionThread.m_subblocks) 0
    rw [List.length_map, length_threads] at this
    omega
  · intro pre bad post hone hsplit hpre hfail
    rw [h3]
    rw [hone] at hperm
    have e : (1 : Int).toNat = 1 := rfl
    rw [e, threads_one] at hperm
    simp only [List.map_cons, List.map_nil, partitionErrors] at hperm
    rw [hsplit, firstChecksumError_append ext pre bad post 0 hpre hfail] at hperm
    simp only [Option.toList, List.append_nil, Nat.zero_add] at hperm
    rw [List.perm_singleton.mp hperm, intercalate_singleton]

set_option maxRecDepth 100000 in
theorem uncompress_checksum_errors_witness :
    (∃ errors : List String,
      errors.Perm (partitionErrors sampleExternal 0
        ((PCL_DecompressionEngine.threads corruptedSubblocks
          (numberOfThreads sampleExternal (sampleAdapter.withWorkers true 4)
            corruptedSubblocks.length).toNat).map DecompressionThread.m_subblocks)) ∧
      (Compression.Uncompress sampleExternal (sampleAdapter.withWorkers true 4)
          (List.replicate 250 0) 250 corruptedSubblocks none).outcome =
        .thrown ((sampleAdapter.withWorkers true 4).Throw (String.intercalate "\n" errors))) ∧
    partitionErrors sampleExternal 0
        ((PCL_DecompressionEngine.threads corruptedSubblocks
          (numberOfThreads sampleExternal (sampleAdapter.withWorkers true 4)
            corruptedSubblocks.length).toNat).map DecompressionThread.m_subblocks)
      = [checksumMismatchMessage 128 5 (fnv1a64 [0, 64]),
         checksumMismatchMessage 192 5 (fnv1a64 (List.replicate 56 0 ++ [9, 9]))] ∧
    (Compression.Uncompress sampleExternal (sampleAdapter.withWorkers true 4)
        (List.replicate 250 0) 250 corruptedSubblocks none).outcome =
      .thrown ((sampleAdapter.withWorkers true 4).Throw (String.intercalate "\n"
        [checksumMismatchMessage 192 5 (fnv1a64 (List.replicate 56 0 ++ [9, 9])),
         checksumMismatchMessage 128 5 (fnv1a64 [0, 64])])) :=
  ⟨(uncompress_checksum_errors sampleExternal (sampleAdapter.withWorkers true 4)
      (List.replicate 250 0) 250 corruptedSubblocks none (by decide) (by decide) (by decide)
      (by decide) (by decide) (by decide)).2.1, by decide, by decide⟩

set_option maxRecDepth 100000 in
/-- C9 fails as stated: with a single worker and a valid list in which two
subblocks, the third and the fourth, fail their checksum test, the error that
`Uncompress` throws holds one checksum-mismatch message, that of the third
subblock at offset 128, and none for the fourth. -/
theorem uncompress_checksum_errors_counterexample :
    (corruptedSubblocks.filter (fun sb => decide (sb.checksumFails sampleExternal))).length = 2 ∧
    (PCL_DecompressionEngine.runThreads sampleExternal (sampleAdapter.withWorkers false 1)
        (PCL_DecompressionEngine.threads corruptedSubblocks 1) 0 (List.replicate 250 0)
        []).2.length = 1 ∧
    (Compression.Uncompress sampleExternal (sampleAdapter.withWorkers false 1)
        (List.replicate 250 0) 250 corruptedSubblocks none).outcome =
      .thrown ("RLE compression: Sub-block checksum mismatch "
        ++ "(offset=128, expected 5, got 8324807b4eb032d)") := by
  decide

set_option maxRecDepth 100000 in
/-- C7 at a failing input. Checksums are enabled and `Hash64` is `pclHash64`.
The list is the one that `Compress` returns for `zeroHashInput`, with the
first byte of the payload of its second subblock changed from 137 to 0. The
checksum stored for that subblock is 0, so line 383 skips the test:
`Uncompress` returns 72 without an error and leaves the altered bytes in the
buffer. -/
theorem uncompress_altered_payload_undetected :
    (Compression.Compress pclExternal plainAdapter (some zeroHashInput) 72 none).outcome
      = .returned
          [ { compressedData := [0, 64], uncompressedSize := 64, checksum := pclHash64 [0, 64] },
            { compressedData := [137, 180, 66, 122, 46, 151, 125, 73], uncompressedSize := 8,
              checksum := 0 } ] ∧
    (Compression.Uncompress pclExternal plainAdapter (List.replicate 72 255) 72
        [ { compressedData := [0, 64], uncompressedSize := 64, checksum := pclHash64 [0, 64] },
          { compressedData := [0, 180, 66, 122, 46, 151, 125, 73], uncompressedSize := 8,
            checksum := 0 } ] none).outcome = .returned 72 ∧
    (Compression.Uncompress pclExternal plainAdapter (List.replicate 72 255) 72
        [ { compressedData := [0, 64], uncompressedSize := 64, checksum := pclHash64 [0, 64] },
          { compressedData := [0, 180, 66, 122, 46, 151, 125, 73], uncompressedSize := 8,
            checksum := 0 } ] none).data
      = List.replicate 64 0 ++ [0, 180, 66, 122, 46, 151, 125, 73] := by
  decide

/-- C11 (validation). For a list that contains a subblock with an empty
payload or with `uncompressedSize` 0, whatever `maxSize` and the other
subblocks are, `Uncompress` throws the error whose message is the algorithm
name followed by " compression: Invalid compressed subblock data.", and the
destination buffer and the performance record are left as they were. -/
theorem uncompress_invalid_subblock (ext : External) (c : Compression) (data : ByteArray)
    (maxSize : Nat) (L : subblock_list) (perf : Option Performance)
    (hbad : ∃ sb ∈ L, sb.compressedData = [] ∨ sb.uncompressedSize = 0) :
    Compression.Uncompress ext c data maxSize L perf =
      { outcome := .thrown (c.AlgorithmName ++ " compression: Invalid compressed subblock data.")
        data := data
        perf := perf } := by
  have hempty : L.isEmpty = false := by
    cases L with
    | nil =>
      obtain ⟨sb, hsb, _⟩ := hbad
      exact absurd hsb (List.not_mem_nil sb)
    | cons _ _ => rfl
  have hval := validate_error c L 0 hbad
  simp only [Compression.Uncompress, PCL_DecompressionEngine.operator, hempty, hval]
  simp [Compression.Throw, String.append_assoc]

set_option maxRecDepth 100000 in
theorem uncompress_invalid_subblock_witness :
    Compression.Uncompress sampleExternal sampleCompression (List.replicate 4 0) 0
        [{ compressedData := [0, 64], uncompressedSize := 64, checksum := 0 },
         { compressedData := [], uncompressedSize := 3, checksum := 0 }] none =
      { outcome := .thrown "RLE compression: Invalid compressed subblock data."
        data := List.replicate 4 0
        perf := none } :=
  uncompress_invalid_subblock sampleExternal sampleCompression (List.replicate 4 0) 0
    [{ compressedData := [0, 64], uncompressedSize := 64, checksum := 0 },
     { compressedData := [], uncompressedSize := 3, checksum := 0 }] none
    ⟨{ compressedData := [], uncompressedSize := 3, checksum := 0 }, by decide, Or.inl rfl⟩

/-- C12. `Compress` called with a null `data` pointer, whatever the size, or
with `size` 0 returns the empty subblock list without an error, leaves the
performance record as it was, and makes no call of `CompressBlock`: the
engine that records every call of `CompressBlock` as it makes it, and whose
result is that of `Compress` on every input, ends with an empty record. -/
theorem compress_of_nothing (ext : External) (c : Compression) (data : Option ByteArray)
    (size : Nat) (perf : Option Performance) (h : data = none ∨ size = 0) :
    Compression.Compress ext c data size perf = { outcome := .returned [], perf := perf } ∧
    (PCL_CompressionEngine.operatorTraced ext c data size perf).2 = [] ∧
    (∀ (data2 : Option ByteArray) (size2 : Nat) (perf2 : Option Performance),
      (PCL_CompressionEngine.operatorTraced ext c data2 size2 perf2).1
        = Compression.Compress ext c data2 size2 perf2) := by
  refine ⟨?_, ?_, fun data2 size2 perf2 => operatorTraced_fst ext c data2 size2 perf2⟩
  · cases data with
    | none => rfl
    | some d =>
      have hs : size = 0 := by
        rcases h with h | h
        · cases h
        · exact h
      subst hs
      rfl
  · cases data with
    | none => rfl
    | some d =>
      have hs : size = 0 := by
        rcases h with h | h
        · cases h
        · exact h
      subst hs
      rfl

set_option maxRecDepth 100000 in
theorem compress_of_nothing_witness :
    (Compression.Compress sampleExternal sampleCompression none 250
        (some { sizeReduction := 0, numberOfThreads := 7 })
      = { outcome := .returned [], perf := some { sizeReduction := 0, numberOfThreads := 7 } } ∧
    (PCL_CompressionEngine.operatorTraced sampleExternal sampleCompression none 250
        (some { sizeReduction := 0, numberOfThreads := 7 })).2 = []) ∧
    (Compression.Compress sampleExternal sampleCompression (some sampleInput) 0 none
      = { outcome := .returned [], perf := none } ∧
    (PCL_CompressionEngine.operatorTraced sampleExternal sampleCompression (some sampleInput) 0
        none).2 = []) ∧
    (PCL_CompressionEngine.operatorTraced sampleExternal sampleCompression (some sampleInput)
        250 none).2.length = 4 :=
  ⟨⟨(compress_of_nothing sampleExternal sampleCompression none 250 _ (Or.inl rfl)).1,
      (compress_of_nothing sampleExternal sampleCompression none 250 _ (Or.inl rfl)).2.1⟩,
   ⟨(compress_of_nothing sampleExternal sampleCompression (some sampleInput) 0 none
      (Or.inr rfl)).1,
    (compress_of_nothing sampleExternal sampleCompression (some sampleInput) 0 none
      (Or.inr rfl)).2.1⟩,
   by decide⟩

/-- C13. For every destination buffer, capacity and configuration, byte
shuffling included, `Uncompress` of the empty subblock list returns 0 without
an error and leaves the destination buffer and the performance record as they
were. -/
theorem uncompress_of_empty_list (ext : External) (c : Compression) (data : ByteArray)
    (maxSize : Nat) (perf : Option Performance) :
    Compression.Uncompress ext c data maxSize [] perf =
      { outcome := .returned 0, data := data, perf := perf } := by
  simp [Compression.Uncompress, PCL_DecompressionEngine.operator]

/-- C14 (compression-level clamping). For a codec with
`MaxCompressionLevel ≥ 1`, the level that the worker passes to `CompressBlock`
for every item is the default level of the codec when the configured level is
at most 0, and otherwise the smaller of the configured level and
`MaxCompressionLevel`, which lies between 1 and `MaxCompressionLevel`. -/
theorem compression_level_clamped (ext : External) (c : Compression) (d : ByteArray)
    (size i : Nat) (hmax : 1 ≤ c.MaxCompressionLevel) :
    (PCL_CompressionEngine.setup ext c d size).itemCompressed i =
      c.CompressBlock
        (c.MaxCompressedBlockSize ((PCL_CompressionEngine.setup ext c d size).itemSize i))
        ((PCL_CompressionEngine.setup ext c d size).itemSource i)
        (if c.CompressionLevel ≤ 0 then c.DefaultCompressionLevel
          else min c.CompressionLevel c.MaxCompressionLevel) ∧
    (0 < c.CompressionLevel →
      1 ≤ min c.CompressionLevel c.MaxCompressionLevel ∧
      min c.CompressionLevel c.MaxCompressionLevel ≤ c.MaxCompressionLevel) := by
  refine ⟨?_, fun hpos => ⟨by omega, by omega⟩⟩
  have hlevel : (PCL_CompressionEngine.setup ext c d size).m_compressionLevel =
      (if c.CompressionLevel ≤ 0 then c.DefaultCompressionLevel
        else min c.CompressionLevel c.MaxCompressionLevel) := by
    simp only [PCL_CompressionEngine.setup, effectiveCompressionLevel, Range]
    by_cases h0 : c.CompressionLevel ≤ 0
    · rw [if_pos h0, if_pos h0]
    · rw [if_neg h0, if_neg h0, if_neg (show ¬ c.CompressionLevel < 1 by omega)]
      by_cases h1 : c.MaxCompressionLevel < c.CompressionLevel
      · rw [if_pos h1]; omega
      · rw [if_neg h1]; omega
  unfold PCL_CompressionEngine.itemCompressed
  rw [hlevel]
  rfl

set_option maxRecDepth 100000 in
theorem compression_level_clamped_witness :
    0 < highLevelCompression.CompressionLevel ∧
    (if highLevelCompression.CompressionLevel ≤ 0 then highLevelCompression.DefaultCompressionLevel
      else min highLevelCompression.CompressionLevel highLevelCompression.MaxCompressionLevel)
      = 9 ∧
    (PCL_CompressionEngine.setup sampleExternal highLevelCompression sampleInput
        250).itemCompressed 1
      = highLevelCompression.CompressBlock
        (highLevelCompression.MaxCompressedBlockSize
          ((PCL_CompressionEngine.setup sampleExternal highLevelCompression sampleInput
            250).itemSize 1))
        ((PCL_CompressionEngine.setup sampleExternal highLevelCompression sampleInput
          250).itemSource 1)
        (if highLevelCompression.CompressionLevel ≤ 0
          then highLevelCompression.DefaultCompressionLevel
          else min highLevelCompression.CompressionLevel
            highLevelCompression.MaxCompressionLevel) ∧
    (1 ≤ min highLevelCompression.CompressionLevel highLevelCompression.MaxCompressionLevel ∧
      min highLevelCompression.CompressionLevel highLevelCompression.MaxCompressionLevel
        ≤ highLevelCompression.MaxCompressionLevel) :=
  ⟨by decide, by decide,
    (compression_level_clamped sampleExternal highLevelCompression sampleInput 250 1
      (by decide)).1,
    (compression_level_clamped sampleExternal highLevelCompression sampleInput 250 1
      (by decide)).2 (by decide)⟩

/-- C15 (subblock-size clamping). The subblock size that `Compress` uses is
the configured `SubblockSize` when it lies between `MinBlockSize` and
`MaxBlockSize`, and `MaxBlockSize` for every other configured value; so it
lies between `MinBlockSize` and `MaxBlockSize` whenever
`MinBlockSize ≤ MaxBlockSize`. -/
theorem subblock_size_clamped (ext : External) (c : Compression) (d : ByteArray) (size : Nat) :
    (c.MinBlockSize ≤ c.SubblockSize ∧ c.SubblockSize ≤ c.MaxBlockSize →
      (PCL_CompressionEngine.setup ext c d size).m_subblockSize = c.SubblockSize) ∧
    (¬ (c.MinBlockSize ≤ c.SubblockSize ∧ c.SubblockSize ≤ c.MaxBlockSize) →
      (PCL_CompressionEngine.setup ext c d size).m_subblockSize = c.MaxBlockSize) ∧
    (c.MinBlockSize ≤ c.MaxBlockSize →
      c.MinBlockSize ≤ (PCL_CompressionEngine.setup ext c d size).m_subblockSize ∧
      (PCL_CompressionEngine.setup ext c d size).m_subblockSize ≤ c.MaxBlockSize) := by
  simp only [PCL_CompressionEngine.setup, effectiveSubblockSize]
  refine ⟨fun h => ?_, fun h => ?_, fun h => ?_⟩
  · rw [if_neg (by omega)]
  · rw [if_pos (by omega)]
  · split <;> omega

/-- C16 (incompressible data). For a non-empty input on which the codec
shrinks no subblock, that is every item is below `MinBlockSize` or its
`CompressBlock` call returns 0 or at least the length of the item, `Compress`
returns the empty list. The effective subblock size is nonzero, there is at
least one worker, and the shuffle, when applied, returns as many bytes as it
is given. -/
theorem compress_incompressible (ext : External) (c : Compression) (x : ByteArray)
    (perf : Option Performance) (hx : x ≠ []) (hS : effectiveSubblockSize c ≠ 0)
    (hN : 1 ≤ numberOfThreads ext c (x.length / effectiveSubblockSize c + 1))
    (hshuffle : c.ByteShufflingEnabled = true → c.ItemSize > 1 →
      (ext.Shuffle x c.ItemSize).length = x.length)
    (hnone : ∀ i, i ≤ x.length / effectiveSubblockSize c →
      (PCL_CompressionEngine.setup ext c x x.length).itemSize i < c.MinBlockSize ∨
      ((PCL_CompressionEngine.setup ext c x x.length).itemCompressed i).length = 0 ∨
      (PCL_CompressionEngine.setup ext c x x.length).itemSize i
        ≤ ((PCL_CompressionEngine.setup ext c x x.length).itemCompressed i).length) :
    (Compression.Compress ext c (some x) x.length perf).outcome = .returned [] := by
  have hsize : x.length ≠ 0 := fun h => hx (List.length_eq_zero.mp h)
  rw [Compress_outcome ext c x x.length perf hsize hS hN]
  have hsz := setup_size ext c x x.length
  have hdl := setup_data_length ext c x hshuffle
  have hd : (PCL_CompressionEngine.setup ext c x x.length).m_numberOfSubblocks
        * (PCL_CompressionEngine.setup ext c x x.length).m_subblockSize
      + (PCL_CompressionEngine.setup ext c x x.length).m_remainingSize
      ≤ (PCL_CompressionEngine.setup ext c x x.length).m_data.length := by omega
  have hverb : ∀ sb ∈ PCL_CompressionEngine.assembled ext c x x.length,
      sb.compressedData.length = sb.uncompressedSize := by
    intro sb hsb
    rw [assembled_eq_Run ext c x x.length hN] at hsb
    obtain ⟨i, hi, hs⟩ := mem_compressed_list ext _ sb hsb
    obtain ⟨_, _, _, _, _, _, hF⟩ := subblockAt_facts ext _ i sb hi hd hs
    refine (hF ?_).2
    cases hcmp : (PCL_CompressionEngine.setup ext c x x.length).itemIsCompressed i with
    | false => rfl
    | true =>
      obtain ⟨h1, h2, h3⟩ := (itemIsCompressed_iff _ i).mp hcmp
      have h1b : c.MinBlockSize ≤ (PCL_CompressionEngine.setup ext c x x.length).itemSize i := h1
      rcases hnone i hi with h | h | h <;> omega
  have htot := totalUncompressed_assembled ext c x x.length hN
  have hfoot : x.length ≤ footprint ext (PCL_CompressionEngine.assembled ext c x x.length) := by
    unfold footprint
    rw [totalCompressed_eq_of_verbatim _ hverb, htot]
    omega
  rw [if_pos hfoot]

set_option maxRecDepth 100000 in
theorem compress_incompressible_witness :
    (Compression.Compress sampleExternal sampleCompression (some [1, 2, 3, 4, 5, 6, 7, 8])
        ([1, 2, 3, 4, 5, 6, 7, 8] : ByteArray).length none).outcome = .returned [] :=
  compress_incompressible sampleExternal sampleCompression [1, 2, 3, 4, 5, 6, 7, 8] none
    (by decide) (by decide) (by decide) (fun _ _ => by decide)
    (fun i hi => by
      have h0 : i = 0 := Nat.le_zero.mp hi
      subst h0
      decide)

set_option maxRecDepth 100000 in
/-- C17 at a failing input. For the 8 incompressible bytes `1 .. 8` the
footprint is 40, and `Compress` writes to the performance record the size
reduction `(2^64 - 32) / 8`: the numerator is the difference `8 - 40` wrapped
to an unsigned 64-bit integer, not the signed difference `-32`, and the size
reduction is positive. -/
theorem size_reduction_wraps :
    footprint sampleExternal
      (PCL_CompressionEngine.assembled sampleExternal sampleCompression
        [1, 2, 3, 4, 5, 6, 7, 8] 8) = 40 ∧
    (Compression.Compress sampleExternal sampleCompression (some [1, 2, 3, 4, 5, 6, 7, 8]) 8
        (some { sizeReduction := 0, numberOfThreads := 0 })).perf
      = some { sizeReduction := (18446744073709551584 : ℚ) / 8, numberOfThreads := 1 } ∧
    ((8 : Int) - 40 = -32) ∧
    (0 : ℚ) < (18446744073709551584 : ℚ) / 8 := by
  refine ⟨by decide, ?_, by decide, by norm_num⟩
  rw [operator_eq_run sampleExternal sampleCompression _ 8 _ (by decide) (by decide) (by decide),
    run_perf]
  have h1 : (numberOfThreads sampleExternal sampleCompression
      (8 / effectiveSubblockSize sampleCompression + 1)).toNat = 1 := by decide
  have h2 : sub64 8 (footprint sampleExternal
      ((PCL_CompressionEngine.setup sampleExternal sampleCompression
        [1, 2, 3, 4, 5, 6, 7, 8] 8).assemble sampleExternal 1)) = 18446744073709551584 := by
    decide
  rw [h1, h2]
  norm_num

/-- C18 (shuffle involution). For every byte sequence `x` and item width
`w ≥ 1`, also when `len(x) mod w ≠ 0` or `len(x) < w`: `InPlaceUnshuffle` of
`Shuffle(x, w)` with the same `w` is `x`; `Shuffle(x, w)` has the length of
`x`, holds at position `i*m + k` the byte of `x` at position `k*w + i` for
every item `k < m` and byte offset `i < w`, where `m = len(x) div w`, and ends
with the trailing `len(x) mod w` bytes of `x`, unchanged. -/
theorem shuffle_involution (x : ByteArray) (w : Nat) (_hw : 1 ≤ w) :
    Compression.InPlaceUnshuffle (Compression.Shuffle x w) w = x ∧
    (Compression.Shuffle x w).length = x.length ∧
    (∀ k i, k < x.length / w → i < w →
      (Compression.Shuffle x w)[i * (x.length / w) + k]? = x[k * w + i]? ∧
      k * w + i < x.length) ∧
    (Compression.Shuffle x w).drop (x.length / w * w) = x.drop (x.length / w * w) ∧
    (x.drop (x.length / w * w)).length = x.length % w := by
  have hle : x.length / w * w ≤ x.length := Nat.div_mul_le_self _ _
  refine ⟨?_, Shuffle_length x w, fun k i hk hi => ⟨Shuffle_getElem? x w i k hi hk, ?_⟩,
    Shuffle_drop x w, ?_⟩
  · unfold Compression.InPlaceUnshuffle
    simp only [Shuffle_length]
    rw [Shuffle_drop]
    have hrows : ((List.range (x.length / w)).map fun k =>
        (List.range w).map fun i => (Compression.Shuffle x w).getD (i * (x.length / w) + k) 0)
        = ((List.range (x.length / w)).map fun k =>
        (List.range w).map fun i => x.getD (k * w + i) 0) := by
      apply List.map_congr_left
      intro k hk
      apply List.map_congr_left
      intro i hi
      rw [List.getD_eq_getElem?_getD, List.getD_eq_getElem?_getD,
        Shuffle_getElem? x w i k (List.mem_range.mp hi) (List.mem_range.mp hk)]
    rw [hrows, flatten_items x w _ hle]
    exact List.take_append_drop _ _
  · have h1 : (k + 1) * w ≤ x.length / w * w := Nat.mul_le_mul_right _ hk
    rw [Nat.succ_mul] at h1
    omega
  · rw [List.length_drop]
    have := Nat.div_add_mod x.length w
    rw [Nat.mul_comm] at this
    omega

theorem shuffle_involution_witness :
    Compression.InPlaceUnshuffle (Compression.Shuffle [1, 2, 3, 4, 5, 6, 7] 3) 3
      = [1, 2, 3, 4, 5, 6, 7] ∧
    Compression.Shuffle [1, 2, 3, 4, 5, 6, 7] 3 = [1, 4, 2, 5, 3, 6, 7] ∧
    Compression.InPlaceUnshuffle (Compression.Shuffle [1, 2, 3] 5) 5 = [1, 2, 3] :=
  ⟨(shuffle_involution [1, 2, 3, 4, 5, 6, 7] 3 (by decide)).1, by decide,
    (shuffle_involution [1, 2, 3] 5 (by decide)).1⟩

/-- C19 (chunk shape). A non-empty list that `Compress` returns for an input
of length `size`, with effective subblock size `S`, holds the subblocks of the
items `0, 1, ...` in input order: `size div S` subblocks of `uncompressedSize`
`S`, followed by one subblock of `uncompressedSize` `size mod S` exactly when
`size mod S ≠ 0`; so it has `ceil(size / S)` subblocks. -/
theorem compress_chunk_shape (ext : External) (c : Compression) (d : ByteArray) (size : Nat)
    (perf : Option Performance) (L : subblock_list)
    (hL : (Compression.Compress ext c (some d) size perf).outcome = .returned L)
    (hne : L ≠ []) :
    L = (List.range (size / effectiveSubblockSize c + 1)).filterMap
      (CompressionThread.subblockAt ext (PCL_CompressionEngine.setup ext c d size)) ∧
    L.map Subblock.uncompressedSize =
      List.replicate (size / effectiveSubblockSize c) (effectiveSubblockSize c)
        ++ (if size % effectiveSubblockSize c ≠ 0 then [size % effectiveSubblockSize c] else []) ∧
    L.length = (size + effectiveSubblockSize c - 1) / effectiveSubblockSize c := by
  obtain ⟨_, hS, _, hLeq, _⟩ := Compress_returned_inv ext c d size perf L hL hne
  have hSpos : 0 < effectiveSubblockSize c := Nat.pos_of_ne_zero hS
  have hrange : L = (List.range (size / effectiveSubblockSize c + 1)).filterMap
      (CompressionThread.subblockAt ext (PCL_CompressionEngine.setup ext c d size)) := by
    rw [hLeq, List.range_eq_range']
    rfl
  have hmap : L.map Subblock.uncompressedSize =
      List.replicate (size / effectiveSubblockSize c) (effectiveSubblockSize c)
        ++ (if size % effectiveSubblockSize c ≠ 0 then [size % effectiveSubblockSize c]
            else []) := by
    rw [hrange, map_size_filterMap]
    have := map_itemSize (PCL_CompressionEngine.setup ext c d size)
    simp only [PCL_CompressionEngine.setup] at this
    simp only [PCL_CompressionEngine.setup]
    rw [this, List.filter_append, List.filter_replicate]
    simp only [hSpos, decide_True, if_true, List.filter_cons, List.filter_nil]
    by_cases hr : size % effectiveSubblockSize c = 0
    · simp [hr]
    · have : 0 < size % effectiveSubblockSize c := Nat.pos_of_ne_zero hr
      simp [hr, this]
  refine ⟨hrange, hmap, ?_⟩
  have hlen := congrArg List.length hmap
  rw [List.length_map] at hlen
  rw [hlen, List.length_append, List.length_replicate]
  have hdm : size = size / effectiveSubblockSize c * effectiveSubblockSize c
      + size % effectiveSubblockSize c := by
    rw [Nat.mul_comm]
    exact (Nat.div_add_mod _ _).symm
  have hceil := ceil_div (size / effectiveSubblockSize c) (effectiveSubblockSize c)
    (size % effectiveSubblockSize c) hSpos (Nat.mod_lt _ hSpos)
  rw [← hdm] at hceil
  rw [hceil]
  by_cases hr : size % effectiveSubblockSize c = 0
  · simp [hr]
  · simp [hr]

set_option maxRecDepth 100000 in
theorem compress_chunk_shape_witness :
    sampleSubblocks = (List.range (250 / effectiveSubblockSize sampleCompression + 1)).filterMap
      (CompressionThread.subblockAt sampleExternal
        (PCL_CompressionEngine.setup sampleExternal sampleCompression sampleInput 250)) ∧
    sampleSubblocks.map Subblock.uncompressedSize =
      List.replicate (250 / effectiveSubblockSize sampleCompression)
          (effectiveSubblockSize sampleCompression)
        ++ (if 250 % effectiveSubblockSize sampleCompression ≠ 0 then
              [250 % effectiveSubblockSize sampleCompression] else []) ∧
    sampleSubblocks.length
      = (250 + effectiveSubblockSize sampleCompression - 1)
          / effectiveSubblockSize sampleCompression :=
  compress_chunk_shape sampleExternal sampleCompression sampleInput 250 none sampleSubblocks
    (by decide) (by decide)

/-- C20 (work partition). For a worker count `T ≥ 1`, also when `T` exceeds
the item count, the compression threads get the index ranges
`[i*q, (i+1)*q)` for `i < T-1` and `[(T-1)*q, N)` for the last, with
`N = m_numberOfSubblocks + 1` and `q = N div T`; each range is increasing,
and concatenated in worker order they list `0, 1, ..., N-1`, every index
once. The decompression threads get the sublists of the subblock list at the
positions `[i*q, (i+1)*q)` for `i < T-1` and from `(T-1)*q` on for the last,
with `q = length div T`; concatenated in worker order they give back the list,
and every worker but the last gets exactly `q` subblocks. -/
theorem work_partition (E : PCL_CompressionEngine) (L : subblock_list) (T : Nat)
    (hT : 1 ≤ T) :
    E.threads T = (List.range T).map (fun i =>
      (i * ((E.m_numberOfSubblocks + 1) / T),
       if i + 1 < T then (i + 1) * ((E.m_numberOfSubblocks + 1) / T)
       else E.m_numberOfSubblocks + 1)) ∧
    (∀ t ∈ E.threads T, t.1 ≤ t.2) ∧
    ((E.threads T).map fun t => List.range' t.1 (t.2 - t.1)).flatten
      = List.range (E.m_numberOfSubblocks + 1) ∧
    ((E.threads T).map fun t => List.range' t.1 (t.2 - t.1)).flatten.Nodup ∧
    (PCL_DecompressionEngine.threads L T).map DecompressionThread.m_subblocks
      = (List.range T).map (fun i =>
          if i + 1 < T then (L.drop (i * (L.length / T))).take (L.length / T)
          else L.drop (i * (L.length / T))) ∧
    ((PCL_DecompressionEngine.threads L T).map DecompressionThread.m_subblocks).flatten = L ∧
    (∀ i, i + 1 < T → ((L.drop (i * (L.length / T))).take (L.length / T)).length
      = L.length / T) := by
  have hcover := compression_threads_cover E T hT
  refine ⟨rfl, compression_threads_ordered E T, hcover, ?_, decompression_threads_parts L T,
    (threads_spec L T hT).2, ?_⟩
  · rw [hcover]
    exact List.nodup_range _
  · intro i hi
    rw [List.length_take, List.length_drop]
    have h1 : (i + 1) * (L.length / T) ≤ T * (L.length / T) :=
      Nat.mul_le_mul_right _ (Nat.le_of_lt hi)
    have h2 : T * (L.length / T) ≤ L.length := Nat.mul_div_le _ _
    rw [Nat.succ_mul] at h1
    omega

set_option maxRecDepth 100000 in
theorem work_partition_witness :
    (PCL_CompressionEngine.setup sampleExternal sampleCompression sampleInput 250).threads 6
      = [(0, 0), (0, 0), (0, 0), (0, 0), (0, 0), (0, 4)] ∧
    (PCL_DecompressionEngine.threads sampleSubblocks 3).map DecompressionThread.m_subblocks
      = [sampleSubblocks.take 1, (sampleSubblocks.drop 1).take 1, sampleSubblocks.drop 2] := by
  have h6 := work_partition
    (PCL_CompressionEngine.setup sampleExternal sampleCompression sampleInput 250)
    sampleSubblocks 6 (by decide)
  have h3 := work_partition
    (PCL_CompressionEngine.setup sampleExternal sampleCompression sampleInput 250)
    sampleSubblocks 3 (by decide)
  refine ⟨?_, ?_⟩
  · rw [h6.1]
    decide
  · rw [h3.2.2.2.2.1]
    decide

/-- C21, as amended (destination offsets). For every list and worker count
`T ≥ 1`, worker `i` starts at the destination offset that is the sum of
`uncompressedSize` of the subblocks before its first one, and its subblock at
local position `j` is subblock `i*q + j` of the list, `q = length div T`. The
destination buffer after the worker is the buffer with the worker's stores
applied in order, and the store number `j` of worker `i` starts at the sum of
`uncompressedSize` of the subblocks `0 .. i*q + j - 1`. When every call of the
codec that the worker makes stores exactly `uncompressedSize` bytes, store
`j` has the `uncompressedSize` of its subblock as its length, so it ends where
the next one starts; and when moreover no subblock of the worker fails, the
worker leaves the buffer unchanged outside the range from its offset to its
offset plus the sum of `uncompressedSize` of its subblocks, which it fills
with the stored bytes. The start offsets increase with the subblock index from
0, the next one being the previous one plus the `uncompressedSize` of the
subblock between them, up to the total; and each worker begins where the
worker before it ends. -/
theorem destination_offsets (ext : External) (c : Compression) (L : subblock_list) (T : Nat)
    (hT : 1 ≤ T) :
    (∀ i t, (PCL_DecompressionEngine.threads L T)[i]? = some t →
      t.m_offset = totalUncompressed (L.take (i * (L.length / T))) ∧
      (∀ j sb, t.m_subblocks[j]? = some sb → L[i * (L.length / T) + j]? = some sb) ∧
      (∀ buf, (t.Run ext c buf).1 =
        (DecompressionThread.writes ext c t.m_offset (totalUncompressed t.m_subblocks)
          t.m_subblocks 0).foldl (fun b w => writeAt b w.1 w.2) buf) ∧
      (∀ j w, (DecompressionThread.writes ext c t.m_offset (totalUncompressed t.m_subblocks)
          t.m_subblocks 0)[j]? = some w →
        w.1 = totalUncompressed (L.take (i * (L.length / T) + j))) ∧
      (DecompressionThread.storesRecorded c (totalUncompressed t.m_subblocks) t.m_subblocks 0 →
        (∀ j w sb, (DecompressionThread.writes ext c t.m_offset
            (totalUncompressed t.m_subblocks) t.m_subblocks 0)[j]? = some w →
          t.m_subblocks[j]? = some sb →
          w.2.length = sb.uncompressedSize ∧
          w.1 + w.2.length = totalUncompressed (L.take (i * (L.length / T) + j + 1))) ∧
        (DecompressionThread.passes ext c (totalUncompressed t.m_subblocks) t.m_subblocks 0 →
          (DecompressionThread.output c (totalUncompressed t.m_subblocks)
            t.m_subblocks 0).length = totalUncompressed t.m_subblocks ∧
          ∀ buf, t.m_offset ≤ buf.length →
            (t.Run ext c buf).1 =
              buf.take t.m_offset
                ++ DecompressionThread.output c (totalUncompressed t.m_subblocks)
                    t.m_subblocks 0
                ++ buf.drop (t.m_offset + totalUncompressed t.m_subblocks)))) ∧
    Tiled (PCL_DecompressionEngine.threads L T) 0 ∧
    totalUncompressed (L.take 0) = 0 ∧
    (∀ k, totalUncompressed (L.take (k + 1))
      = totalUncompressed (L.take k) + totalUncompressed ((L.drop k).take 1)) ∧
    (∀ k k2, k ≤ k2 → totalUncompressed (L.take k) ≤ totalUncompressed (L.take k2)) ∧
    totalUncompressed (L.take L.length) = totalUncompressed L := by
  refine ⟨?_, (threads_spec L T hT).1, rfl, totalUncompressed_take_succ L,
    totalUncompressed_take_le L, by rw [List.take_length]⟩
  intro i t ht
  rw [threads_closed, List.getElem?_map] at ht
  have hi : i < T := by
    by_contra hge
    rw [List.getElem?_eq_none (by rw [List.length_range]; omega)] at ht
    cases ht
  rw [List.getElem?_range hi] at ht
  simp only [Option.map_some', Option.some.injEq] at ht
  have hoff : t.m_offset = totalUncompressed (L.take (i * (L.length / T))) := by
    rw [← ht]
  have hsub : ∀ j sb, t.m_subblocks[j]? = some sb → L[i * (L.length / T) + j]? = some sb := by
    intro j sb hj
    rw [← ht] at hj
    dsimp only at hj
    split at hj
    · rw [List.getElem?_take] at hj
      split at hj
      · rw [List.getElem?_drop] at hj
        exact hj
      · cases hj
    · rw [List.getElem?_drop] at hj
      exact hj
  have hstart : ∀ j w, (DecompressionThread.writes ext c t.m_offset
      (totalUncompressed t.m_subblocks) t.m_subblocks 0)[j]? = some w →
      w.1 = totalUncompressed (L.take (i * (L.length / T) + j)) := ?_
  · refine ⟨hoff, hsub, Run_buffer_eq_writes ext c t, hstart, fun hst => ⟨?_, fun hpass => ?_⟩⟩
    · intro j w sb hw hsb
      have hlen := writes_length ext c t.m_offset _ t.m_subblocks 0 j w sb hst hw hsb
      refine ⟨hlen, ?_⟩
      have hLk := hsub j sb hsb
      rw [hstart j w hw, hlen, totalUncompressed_take_succ]
      congr 1
      obtain ⟨hk, hget⟩ := List.getElem?_eq_some_iff.mp hLk
      rw [List.drop_eq_getElem_cons hk, hget]
      simp [totalUncompressed]
    · exact ⟨length_output c _ t.m_subblocks 0 hst,
        fun buf hbuf => by rw [Run_exact ext c t buf hpass hst hbuf]⟩
  intro j w hw
  have h1 := writes_offset ext c t.m_offset _ t.m_subblocks 0 j w hw
  rw [h1, hoff, Nat.add_zero]
  have hjlen : j < t.m_subblocks.length := by
    have hl : (DecompressionThread.writes ext c t.m_offset (totalUncompressed t.m_subblocks)
        t.m_subblocks 0).length ≤ t.m_subblocks.length := by
      generalize (0 : Nat) = ts
      generalize totalUncompressed t.m_subblocks = U
      induction t.m_subblocks generalizing ts with
      | nil => simp [DecompressionThread.writes]
      | cons sb rest ih =>
        simp only [DecompressionThread.writes]
        split
        · simp
        · split
          · simp only [List.length_cons]
            split
            · simp
            · split
              · simp
              · exact Nat.succ_le_succ (ih _)
          · simp only [List.length_cons]
            exact Nat.succ_le_succ (ih _)
    have hjw : j < (DecompressionThread.writes ext c t.m_offset
        (totalUncompressed t.m_subblocks) t.m_subblocks 0).length := by
      by_contra hge
      rw [List.getElem?_eq_none (by omega)] at hw
      cases hw
    omega
  have htake : t.m_subblocks.take j = (L.drop (i * (L.length / T))).take j := by
    rw [← ht] at hjlen ⊢
    dsimp only at hjlen ⊢
    split
    · rename_i hlt
      rw [if_pos hlt, List.length_take] at hjlen
      rw [List.take_take, Nat.min_eq_left (by omega)]
    · rfl
  rw [htake, List.take_add, totalUncompressed_append]

set_option maxRecDepth 100000 in
theorem destination_offsets_witness :
    ({ m_offset := 128, m_subblocks := sampleSubblocks.drop 2 } : DecompressionThread).m_offset
      = totalUncompressed (sampleSubblocks.take (1 * (sampleSubblocks.length / 2))) ∧
    (DecompressionThread.writes sampleExternal sampleAdapter 128 122
        (sampleSubblocks.drop 2) 0).map (fun w => (w.1, w.2.length)) = [(128, 64), (192, 58)] ∧
    (DecompressionThread.output sampleAdapter 122 (sampleSubblocks.drop 2) 0).length = 122 :=
  ⟨((destination_offsets sampleExternal sampleAdapter sampleSubblocks 2 (by decide)).1 1
      { m_offset := 128, m_subblocks := sampleSubblocks.drop 2 } (by decide)).1, by decide,
    ((((destination_offsets sampleExternal sampleAdapter sampleSubblocks 2 (by decide)).1 1
      { m_offset := 128, m_subblocks := sampleSubblocks.drop 2 } (by decide)).2.2.2.2
        (by decide)).2 (by decide)).1⟩

set_option maxRecDepth 100000 in
/-- C21 fails as stated: with one worker and the codec `fillUncompressBlock`,
which returns the recorded size and fills the room it is given, the list
`fillSubblocks` passes the validation and `Uncompress` returns 32 without an
error; the store for subblock 0 starts at offset 0 and has 32 bytes, so it
covers the bytes from offset 16 on, where the store for subblock 1 starts. -/
theorem destination_ranges_overlap :
    (Compression.Uncompress sampleExternal fillCompression (List.replicate 32 0) 32
        fillSubblocks none).outcome = .returned 32 ∧
    DecompressionThread.writes sampleExternal fillCompression 0 32 fillSubblocks 0
      = [(0, List.replicate 32 7), (16, List.replicate 16 8)] ∧
    16 < 0 + (List.replicate 32 7).length := by
  decide

/-- C22 (when `Uncompress` fails). For a non-empty list and at least one
worker, `Uncompress` returns normally if and only if every subblock has a
non-empty payload and a nonzero `uncompressedSize`, `maxSize` is at least the
sum `total` of `uncompressedSize`, and in every worker partition every
subblock passes its checksum test (a stored checksum of 0 is not tested) and,
when its payload is shorter than `uncompressedSize`, the call of
`UncompressBlock` made for it returns `uncompressedSize`. The value returned
is `total`; otherwise an error is thrown. -/
theorem uncompress_returns_iff (ext : External) (c : Compression) (data : ByteArray)
    (maxSize : Nat) (L : subblock_list) (perf : Option Performance) (hne : L ≠ [])
    (hworkers : 1 ≤ numberOfThreads ext c L.length) :
    ((∃ n, (Compression.Uncompress ext c data maxSize L perf).outcome = .returned n) ↔
      (∀ sb ∈ L, sb.compressedData ≠ [] ∧ sb.uncompressedSize ≠ 0) ∧
      totalUncompressed L ≤ maxSize ∧
      ∀ t ∈ PCL_DecompressionEngine.threads L (numberOfThreads ext c L.length).toNat,
        DecompressionThread.passes ext c (totalUncompressed t.m_subblocks) t.m_subblocks 0) ∧
    (∀ n, (Compression.Uncompress ext c data maxSize L perf).outcome = .returned n →
      n = totalUncompressed L) ∧
    ((∃ n, (Compression.Uncompress ext c data maxSize L perf).outcome = .returned n) ∨
      ∃ message, (Compression.Uncompress ext c data maxSize L perf).outcome
        = .thrown message) := by
  have hempty : L.isEmpty = false := by
    cases L with
    | nil => exact absurd rfl hne
    | cons _ _ => rfl
  have hN : ¬ numberOfThreads ext c L.length ≤ 0 := by omega
  cases hval : PCL_DecompressionEngine.validate c L 0 with
  | error message =>
    have hout : (Compression.Uncompress ext c data maxSize L perf).outcome = .thrown message := by
      simp only [Compression.Uncompress, PCL_DecompressionEngine.operator, hempty, hval]
      rfl
    rw [hout]
    refine ⟨⟨?_, ?_⟩, ?_, Or.inr ⟨message, rfl⟩⟩
    · rintro ⟨n, hn⟩
      cases hn
    · rintro ⟨hvalid, _, _⟩
      have := validate_ok c L 0 hvalid
      rw [hval] at this
      cases this
    · intro n hn
      cases hn
  | ok total =>
    have htot := validate_total c L 0 total hval
    rw [Nat.zero_add] at htot
    subst htot
    have hvalid := validate_ok_inv c L 0 _ hval
    by_cases hcap : maxSize < totalUncompressed L
    · have hout : (Compression.Uncompress ext c data maxSize L perf).outcome
          = .thrown (c.Throw (insufficientBufferMessage (totalUncompressed L) maxSize)) := by
        simp only [Compression.Uncompress, PCL_DecompressionEngine.operator, hempty, hval,
          if_pos hcap]
        rfl
      rw [hout]
      refine ⟨⟨?_, ?_⟩, ?_, Or.inr ⟨_, rfl⟩⟩
      · rintro ⟨n, hn⟩
        cases hn
      · rintro ⟨_, hc, _⟩
        omega
      · intro n hn
        cases hn
    · have herr := runThreads_no_error_iff ext c
        (PCL_DecompressionEngine.threads L (numberOfThreads ext c L.length).toNat) 0 data []
      by_cases hall : ∀ t ∈ PCL_DecompressionEngine.threads L
          (numberOfThreads ext c L.length).toNat,
          DecompressionThread.passes ext c (totalUncompressed t.m_subblocks) t.m_subblocks 0
      · have hnil := herr.mpr ⟨rfl, hall⟩
        have hout : (Compression.Uncompress ext c data maxSize L perf).outcome
            = .returned (totalUncompressed L) := by
          have hnil2 := (m_errors_eq_nil ext _).mpr hnil
          simp only [Compression.Uncompress, PCL_DecompressionEngine.operator, hempty, hval,
            if_neg hcap, if_neg hN, PCL_DecompressionEngine.run, hnil2, Bool.false_eq_true,
            if_false, ne_eq, not_true_eq_false]
        rw [hout]
        refine ⟨⟨fun _ => ⟨hvalid, by omega, hall⟩, fun _ => ⟨_, rfl⟩⟩, ?_, Or.inl ⟨_, rfl⟩⟩
        intro n hn
        exact (Outcome.returned.inj hn).symm
      · have hnn : PCL_DecompressionEngine.m_errors ext (PCL_DecompressionEngine.runThreads
            ext c (PCL_DecompressionEngine.threads L (numberOfThreads ext c L.length).toNat)
            0 data []).2 ≠ [] :=
          fun h => hall (herr.mp ((m_errors_eq_nil ext _).mp h)).2
        have hout : ∃ message, (Compression.Uncompress ext c data maxSize L perf).outcome
            = .thrown message := by
          refine ⟨c.Throw (String.intercalate "\n" (PCL_DecompressionEngine.m_errors ext
            (PCL_DecompressionEngine.runThreads ext c
              (PCL_DecompressionEngine.threads L (numberOfThreads ext c L.length).toNat)
              0 data []).2)), ?_⟩
          simp only [Compression.Uncompress, PCL_DecompressionEngine.operator, hempty, hval,
            if_neg hcap, if_neg hN, PCL_DecompressionEngine.run, Bool.false_eq_true, if_false]
          rw [if_pos hnn]
        obtain ⟨message, hm⟩ := hout
        rw [hm]
        refine ⟨⟨?_, ?_⟩, ?_, Or.inr ⟨_, rfl⟩⟩
        · rintro ⟨n, hn⟩
          cases hn
        · rintro ⟨_, _, h⟩
          exact absurd h hall
        · intro n hn
          cases hn

set_option maxRecDepth 100000 in
theorem uncompress_returns_iff_witness :
    250 = totalUncompressed sampleSubblocks ∧
    (Compression.Uncompress sampleExternal sampleCompression (List.replicate 250 0) 250
      sampleSubblocks none).outcome = .returned 250 :=
  ⟨(uncompress_returns_iff sampleExternal sampleCompression (List.replicate 250 0) 250
      sampleSubblocks none (by decide) (by decide)).2.1 250 (by decide), by decide⟩

/-- C23. In a decompression worker the test of line 412 never succeeds:
whenever the loop over the subblocks of the thread completes without
throwing, the final `totalSize` equals the `uncompressedSize` of the
partition, so `Run` records no error and the size-mismatch message of lines
413-414 is never produced. -/
theorem worker_size_check_unreachable (ext : External) (c : Compression)
    (t : DecompressionThread) (buf b : ByteArray) (n : Nat)
    (hloop : DecompressionThread.loop ext c t.m_offset (totalUncompressed t.m_subblocks)
      t.m_subblocks 0 buf = (b, .ok n)) :
    n = totalUncompressed t.m_subblocks ∧ t.Run ext c buf = (b, none) := by
  have h := loop_total ext c t.m_offset _ t.m_subblocks 0 buf b n hloop
  rw [Nat.zero_add] at h
  refine ⟨h, ?_⟩
  unfold DecompressionThread.Run
  dsimp only
  rw [hloop]
  simp [h]

set_option maxRecDepth 100000 in
theorem worker_size_check_unreachable_witness :
    250 = totalUncompressed sampleSubblocks ∧
    DecompressionThread.Run sampleExternal sampleCompression
        { m_offset := 0, m_subblocks := sampleSubblocks } (List.replicate 250 0)
      = (Compression.Shuffle sampleInput 4, none) :=
  worker_size_check_unreachable sampleExternal sampleCompression
    { m_offset := 0, m_subblocks := sampleSubblocks } (List.replicate 250 0)
    (Compression.Shuffle sampleInput 4) 250 (by rfl)

set_option maxRecDepth 100000 in
/-- C24 at a failing input. One worker decodes `largeSubblocks`, two
compressed subblocks of 16 and `2^32 - 16` bytes, each at most
`MaxBlockSize < 2^32`, through `ZLibCompression::UncompressBlock`. For the
first subblock the remaining byte count of the partition is `2^32`, which
suffices, but its conversion to `uint32` is 0, less than the 16 bytes of the
subblock; the API entry, which succeeds when given `2^32`, fails when given 0
and `Uncompress` throws. -/
theorem api_capacity_truncated :
    (∀ sb ∈ largeSubblocks, sb.compressedData.length < sb.uncompressedSize ∧
      sb.uncompressedSize ≤ adapterCompression.MaxBlockSize) ∧
    adapterCompression.MaxBlockSize < 2 ^ 32 ∧
    numberOfThreads sampleExternal adapterCompression largeSubblocks.length = 1 ∧
    16 ≤ totalUncompressed largeSubblocks - 0 ∧
    toUInt32 (totalUncompressed largeSubblocks - 0) = 0 ∧
    (rleAPIUncompressBlock (totalUncompressed largeSubblocks - 0) [7, 16] 2).1 = true ∧
    (rleAPIUncompressBlock (toUInt32 (totalUncompressed largeSubblocks - 0)) [7, 16] 2).1
      = false ∧
    (Compression.Uncompress sampleExternal adapterCompression (List.replicate (2 ^ 32) 0)
        (2 ^ 32) largeSubblocks none).outcome
      = .thrown "RLE compression: Failed to uncompress subblock data (offset=0 usize=16 csize=2)" := by
  decide

/-- C25 (frame on a checksum failure). Let `Uncompress` run with a single
worker on a valid list with sufficient capacity whose subblock `bad`, after
the subblocks `pre`, is the first that fails its checksum test, the subblocks
of `pre` decoding successfully: each passes its checksum test, and every call
of the codec that the worker makes for them, with the room that line 395
passes, returns the recorded size and stores that many bytes. Then it throws
the checksum message of `bad`, and the destination buffer holds the bytes
stored for `pre`, the decoded contents, followed by its former bytes from the
offset `total(pre)` on: the bytes at and after the sum of `uncompressedSize`
of `pre` are unchanged, and no unshuffle is applied, also when byte shuffling
is enabled. The performance record is left as it was. -/
theorem checksum_failure_frame (ext : External) (c : Compression) (data : ByteArray)
    (maxSize : Nat) (pre post : subblock_list) (bad : Subblock) (perf : Option Performance)
    (hone : numberOfThreads ext c (pre ++ bad :: post).length = 1)
    (hvalid : ∀ sb ∈ pre ++ bad :: post, sb.compressedData ≠ [] ∧ sb.uncompressedSize ≠ 0)
    (hcap : totalUncompressed (pre ++ bad :: post) ≤ maxSize)
    (hpre : DecompressionThread.passes ext c (totalUncompressed (pre ++ bad :: post)) pre 0)
    (hstored : DecompressionThread.storesRecorded c (totalUncompressed (pre ++ bad :: post))
      pre 0)
    (hbad : bad.checksumFails ext) :
    Compression.Uncompress ext c data maxSize (pre ++ bad :: post) perf =
      { outcome := .thrown (c.Throw (checksumMismatchMessage (totalUncompressed pre)
          bad.checksum (ext.Hash64 bad.compressedData)))
        data := DecompressionThread.output c (totalUncompressed (pre ++ bad :: post)) pre 0
          ++ data.drop (totalUncompressed pre)
        perf := perf } ∧
    (DecompressionThread.output c (totalUncompressed (pre ++ bad :: post)) pre 0).length
      = totalUncompressed pre ∧
    (DecompressionThread.output c (totalUncompressed (pre ++ bad :: post)) pre 0
        ++ data.drop (totalUncompressed pre)).drop (totalUncompressed pre)
      = data.drop (totalUncompressed pre) := by
  have hlen := length_output c (totalUncompressed (pre ++ bad :: post)) pre 0 hstored
  refine ⟨?_, hlen, ?_⟩
  · have hempty : (pre ++ bad :: post).isEmpty = false := by
      cases pre <;> rfl
    have hval := validate_ok c (pre ++ bad :: post) 0 hvalid
    rw [Nat.zero_add] at hval
    have hbad2 := hbad
    unfold Subblock.checksumFails at hbad2
    have hloop := loop_exact_prefix ext c 0 (totalUncompressed (pre ++ bad :: post)) pre
      (bad :: post) 0 data hpre hstored (by omega)
    rw [Nat.zero_add, Nat.add_zero] at hloop
    have hrun : DecompressionThread.Run ext c
        { m_offset := 0, m_subblocks := pre ++ bad :: post } data
        = (DecompressionThread.output c (totalUncompressed (pre ++ bad :: post)) pre 0
            ++ data.drop (totalUncompressed pre),
            some (checksumMismatchMessage (totalUncompressed pre) bad.checksum
              (ext.Hash64 bad.compressedData))) := by
      unfold DecompressionThread.Run
      dsimp only
      rw [hloop]
      simp only [DecompressionThread.loop, if_pos hbad2, Nat.zero_add]
      rw [writeAt_zero, hlen]
    have e1 : (1 : Int).toNat = 1 := rfl
    simp only [Compression.Uncompress, PCL_DecompressionEngine.operator, hempty, hval,
      if_neg (show ¬ maxSize < totalUncompressed (pre ++ bad :: post) by omega), hone,
      PCL_DecompressionEngine.run, e1, threads_one, PCL_DecompressionEngine.runThreads, hrun,
      Bool.false_eq_true, if_false]
    simp [intercalate_singleton, m_errors_singleton]
  · rw [List.drop_append_eq_append_drop, hlen, Nat.sub_self, List.drop_zero,
      List.drop_eq_nil_of_le (by omega), List.nil_append]

set_option maxRecDepth 100000 in
theorem checksum_failure_frame_witness :
    Compression.Uncompress sampleExternal (sampleAdapter.withWorkers false 1)
        (List.replicate 250 5) 250 corruptedSubblocks none =
      { outcome := .thrown ("RLE compression: Sub-block checksum mismatch "
          ++ "(offset=128, expected 5, got 8324807b4eb032d)")
        data := (List.replicate 62 1 ++ [0, 0]) ++ List.replicate 64 0 ++ List.replicate 122 5
        perf := none } :=
  (checksum_failure_frame sampleExternal (sampleAdapter.withWorkers false 1)
    (List.replicate 250 5) 250 (corruptedSubblocks.take 2) (corruptedSubblocks.drop 3)
    { compressedData := [0, 64], uncompressedSize := 64, checksum := 5 } none
    (by decide) (by decide) (by decide) (by decide) (by decide) (by decide)).1.trans
    (by decide)

end pcl
